import Mathlib

/-!
# Native lowering core of the PIR to LLVM backend

A shallow embedding of `rir/src/compiler/native/lower_llvm.cpp`: the value
representations chosen for PIR types, and the semantics of the LLVM
instruction sequences emitted for the unboxed fast paths.

Conventions.
* A 32-bit machine integer is an `Int` in `[-2^31, 2^31)`; a 64-bit unsigned
  value is a `Nat` below `2^64`.
* An LLVM instruction whose result is undefined (poison) on some inputs, such
  as `add nsw` on overflow or `fptosi` on a value that does not fit, returns
  `Option`, with `none` for the undefined result.
* A `double` is a value of `F64`: NaN, a signed infinity, or a sign and a
  rational magnitude; every operation rounds its exact result to nearest, ties
  to even, with 53 significant bits.
* A branch of the emitted code is a case distinction of the embedding.

The definitions come first, the theorems after them.
-/

namespace Rir

/-! ## Representations -/

/-- The `Representation::Type` enum of `lower_llvm.cpp`, in declaration order. -/
inductive Representation
  | Bottom
  | Integer
  | Real
  | Sexp
deriving DecidableEq, Repr

/-- Position of a representation in the enum, the order used by `merge`. -/
def Representation.rank : Representation → Nat
  | .Bottom => 0
  | .Integer => 1
  | .Real => 2
  | .Sexp => 3

/-- Source `Representation::merge`: the receiver becomes `other` when it is smaller;
returns the new receiver and whether it changed. -/
def Representation.merge (t other : Representation) : Representation × Bool :=
  if t.rank < other.rank then (other, true) else (t, false)

/-! ## PIR types -/

/-- Base kinds of R values that a PIR type can contain. -/
inductive RType
  | nil | cons | sym | chr | logical | integer | real | str | vec | cplx | raw
  | closure | prom | missing | unbound | code | env | ast | dots | other
deriving DecidableEq, Repr

/-- Native (non R) types of PIR values. -/
inductive NativeType
  | context | checkpoint | frameState | test
deriving DecidableEq, Repr

/-- Modelled from the spec: the PIR type lattice (`pir/type.h` is not part of
the sources at hand). A type is a set of base kinds, or a set of native types,
together with the flags of section 3; each flag is stored
in its "maybe" direction, so that a subtype has fewer flags set. -/
structure PirType where
  isRType : Bool
  rtypes : List RType
  natives : List NativeType
  maybeObj : Bool
  maybeHasAttrs : Bool
  maybeNa : Bool
  maybeNotScalar : Bool
  maybePromiseWrapped : Bool
  maybeLazy : Bool
deriving DecidableEq, Repr

namespace PirType

/-- Modelled from the spec: `PirType()`, the empty R type. -/
def bottom : PirType :=
  { isRType := true, rtypes := [], natives := [], maybeObj := false,
    maybeHasAttrs := false, maybeNa := false, maybeNotScalar := false,
    maybePromiseWrapped := false, maybeLazy := false }

/-- Modelled from the spec: `PirType(RType)`, a value of one base kind, of any
length, possibly NA, possibly with attributes. -/
def ofRType (r : RType) : PirType :=
  { isRType := true, rtypes := [r], natives := [], maybeObj := false,
    maybeHasAttrs := true, maybeNa := true, maybeNotScalar := true,
    maybePromiseWrapped := false, maybeLazy := false }

/-- Modelled from the spec: `PirType(NativeType)`. -/
def ofNative (n : NativeType) : PirType :=
  { isRType := false, rtypes := [], natives := [n], maybeObj := false,
    maybeHasAttrs := false, maybeNa := false, maybeNotScalar := false,
    maybePromiseWrapped := false, maybeLazy := false }

/-- Modelled from the spec: `operator|`, the join of two types. -/
def or (a b : PirType) : PirType :=
  { isRType := a.isRType, rtypes := a.rtypes ++ b.rtypes,
    natives := a.natives ++ b.natives,
    maybeObj := a.maybeObj || b.maybeObj,
    maybeHasAttrs := a.maybeHasAttrs || b.maybeHasAttrs,
    maybeNa := a.maybeNa || b.maybeNa,
    maybeNotScalar := a.maybeNotScalar || b.maybeNotScalar,
    maybePromiseWrapped := a.maybePromiseWrapped || b.maybePromiseWrapped,
    maybeLazy := a.maybeLazy || b.maybeLazy }

/-- Modelled from the spec: `scalar()`. -/
def scalar (t : PirType) : PirType := { t with maybeNotScalar := false }

/-- Modelled from the spec: `notObject()`. -/
def notObject (t : PirType) : PirType := { t with maybeObj := false }

/-- Modelled from the spec: `notNa()`. -/
def notNa (t : PirType) : PirType := { t with maybeNa := false }

/-- Modelled from the spec: the subtype relation `isA`, inclusion of the base
kinds and of every flag. -/
def isA (a b : PirType) : Bool :=
  (a.isRType == b.isRType) &&
  a.rtypes.all (fun r => b.rtypes.contains r) &&
  a.natives.all (fun n => b.natives.contains n) &&
  (!a.maybeObj || b.maybeObj) &&
  (!a.maybeHasAttrs || b.maybeHasAttrs) &&
  (!a.maybeNa || b.maybeNa) &&
  (!a.maybeNotScalar || b.maybeNotScalar) &&
  (!a.maybePromiseWrapped || b.maybePromiseWrapped) &&
  (!a.maybeLazy || b.maybeLazy)

/-- The native type `test`. -/
def test : PirType := ofNative .test

end PirType

/-- Source `representationOf(PirType)`, lines 97-109. -/
def representationOf (t : PirType) : Representation :=
  if t.isA PirType.test then .Integer
  else if t.isA (PirType.ofRType .logical).scalar.notObject then .Integer
  else if t.isA (PirType.ofRType .integer).scalar.notObject then .Integer
  else if t.isA (PirType.ofRType .real).scalar.notObject then .Real
  else .Sexp

/-! ## Machine integers -/

/-- The constant `NA_INTEGER`, the smallest 32-bit integer. -/
def NA_INTEGER : Int := -2147483648

/-- The values of a signed 32-bit integer. -/
def isInt32 (v : Int) : Prop := -2147483648 ≤ v ∧ v ≤ 2147483647

instance (v : Int) : Decidable (isInt32 v) := by unfold isInt32; infer_instance

/-- The signed 32-bit integer with the bit pattern of `v mod 2^32`. -/
def wrap32 (v : Int) : Int := (v + 2147483648) % 4294967296 - 2147483648

/-- The bit pattern of a signed 32-bit integer, as an unsigned number. -/
def toU32 (v : Int) : Nat := (v % 4294967296).toNat

/-! ## IEEE-754 binary64 values -/

/-- A binary64 value: NaN, a signed infinity, or a finite value given by its
sign bit and its magnitude. `fin true 0` is the negative zero. Every binary64
number is such a value; the operations below round their exact result to the
nearest representable magnitude. -/
inductive F64
  | nan
  | inf (neg : Bool)
  | fin (neg : Bool) (mag : ℚ)
deriving DecidableEq

namespace F64

/-- Nearest integer to a non-negative rational, ties to the even one. -/
def roundHalfEven (x : ℚ) : Int :=
  let f := ⌊x⌋
  let r := x - f
  if r < 1 / 2 then f
  else if 1 / 2 < r then f + 1
  else if f % 2 = 0 then f else f + 1

/-- Exponent of the binade of a magnitude: `floor (log2 m)`, and the smallest
normal exponent for the subnormal magnitudes. -/
def binade (m : ℚ) : Int := max (Int.log 2 m) (-1022)

/-- Distance between neighbouring binary64 magnitudes around `m`
(53 significant bits). -/
def ulp (m : ℚ) : ℚ := (2 : ℚ) ^ (binade m - 52)

/-- Round the exact magnitude `m` to nearest, ties to even; a magnitude that
rounds to `2^1024` or more overflows to infinity. -/
def round (neg : Bool) (m : ℚ) : F64 :=
  let r : ℚ := (roundHalfEven (m / ulp m) : ℚ) * ulp m
  if (2 : ℚ) ^ 1024 ≤ r then inf neg else fin neg r

/-- Round an exact non-zero result; the sign is the sign of the number. -/
def ofRat (q : ℚ) : F64 := round (decide (q < 0)) |q|

/-- The number denoted by a finite value (0 for the others). -/
def toRat : F64 → ℚ
  | fin neg m => if neg then -m else m
  | _ => 0

/-- NaN test. -/
def isNaN : F64 → Bool
  | nan => true
  | _ => false

/-- Ordered "less than": false when an operand is NaN. -/
def lt : F64 → F64 → Bool
  | nan, _ => false
  | _, nan => false
  | inf n1, inf n2 => n1 && !n2
  | inf n, fin _ _ => n
  | fin _ _, inf n => !n
  | fin n1 m1, fin n2 m2 => decide ((fin n1 m1).toRat < (fin n2 m2).toRat)

/-- Ordered equality: false when an operand is NaN; the two zeros are equal. -/
def eq : F64 → F64 → Bool
  | nan, _ => false
  | _, nan => false
  | inf n1, inf n2 => n1 == n2
  | inf _, fin _ _ => false
  | fin _ _, inf _ => false
  | fin n1 m1, fin n2 m2 => decide ((fin n1 m1).toRat = (fin n2 m2).toRat)

/-- Whether one of the operands is NaN. -/
def unordered (x y : F64) : Bool := x.isNaN || y.isNaN

/-- LLVM `fcmp ueq`: unordered or equal. -/
def fcmpUEQ (x y : F64) : Bool := unordered x y || eq x y
/-- LLVM `fcmp une`: unordered or not equal. -/
def fcmpUNE (x y : F64) : Bool := unordered x y || !eq x y
/-- LLVM `fcmp ult`: unordered or less than. -/
def fcmpULT (x y : F64) : Bool := unordered x y || lt x y
/-- LLVM `fcmp ule`: unordered or less than or equal. -/
def fcmpULE (x y : F64) : Bool := unordered x y || lt x y || eq x y
/-- LLVM `fcmp ugt`: unordered or greater than. -/
def fcmpUGT (x y : F64) : Bool := unordered x y || lt y x
/-- LLVM `fcmp uge`: unordered or greater than or equal. -/
def fcmpUGE (x y : F64) : Bool := unordered x y || lt y x || eq x y

/-- LLVM `sitofp` of a machine integer (exact for 32-bit integers). -/
def ofInt (i : Int) : F64 := round (decide (i < 0)) |(i : ℚ)|

/-- LLVM `fneg`. -/
def fneg : F64 → F64
  | nan => nan
  | inf n => inf (!n)
  | fin n m => fin (!n) m

/-- LLVM `llvm.fabs`. -/
def fabs : F64 → F64
  | nan => nan
  | inf _ => inf false
  | fin _ m => fin false m

/-- LLVM `llvm.floor`: the largest integral value not above the operand; the
negative zero stays negative. -/
def floor : F64 → F64
  | nan => nan
  | inf n => inf n
  | fin n m => if n then fin true ⌈m⌉ else fin false ⌊m⌋

/-- LLVM `fadd`. An exact zero sum is negative only when both operands are. -/
def fadd : F64 → F64 → F64
  | nan, _ => nan
  | _, nan => nan
  | inf n1, inf n2 => if n1 = n2 then inf n1 else nan
  | inf n, fin _ _ => inf n
  | fin _ _, inf n => inf n
  | fin n1 m1, fin n2 m2 =>
    let d := (fin n1 m1).toRat + (fin n2 m2).toRat
    if d = 0 then fin (n1 && n2) 0 else ofRat d

/-- LLVM `fsub`: the sum with the negated second operand. -/
def fsub (x y : F64) : F64 := fadd x (fneg y)

/-- LLVM `fmul`. The sign is the exclusive or of the signs. -/
def fmul : F64 → F64 → F64
  | nan, _ => nan
  | _, nan => nan
  | inf n1, inf n2 => inf (xor n1 n2)
  | inf n1, fin n2 m => if m = 0 then nan else inf (xor n1 n2)
  | fin n1 m, inf n2 => if m = 0 then nan else inf (xor n1 n2)
  | fin n1 m1, fin n2 m2 => round (xor n1 n2) (m1 * m2)

/-- LLVM `fdiv`. The sign is the exclusive or of the signs. -/
def fdiv : F64 → F64 → F64
  | nan, _ => nan
  | _, nan => nan
  | inf _, inf _ => nan
  | inf n1, fin n2 _ => inf (xor n1 n2)
  | fin n1 _, inf n2 => fin (xor n1 n2) 0
  | fin n1 m1, fin n2 m2 =>
    if m2 = 0 then (if m1 = 0 then nan else inf (xor n1 n2))
    else round (xor n1 n2) (m1 / m2)

/-- Truncation of a finite value toward zero. -/
def trunc (x : F64) : Int :=
  if 0 ≤ x.toRat then ⌊x.toRat⌋ else ⌈x.toRat⌉

/-- LLVM `fptosi` to a 32-bit integer: the truncation when it fits, undefined
otherwise (NaN and the infinities included). -/
def fptosi : F64 → Option Int
  | fin n m => if isInt32 (trunc (fin n m)) then some (trunc (fin n m)) else none
  | _ => none

/-- LLVM `fptoui` to a 64-bit integer: the truncation when it fits, undefined
otherwise. -/
def fptoui : F64 → Option Nat
  | fin n m =>
    if 0 ≤ trunc (fin n m) ∧ trunc (fin n m) < 18446744073709551616 then
      some (trunc (fin n m)).toNat
    else none
  | _ => none

end F64

/-! ## Values of the emitted code -/

/-- An unboxed value of the emitted code: an `i32` or a `double`. -/
inductive NVal
  | int (v : Int)
  | dbl (x : F64)
deriving DecidableEq

/-- An operand loaded in the representation of its PIR type: unboxed, or a
pointer to a heap object (representation `Sexp`). -/
inductive Operand
  | int (v : Int)
  | dbl (x : F64)
  | sexp
deriving DecidableEq

/-- Source `representationOf(v)` for a loaded operand. -/
def Operand.rep : Operand → Representation
  | .int _ => .Integer
  | .dbl _ => .Real
  | .sexp => .Sexp

/-- What a piece of emitted code does when run: whether it calls the `warn`
builtin, and its value (`none` when the value is undefined). -/
structure Emitted (α : Type) where
  warned : Bool
  value : Option α
deriving DecidableEq

/-- Emitted code that computes `v` without a warning. -/
def Emitted.pure {α : Type} (v : Option α) : Emitted α := ⟨false, v⟩

/-- Both `R_NaN` and `NA_REAL` are both NaNs; the embedding has one NaN. -/
def NA_REAL : F64 := F64.nan

/-- The constant `R_NaN`. -/
def R_NaN : F64 := F64.nan

/-- Source `nacheck(v, isNa)`, lines 1659-1672: the condition `isNotNa` on which the
emitted branch goes on to `notNa`; when it is false control goes to `isNa`. -/
def nacheck : NVal → Bool
  | .dbl x => F64.fcmpUEQ x x
  | .int v => v != NA_INTEGER

/-- Result of a conversion between representations. -/
inductive ConvertResult
  | value (v : Option NVal)
  | boxCall (v : NVal)
  | failed
deriving DecidableEq

/-- Source `convert(val, toType)`, lines 1265-1294, for an unboxed `val`;
`toRep` is `representationOf(toType)`. Boxing is a call of `box`; the last case
is the failing assertion. -/
def convert (val : NVal) (toRep : Representation) : ConvertResult :=
  match val, toRep with
  | .int v, .Integer => .value (some (.int v))
  | .dbl x, .Real => .value (some (.dbl x))
  | v, .Sexp => .boxCall v
  | .int v, .Real =>
    .value (some (.dbl (if v = NA_INTEGER then NA_REAL else F64.ofInt v)))
  | .dbl x, .Integer =>
    .value (if F64.fcmpUNE x x then some (.int NA_INTEGER)
      else (F64.fptosi x).map NVal.int)
  | _, .Bottom => .failed

/-- The coercion step of `load(val, type, needed)`, lines 911-944, for a value
`res` that is unboxed once the operand is resolved and unboxed. -/
def loadCoerce (res : NVal) (needed : Representation) : ConvertResult :=
  match res, needed with
  | .int v, .Real => .value (some (.dbl (F64.ofInt v)))
  | .dbl x, .Integer => .value ((F64.fptosi x).map NVal.int)
  | v, .Sexp => .boxCall v
  | .int v, .Integer => .value (some (.int v))
  | .dbl x, .Real => .value (some (.dbl x))
  | _, .Bottom => .failed

/-! ## Integer instructions -/

/-- LLVM `add nsw` on `i32`: undefined on signed overflow. -/
def addNSW (a b : Int) : Option Int := if isInt32 (a + b) then some (a + b) else none

/-- LLVM `sub nsw` on `i32`. -/
def subNSW (a b : Int) : Option Int := if isInt32 (a - b) then some (a - b) else none

/-- LLVM `mul nsw` on `i32`. -/
def mulNSW (a b : Int) : Option Int := if isInt32 (a * b) then some (a * b) else none

/-- LLVM `sdiv` on `i32`: undefined for a zero divisor and for `INT_MIN / -1`. -/
def sdiv (a b : Int) : Option Int :=
  if b = 0 ∨ ¬ isInt32 (Int.tdiv a b) then none else some (Int.tdiv a b)

/-- LLVM `srem` on `i32`: the remainder has the sign of the dividend; undefined
for a zero divisor and for `INT_MIN rem -1`. -/
def srem (a b : Int) : Option Int :=
  if b = 0 ∨ ¬ isInt32 (Int.tdiv a b) then none else some (Int.tmod a b)

/-- LLVM `shl` on `i32`: undefined for a shift amount of 32 or more. -/
def shl (a n : Int) : Option Int :=
  if toU32 n < 32 then some (wrap32 (a * 2 ^ toU32 n)) else none

/-- LLVM `lshr` on `i32` (zero fill): undefined for a shift amount of 32 or more. -/
def lshr (a n : Int) : Option Int :=
  if toU32 n < 32 then some (wrap32 (toU32 a / 2 ^ toU32 n : Nat)) else none

/-- LLVM `and` on `i32`. -/
def and32 (a b : Int) : Int := wrap32 (toU32 a &&& toU32 b : Nat)

/-- LLVM `or` on `i32`. -/
def or32 (a b : Int) : Int := wrap32 (toU32 a ||| toU32 b : Nat)

/-- LLVM `xor` on `i32`. -/
def xor32 (a b : Int) : Int := wrap32 (toU32 a ^^^ toU32 b : Nat)

/-- LLVM `zext i1 to i32`. -/
def zextBool (b : Bool) : Int := if b then 1 else 0

/-- The value an `i1`- or `i32`-typed callback result has after
`CreateZExt(_, t::Int)`, which leaves an `i32` as it is. -/
inductive Bits
  | i1 (b : Bool)
  | i32 (v : Int)
deriving DecidableEq

/-- The call `CreateZExt(v, t::Int)`. -/
def Bits.zext : Bits → Int
  | .i1 b => zextBool b
  | .i32 v => v

/-! ## Arithmetic: `compileBinop` -/

/-- The operand as loaded by `load(v, representationOf(v))` when it is
unboxed. -/
def Operand.load : Operand → Option NVal
  | .int v => some (.int v)
  | .dbl x => some (.dbl x)
  | .sexp => none

/-- The lambda `checkNa` of `compileBinop`, lines 1903-1912: whether control
leaves for the block `isNa`. Only an operand in `Integer` representation whose
type may be NA is checked. -/
def checkNa (maybeNa : Bool) (v : NVal) : Bool :=
  match v with
  | .int _ => maybeNa && !nacheck v
  | .dbl _ => false

/-- The operand of the floating-point operation: an `i32` goes through
`sitofp`, lines 1919-1922. -/
def NVal.toDouble : NVal → F64
  | .int v => F64.ofInt v
  | .dbl x => x

/-- The field `Emitted.value` mapped through `f`. -/
def Emitted.map {α β : Type} (f : α → β) (e : Emitted α) : Emitted β :=
  ⟨e.warned, e.value.map f⟩

/-- The unboxed path of `compileBinop`, lines 1892-1941: the value of the phi
`res` in the block `done`. -/
def binopNative (intInsert : Int → Int → Emitted Int)
    (fpInsert : Option (F64 → F64 → Emitted F64))
    (lhsMaybeNa rhsMaybeNa : Bool) (a b : NVal) : Emitted NVal :=
  if checkNa lhsMaybeNa a || checkNa rhsMaybeNa b then
    match a, b with
    | .int _, .int _ => Emitted.pure (some (.int NA_INTEGER))
    | _, _ => Emitted.pure (some (.dbl R_NaN))
  else
    match a, b with
    | .int x, .int y => (intInsert x y).map NVal.int
    | _, _ =>
      match fpInsert with
      | some f => (f a.toDouble b.toDouble).map NVal.dbl
      | none => Emitted.pure none

/-- Outcome of lowering a binary instruction. -/
inductive BinopOut
  | runtimeCall (withEnv : Bool)
  | native (warned : Bool) (r : ConvertResult)
deriving DecidableEq

/-- Source `compileBinop`, lines 1864-1947. `rep` is the representation of the
instruction, `hasEnv` whether it has an environment; the operands come with the
`maybeNa` flag of their types. -/
def compileBinop (hasEnv : Bool) (intInsert : Int → Int → Emitted Int)
    (fpInsert : Option (F64 → F64 → Emitted F64)) (rep : Representation)
    (lhsMaybeNa rhsMaybeNa : Bool) (lhs rhs : Operand) : BinopOut :=
  match lhs.load, rhs.load with
  | some a, some b =>
    if fpInsert.isNone ∧ (lhs.rep ≠ .Integer ∨ rhs.rep ≠ .Integer) then
      .runtimeCall hasEnv
    else
      let res := binopNative intInsert fpInsert lhsMaybeNa rhsMaybeNa a b
      match res.value with
      | some v => .native res.warned (convert v rep)
      | none => .native res.warned (.value none)
  | _, _ => .runtimeCall hasEnv

/-- The arithmetic instructions lowered through `compileBinop` that are
embedded here. -/
inductive BinopTag
  | Add | Sub | Mul | IDiv | Mod
deriving DecidableEq

/-- The integer callback of `Tag::IDiv`, lines 3577-3600. -/
def idivInt (a b : Int) : Emitted Int :=
  if b = 0 then Emitted.pure (some NA_INTEGER)
  else Emitted.pure (F64.fptosi (F64.fdiv (F64.ofInt a) (F64.ofInt b)))

/-- The floating-point callback of `Tag::IDiv` ("from myfloor"), lines
3601-3630. -/
def idivFp (a b : F64) : Emitted F64 :=
  let q := F64.fdiv a b
  if F64.fcmpUEQ b (F64.fin false 0) then Emitted.pure (some q)
  else
    let fq := F64.floor q
    let tmp := F64.fsub a (F64.fmul fq b)
    let frem := F64.floor (F64.fdiv tmp b)
    Emitted.pure (some (F64.fadd fq frem))

/-- Modelled from the spec: `1 / R_AccuracyInfo.eps`. The constant is set by
the R runtime, outside these sources; `eps` is the binary64 machine epsilon
`2^-52`. -/
def accuracyInvEps : F64 := F64.fin false 4503599627370496

/-- The lambda `myfmod` of `Tag::Mod`, lines 3634-3685. The warning is emitted
when `finite && gt` holds. -/
def myfmod (a b : F64) : Emitted F64 :=
  if F64.fcmpUEQ b (F64.fin false 0) then Emitted.pure (some R_NaN)
  else
    let q := F64.fdiv a b
    let fq := F64.floor q
    let absq := F64.fabs q
    let finite := F64.fcmpUNE absq (F64.fin false 9218868437227405312)
    let gt := F64.fcmpUGT absq accuracyInvEps
    let tmp := F64.fsub a (F64.fmul fq b)
    let frem := F64.floor (F64.fdiv tmp b)
    ⟨finite && gt, some (F64.fsub tmp (F64.fmul frem b))⟩

/-- The integer callback of `Tag::Mod`, lines 3689-3715. -/
def modInt (a b : Int) : Emitted Int :=
  if 0 ≤ a ∧ 0 < b then Emitted.pure (srem a b)
  else
    let r := myfmod (F64.ofInt a) (F64.ofInt b)
    ⟨r.warned, r.value.bind F64.fptosi⟩

/-- The integer callback passed to `compileBinop` for each tag. -/
def intInsertOf : BinopTag → Int → Int → Emitted Int
  | .Add => fun a b => Emitted.pure (addNSW a b)
  | .Sub => fun a b => Emitted.pure (subNSW a b)
  | .Mul => fun a b => Emitted.pure (mulNSW a b)
  | .IDiv => idivInt
  | .Mod => modInt

/-- The floating-point callback passed to `compileBinop` for each tag. -/
def fpInsertOf : BinopTag → F64 → F64 → Emitted F64
  | .Add => fun a b => Emitted.pure (some (F64.fadd a b))
  | .Sub => fun a b => Emitted.pure (some (F64.fsub a b))
  | .Mul => fun a b => Emitted.pure (some (F64.fmul a b))
  | .IDiv => idivFp
  | .Mod => myfmod

/-- The case of `tryCompile` for an arithmetic tag: `compileBinop` with the
callbacks of the tag. -/
def lowerBinop (tag : BinopTag) (hasEnv : Bool) (rep : Representation)
    (lhsMaybeNa rhsMaybeNa : Bool) (lhs rhs : Operand) : BinopOut :=
  compileBinop hasEnv (intInsertOf tag) (some (fpInsertOf tag)) rep
    lhsMaybeNa rhsMaybeNa lhs rhs

/-! ## Relational and logical instructions: `compileRelop` -/

/-- Outcome of lowering a relational instruction. -/
inductive RelopOut
  | runtimeCall (withEnv : Bool)
  | native (r : ConvertResult)
deriving DecidableEq

/-- The unboxed path of `compileRelop`, lines 1830-1856: the value of the phi
`res` in the block `done`. -/
def relopNative (intInsert : Int → Int → Bits) (fpInsert : F64 → F64 → Bits)
    (a b : NVal) : Int :=
  if !nacheck a then NA_INTEGER
  else if !nacheck b then NA_INTEGER
  else
    match a, b with
    | .int x, .int y => (intInsert x y).zext
    | _, _ => (fpInsert a.toDouble b.toDouble).zext

/-- Source `compileRelop`, lines 1804-1862. -/
def compileRelop (hasEnv : Bool) (intInsert : Int → Int → Bits)
    (fpInsert : F64 → F64 → Bits) (rep : Representation) (lhs rhs : Operand) :
    RelopOut :=
  match lhs.load, rhs.load with
  | some a, some b => .native (convert (.int (relopNative intInsert fpInsert a b)) rep)
  | _, _ => .runtimeCall hasEnv

/-- The instructions lowered through `compileRelop`. -/
inductive RelopTag
  | Eq | Neq | Lt | Lte | Gt | Gte | LAnd | LOr
deriving DecidableEq

/-- The floating-point zero constant `c(0.0)`. -/
def fzero : F64 := F64.fin false 0

/-- The integer callback passed to `compileRelop` for each tag, lines
3420-3573. -/
def relIntInsertOf : RelopTag → Int → Int → Bits
  | .Eq => fun a b => .i1 (decide (a = b))
  | .Neq => fun a b => .i1 (decide (a ≠ b))
  | .Lt => fun a b => .i1 (decide (a < b))
  | .Lte => fun a b => .i1 (decide (a ≤ b))
  | .Gt => fun a b => .i1 (decide (a > b))
  | .Gte => fun a b => .i1 (decide (a ≥ b))
  | .LAnd => fun a b =>
    .i32 (and32 (zextBool (decide (a ≠ 0))) (zextBool (decide (b ≠ 0))))
  | .LOr => fun a b => .i32 (or32 a b)

/-- The floating-point callback passed to `compileRelop` for each tag. -/
def relFpInsertOf : RelopTag → F64 → F64 → Bits
  | .Eq => fun a b => .i1 (F64.fcmpUEQ a b)
  | .Neq => fun a b => .i1 (F64.fcmpUNE a b)
  | .Lt => fun a b => .i1 (F64.fcmpULT a b)
  | .Lte => fun a b => .i1 (F64.fcmpULE a b)
  | .Gt => fun a b => .i1 (F64.fcmpUGT a b)
  | .Gte => fun a b => .i1 (F64.fcmpUGE a b)
  | .LAnd => fun a b =>
    .i32 (and32 (zextBool (F64.fcmpUNE a fzero)) (zextBool (F64.fcmpUNE b fzero)))
  | .LOr => fun a b =>
    .i32 (or32 (zextBool (F64.fcmpUNE a fzero)) (zextBool (F64.fcmpUNE b fzero)))

/-- The case of `tryCompile` for a relational tag. -/
def lowerRelop (tag : RelopTag) (hasEnv : Bool) (rep : Representation)
    (lhs rhs : Operand) : RelopOut :=
  compileRelop hasEnv (relIntInsertOf tag) (relFpInsertOf tag) rep lhs rhs

/-- The relation a tag stands for, on two integers that are not NA. -/
def RelopTag.holds : RelopTag → Int → Int → Bool
  | .Eq => fun a b => decide (a = b)
  | .Neq => fun a b => decide (a ≠ b)
  | .Lt => fun a b => decide (a < b)
  | .Lte => fun a b => decide (a ≤ b)
  | .Gt => fun a b => decide (a > b)
  | .Gte => fun a b => decide (a ≥ b)
  | .LAnd => fun a b => decide (a ≠ 0 ∧ b ≠ 0)
  | .LOr => fun a b => decide (a ≠ 0 ∨ b ≠ 0)

/-! ## Inlined bitwise builtins -/

/-- The builtins of the table `bitwise`, lines 2486-2490, in table order. -/
inductive BitwiseOp
  | shiftL | shiftR | and | or | xor
deriving DecidableEq

/-- Source `load(x, Representation::Integer)` for an unboxed operand: a `double` goes
through the `fptosi` of `load`. -/
def loadInt : NVal → Option Int
  | .int v => some v
  | .dbl x => F64.fptosi x

/-- The range checks emitted for the two shifts, lines 2539-2553 and
2559-2573: `none` when control goes to `isNa`. A branch on an undefined shift
amount makes the result undefined. -/
def shiftGuard (yInt : Option Int) (k : Int → Option Int) : Option Int :=
  match yInt with
  | none => none
  | some n => if n < 0 then some NA_INTEGER else if n > 31 then some NA_INTEGER else k n

/-- The inlined bitwise builtins, lines 2507-2604, for operands whose
representation is `Integer` or `Real` (a boxed operand of a scalar numeric type
is unboxed to a `double` first): the value given to `setVal`. -/
def bitwiseInline (op : BitwiseOp) (x y : NVal) : Option Int :=
  let xInt := loadInt x
  let yInt := loadInt y
  if !nacheck x then some NA_INTEGER
  else if !nacheck y then some NA_INTEGER
  else
    match op with
    | .shiftL => shiftGuard yInt (fun n => xInt.bind (fun v => shl v n))
    | .shiftR => shiftGuard yInt (fun n => xInt.bind (fun v => lshr v n))
    | .and => xInt.bind (fun v => yInt.map (fun w => and32 v w))
    | .or => xInt.bind (fun v => yInt.map (fun w => or32 v w))
    | .xor => xInt.bind (fun v => yInt.map (fun w => xor32 v w))

/-! ## Vector indices: `computeAndCheckIndex` -/

/-- The signed reading of a 64-bit pattern. -/
def toS64 (a : Nat) : Int := if a < 9223372036854775808 then a else (a : Int) - 18446744073709551616

/-- The values of a signed 64-bit integer. -/
def isInt64 (v : Int) : Prop := -9223372036854775808 ≤ v ∧ v ≤ 9223372036854775807

instance (v : Int) : Decidable (isInt64 v) := by unfold isInt64; infer_instance

/-- LLVM `sub nuw nsw` on `i64`: undefined on unsigned or signed overflow. -/
def subNUWNSW64 (a b : Nat) : Option Nat :=
  if b ≤ a ∧ isInt64 (toS64 a - toS64 b) then some (a - b) else none

/-- LLVM `mul nuw nsw` on `i64`. -/
def mulNUWNSW64 (a b : Nat) : Option Nat :=
  if a * b < 18446744073709551616 ∧ isInt64 (toS64 a * toS64 b) then some (a * b) else none

/-- LLVM `add nuw nsw` on `i64`. -/
def addNUWNSW64 (a b : Nat) : Option Nat :=
  if a + b < 18446744073709551616 ∧ isInt64 (toS64 a + toS64 b) then some (a + b) else none

/-- The `vector` argument of `computeAndCheckIndex`: a heap vector with its
length, or an unboxed scalar. -/
inductive VectorSrc
  | sexp (length : Nat)
  | scalar
deriving DecidableEq

/-- Where `computeAndCheckIndex` leaves control: in the block `fallback`, or in
the block `hit` with the native index it returns. -/
inductive IndexCheck
  | fallback
  | hit (nativeIndex : Nat)
deriving DecidableEq

/-- The bound of the last check of `computeAndCheckIndex`, lines 997-998: the
explicit `max`, else the length of a heap vector, else 1 for an unboxed
scalar. -/
def indexBound (vector : VectorSrc) (max : Option Nat) : Nat :=
  match max with
  | some m => m
  | none =>
    match vector with
    | .sexp length => length
    | .scalar => 1

/-- The constant `c((double)ULONG_MAX)`: the conversion rounds `2^64 - 1` up to `2^64`. -/
def ulongMaxDouble : F64 := F64.fin false 18446744073709551616

/-- Source `computeAndCheckIndex(index, vector, fallback, max)`, lines 949-1003, for
an index that is unboxed (a boxed index is unboxed to a `double` first).
`none` is an undefined result. -/
def computeAndCheckIndex (index : NVal) (vector : VectorSrc) (max : Option Nat) :
    Option IndexCheck :=
  let bound : Nat := indexBound vector max
  let rest (nativeIndex : Nat) : Option IndexCheck :=
    (subNUWNSW64 nativeIndex 1).map
      (fun n => if bound ≤ n then IndexCheck.fallback else IndexCheck.hit n)
  match index with
  | .dbl x =>
    let indexUnderRange := F64.fcmpULT x (F64.fin false 1)
    let indexOverRange := F64.fcmpUGE x ulongMaxDouble
    let indexNa := F64.fcmpUNE x x
    if indexUnderRange || (indexOverRange || indexNa) then some .fallback
    else (F64.fptoui x).bind rest
  | .int i =>
    let indexUnderRange := decide (i < 1)
    let indexNa := decide (i = NA_INTEGER)
    if indexUnderRange || indexNa then some .fallback
    else rest (toU32 i)

/-- The index computation of the two-dimensional fast paths (`Extract1_2D`,
`Extract2_2D`, `Subassign2_2D`), lines 4258-4269, 4413-4424 and 4543-4557.
`ncols` and `nrows` are the `int` results of `matrixNcols` and `matrixNrows`. -/
def index2D (ncols nrows : Int) (idx1 idx2 : NVal) (vector : VectorSrc) :
    Option IndexCheck :=
  let ncol := toU32 ncols
  let nrow := toU32 nrows
  match computeAndCheckIndex idx1 vector (some nrow) with
  | none => none
  | some .fallback => some .fallback
  | some (.hit index1) =>
    match computeAndCheckIndex idx2 vector (some ncol) with
    | none => none
    | some .fallback => some .fallback
    | some (.hit index2) =>
      ((mulNUWNSW64 nrow index2).bind (fun i => addNUWNSW64 i index1)).map IndexCheck.hit

/-! ## Explicit logical conversions: `AsTest` and `AsLogical` -/

/-- Where the code emitted for `AsTest` leaves control: in the call of the
`asTest` builtin (boxed operand), in the block `done` with the value given to
`setVal` (`none` when that value is undefined), or in the block `asTestIsNa`,
which calls `error` with the message. -/
inductive AsTestOut
  | runtimeCall
  | done (bound : Option Int)
  | error (msg : String)
deriving DecidableEq

/-- The message of the block `asTestIsNa`, line 3971. -/
def asTestMsg : String := "missing value where TRUE/FALSE needed"

/-- Source `case Tag::AsTest`, lines 3941-3979. -/
def lowerAsTest : Operand → AsTestOut
  | .sexp => .runtimeCall
  | .dbl x =>
    let isNotNa := F64.fcmpUEQ x x
    let narg := F64.fptosi x
    if isNotNa then .done narg else .error asTestMsg
  | .int v =>
    let isNotNa := v != NA_INTEGER
    if isNotNa then .done (some v) else .error asTestMsg

/-- What the code emitted for `AsLogical` gives to `setVal`: the result of the
`asLogicalBlt` builtin, or an `i32` (`none` when undefined). -/
inductive AsLogicalOut
  | runtimeCall
  | value (res : Option Int)
deriving DecidableEq

/-- Source `case Tag::AsLogical`, lines 3981-4019. -/
def lowerAsLogical : Operand → AsLogicalOut
  | .sexp => .runtimeCall
  | .dbl x =>
    let inInt := loadInt (.dbl x)
    let nin := NVal.dbl x
    if nacheck nin then .value inInt else .value (some NA_INTEGER)
  | .int v => .value (loadInt (.int v))

/-! ## The `sxpinfo` header word -/

/-- The macro `NAMED_BITS` of the R headers: the width of the NAMED field of
`sxpinfo`. -/
def NAMED_BITS : Nat := 16

/-- The macro `TYPE_BITS` of the R headers: the width of the type field of
`sxpinfo`. -/
def TYPE_BITS : Nat := 5

/-- Bitwise complement of an `unsigned long`. -/
def not64 (a : Nat) : Nat := (2 ^ 64 - 1) ^^^ a

/-- The value `named` computed in `shared`, `ensureShared` and
`incrementNamed`, lines 1551-1553: `(sxpinfo >> 32) & namedMask` with
`namedMask = pow(2, NAMED_BITS) - 1`. -/
def named (sxpinfo : Nat) : Nat :=
  let namedMask := 2 ^ NAMED_BITS - 1
  (sxpinfo >>> 32) &&& namedMask

/-- Source `shared(v)`, lines 1546-1555, on the `sxpinfo` word of `v`. -/
def shared (sxpinfo : Nat) : Bool := decide (named sxpinfo > 1)

/-- Source `ensureNamed(v)`, lines 1576-1598: the `sxpinfo` word of `v` after
the emitted code ran on the word `sxpinfo`. -/
def ensureNamed (sxpinfo : Nat) : Nat :=
  let namedMask := (2 ^ NAMED_BITS - 1) <<< 32
  let namedLSB := 1 <<< 32
  let isNotNamed := decide (sxpinfo &&& namedMask = 0)
  if isNotNamed then sxpinfo ||| namedLSB else sxpinfo

/-- Source `ensureShared(v)`, lines 1600-1627: the `sxpinfo` word of `v` after
the emitted code ran on the word `sxpinfo`. -/
def ensureShared (sxpinfo : Nat) : Nat :=
  let namedMask := 2 ^ NAMED_BITS - 1
  let namedNegMask := not64 (namedMask <<< 32)
  let isNamedShared := decide (named sxpinfo ≥ 2)
  if isNamedShared then sxpinfo
  else
    let newNamed := 2 <<< 32
    (sxpinfo &&& namedNegMask) ||| newNamed

/-- The annotations of the refcount analysis that the lowering tests for. -/
inductive RefcountAdjustment
  | SetShared
  | EnsureNamed
deriving DecidableEq

/-- The refcount adjustment before a use, lines 2346-2363, for one argument
`v` of representation `rep`: `needed` is the entry of `refcount.beforeUse` for
the argument, and the result is the `sxpinfo` word of `v` afterwards. -/
def adjustBeforeUse (rep : Representation) (needed : Option RefcountAdjustment)
    (sxpinfo : Nat) : Nat :=
  if rep ≠ .Sexp then sxpinfo
  else
    match needed with
    | some .SetShared => ensureShared sxpinfo
    | some .EnsureNamed => ensureNamed sxpinfo
    | none => sxpinfo

/-- Source `ensureNamedIfNeeded(i, val)`, lines 1557-1574, the adjustment at the
creation site: `hasVariable` is `variables_.count(i)`, `initialized` is the flag
of that variable, `adjust` the entry of `refcount.atCreation`; the result is
the `sxpinfo` word of the value afterwards. -/
def ensureNamedIfNeeded (rep : Representation) (hasVariable initialized : Bool)
    (adjust : Option RefcountAdjustment) (sxpinfo : Nat) : Nat :=
  if rep = .Sexp ∧ hasVariable = true ∧ initialized = true then
    match adjust with
    | some .SetShared => ensureShared sxpinfo
    | some .EnsureNamed => ensureShared sxpinfo
    | none => sxpinfo
  else sxpinfo

/-- The callbacks of `writeBarrier`. -/
inductive BarrierCallback
  | no
  | yes
deriving DecidableEq

/-- Source `writeBarrier(x, y, no, yes)`, lines 2012-2051, on the `sxpinfo` words
of `x` and `y`: the callbacks whose code runs, in order, on the path taken from
the entry of the emitted code to the block `done`. -/
def writeBarrier (sxpinfoX sxpinfoY : Nat) : List BarrierCallback :=
  let markBitPos := 1 <<< (TYPE_BITS + 19)
  let genBitPos := 1 <<< (TYPE_BITS + 23)
  let noBarrier := [BarrierCallback.no]
  let needsBarrier := [BarrierCallback.yes]
  let markBitX := decide (sxpinfoX &&& markBitPos ≠ 0)
  if markBitX then
    let markBitY := decide (sxpinfoY &&& markBitPos ≠ 0)
    if markBitY then
      let genBitX := sxpinfoX &&& genBitPos
      let genBitY := sxpinfoY &&& genBitPos
      let olderGen := decide (genBitX > genBitY)
      if olderGen then needsBarrier else noBarrier
    else needsBarrier
  else noBarrier

/-! ## In-place vector assignment: `Subassign1_1D`, `Subassign2_1D`, `Subassign2_2D` -/

/-- The three instructions with an in-place fast path. -/
inductive SubassignTag
  | Subassign1_1D
  | Subassign2_1D
  | Subassign2_2D
deriving DecidableEq

/-- The loaded vector operand: a heap vector with its `sxpinfo` word, the
results of `isAltrep` and `fastVeceltOkNative`, and its length; or an unboxed
scalar. -/
inductive SubassignVec
  | boxed (sxpinfo : Nat) (altrep fastVeceltOk : Bool) (length : Nat)
  | unboxed
deriving DecidableEq

/-- The vector as `computeAndCheckIndex` sees it. -/
def SubassignVec.src : SubassignVec → VectorSrc
  | .boxed _ _ _ length => .sexp length
  | .unboxed => .scalar

/-- Where the emitted code goes: to the block `fallback` with the call of the
runtime `subassign` builtin; through `assignVector(vector, index, val)`, the
in-place store at `index`; or through the fast path of an unboxed result,
which stores nothing. -/
inductive SubassignOut
  | fallback
  | stored (index : Nat)
  | unchanged
deriving DecidableEq

/-- The guards on a vector emitted before the index checks, lines 4641-4658,
4719-4730 and 4537-4541: `true` when control goes on to the index checks,
`false` when it goes to `fallback`. An unboxed vector has no guard. -/
def subassignGuards (tag : SubassignTag) (maybeHasAttrs : Bool) : SubassignVec → Bool
  | .unboxed => true
  | .boxed sxpinfo altrep fastVeceltOk _ =>
    match tag with
    | .Subassign1_1D =>
      if altrep then false
      else if maybeHasAttrs && !fastVeceltOk then false
      else if shared sxpinfo then false
      else true
    | .Subassign2_1D =>
      if altrep then false
      else if shared sxpinfo then false
      else true
    | .Subassign2_2D =>
      if shared sxpinfo then false else true

/-- Source `case Tag::Subassign1_1D`, `case Tag::Subassign2_1D` and
`case Tag::Subassign2_2D`, lines 4612-4786 and 4510-4610, for unboxed indices
(a boxed index of a scalar numeric type is unboxed first). `fastcase` is the
static test on the types, `resultRep` is `representationOf(i)`, `ncols` and
`nrows` the results of `matrixNcols` and `matrixNrows` (used by the
two-dimensional instruction only, as is `idx2`). `none` is undefined
behaviour. -/
def lowerSubassign (tag : SubassignTag) (fastcase maybeHasAttrs : Bool)
    (vector : SubassignVec) (idx1 idx2 : NVal) (ncols nrows : Int)
    (resultRep : Representation) : Option SubassignOut :=
  if !fastcase then some .fallback
  else if !subassignGuards tag maybeHasAttrs vector then some .fallback
  else
    match tag with
    | .Subassign2_2D =>
      let ncol := toU32 ncols
      let nrow := toU32 nrows
      match computeAndCheckIndex idx1 vector.src (some nrow) with
      | none => none
      | some .fallback => some .fallback
      | some (.hit index1) =>
        match computeAndCheckIndex idx2 vector.src (some ncol) with
        | none => none
        | some .fallback => some .fallback
        | some (.hit index2) =>
          if resultRep = .Sexp then
            ((mulNUWNSW64 nrow index2).bind (fun i => addNUWNSW64 i index1)).map
              SubassignOut.stored
          else some .unchanged
    | _ =>
      match computeAndCheckIndex idx1 vector.src none with
      | none => none
      | some .fallback => some .fallback
      | some (.hit index) =>
        if resultRep = .Sexp then some (.stored index) else some .unchanged

/-! ## Variable loads: `LdVar` and `LdDots` -/

/-- A pointer to a heap object: one of the two marker objects the emitted code
compares with, or another object. -/
inductive SEXP
  | R_UnboundValue
  | R_MissingArg
  | obj (addr : Nat)
deriving DecidableEq

/-- What the run-time system provides to the code emitted for one `LdVar` or
`LdDots`: the content of the stub slot, the results of the builtins, the word
loaded from the cache slot (as an integer) and the `car` of the binding cell it
points to, and the `sxpinfo` word of every object as the builtins leave it. -/
structure LdVarRun where
  stubSlot : SEXP
  parentLookup : SEXP
  cache : Nat
  cellValue : SEXP
  cacheMissResult : SEXP
  ldvarResult : SEXP
  ldvarForUpdateResult : SEXP
  sxpinfo : SEXP → Nat

/-- How the lowering reaches the variable, lines 4083 and 4103: through a stub
environment (`argNamedUnbound` is the static test
`env->argNamed(varName).val() == UnboundValue::instance()`), through the
binding cache, or by the runtime lookup. -/
inductive LdVarEnv
  | stub (argNamedUnbound : Bool)
  | cached
  | direct
deriving DecidableEq

/-- Where the emitted code of `LdVar` or `LdDots` ends: in a call of `error`, or
in `setVal(i, res)`, with the `sxpinfo` word of `res` at that point. -/
inductive LdVarOut
  | error (msg : String)
  | bound (res : SEXP) (sxpinfo : Nat)
deriving DecidableEq

/-- Source `checkMissing(v)`, lines 1674-1688: the message of the error raised. -/
def checkMissing (v : SEXP) : Option String :=
  if v = .R_MissingArg then some "argument is missing, with no default" else none

/-- Source `checkUnbound(v)`, lines 1690-1702: the message of the error raised. -/
def checkUnbound (v : SEXP) : Option String :=
  if v = .R_UnboundValue then some "object not found" else none

/-- The binding-cache path of `LdVar` and `LdDots`, lines 4103-4138: the value of
the phi `res` and its `sxpinfo` word. `forUpdate` is
`needsLdVarForUpdate.count(i)`. -/
def ldVarCached (forUpdate : Bool) (r : LdVarRun) : SEXP × Nat :=
  let miss : SEXP × Nat :=
    let res0 := r.cacheMissResult
    (res0, if forUpdate then ensureShared (r.sxpinfo res0) else r.sxpinfo res0)
  if r.cache ≤ 1 then miss
  else
    let val := r.cellValue
    if val = .R_UnboundValue then miss
    else (val, ensureNamed (r.sxpinfo val))

/-- Source `case Tag::LdDots: case Tag::LdVar`, lines 4078-4157. `maybeLd` tells
that the instruction is an `LdVar`. -/
def lowerLdVar (maybeLd : Bool) (env : LdVarEnv) (forUpdate : Bool) (r : LdVarRun) :
    LdVarOut :=
  match env with
  | .stub argNamedUnbound =>
    let res := r.stubSlot
    let res :=
      if argNamedUnbound then (if res = .R_UnboundValue then r.parentLookup else res)
      else res
    .bound res (r.sxpinfo res)
  | _ =>
    let res : SEXP × Nat :=
      match env with
      | .cached => ldVarCached forUpdate r
      | _ =>
        let v := if forUpdate then r.ldvarForUpdateResult else r.ldvarResult
        (v, r.sxpinfo v)
    if maybeLd then
      match checkMissing res.1 with
      | some msg => .error msg
      | none =>
        match checkUnbound res.1 with
        | some msg => .error msg
        | none => .bound res.1 res.2
    else .bound res.1 res.2

/-! ## The binding cache -/

/-- The environment operand of an instruction as `MkEnv::Cast(i->env())` sees
it: a `MkEnv` instruction (named by its number) with its flag `stub`, or
another value. -/
inductive EnvRef
  | mkEnv (id : Nat) (stub : Bool)
  | other
deriving DecidableEq

/-- The symbol `R_DotsSymbol`; symbols are numbered. -/
def R_DotsSymbol : Nat := 0

/-- The instructions that concern the binding cache. -/
inductive CacheInstr
  | MkEnv (id : Nat) (stub : Bool)
  | LdVar (env : EnvRef) (varName : Nat)
  | LdDots (env : EnvRef)
  | StVar (env : EnvRef) (varName : Nat)
  | other
deriving DecidableEq

/-- The environment and name of a load or store whose environment is a
non-stub `MkEnv`, lines 2226-2238 (and 4081-4083, 4791-4792); the flag tells a
load from a store. -/
def cacheAccess : CacheInstr → Option (Nat × Nat × Bool)
  | .LdVar (.mkEnv id false) varName => some (id, varName, true)
  | .LdDots (.mkEnv id false) => some (id, R_DotsSymbol, true)
  | .StVar (.mkEnv id false) varName => some (id, varName, false)
  | _ => none

/-- The set `bindings` of lines 2224-2240, in the order of its iteration. -/
def bindings (code : List CacheInstr) : List (Nat × Nat) :=
  (code.filterMap (fun i => (cacheAccess i).map (fun a => (a.1, a.2.1)))).dedup

/-- The position of the first occurrence of `k` in a list: the value of `idx`
when the loop of lines 2242-2244 reaches `k`. -/
def slotIndex (k : Nat × Nat) : List (Nat × Nat) → Nat
  | [] => 0
  | x :: xs => if x = k then 0 else slotIndex k xs + 1

/-- Source `bindingsCache.at(env).at(varName)`: the offsets are given out by
`idx++` in the order of iteration, lines 2241-2244. -/
def offsetOf (code : List CacheInstr) (env varName : Nat) : Option Nat :=
  if (env, varName) ∈ bindings code then some (slotIndex (env, varName) (bindings code))
  else none

/-- Source `bindingsCache.count(env)`. -/
def hasCache (code : List CacheInstr) (env : Nat) : Bool :=
  (bindings code).any (fun k => decide (k.1 = env))

/-- The slots that the lowering of `MkEnv` stores the null pointer into, lines
3314-3351: none for a stub, which leaves the case before the stores. -/
def mkEnvStores (code : List CacheInstr) (id : Nat) (stub : Bool) : List Nat :=
  if stub then []
  else ((bindings code).filter (fun k => decide (k.1 = id))).map
    (fun k => slotIndex k (bindings code))

/-- The slots that the restart branch of `compilePushContext` stores the null
pointer into, lines 1107-1112. -/
def restartStores (code : List CacheInstr) : List Nat :=
  (bindings code).map (fun k => slotIndex k (bindings code))

/-- The array `bindingsCacheBase`: `none` is a slot of the `alloca` that was
never written, otherwise the pointer in the slot as an integer. -/
abbrev CacheMem := Nat → Option Nat

/-- A store of `v` to a slot of the cache. -/
def CacheMem.store (mem : CacheMem) (slot v : Nat) : CacheMem :=
  fun s => if s = slot then some v else mem s

/-- Stores of the null pointer to the slots `slots`. -/
def CacheMem.storeNull (mem : CacheMem) (slots : List Nat) : CacheMem :=
  fun s => if s ∈ slots then some 0 else mem s

/-- One step of an execution: a restart `longjmp` into a `PushContext`, or the
code of one instruction. For a load or store through the cache `cellUnbound`
tells whether the `car` of the cached cell is `R_UnboundValue`, and `missFill` is
what the builtin `ldvarCacheMiss` stores through `cachePtr`, if anything. -/
inductive CacheEvent
  | restart
  | exec (i : CacheInstr) (cellUnbound : Bool) (missFill : Option Nat)
deriving DecidableEq

/-- What can go wrong at a cache access: the slot loaded was never written, or
`bindingsCache.at(env).at(varName)` has no entry. -/
inductive CacheFault
  | uninitializedRead (slot : Nat)
  | noSlot
deriving DecidableEq

/-- The effect of one step on the cache, following the emitted code of `MkEnv`
(lines 3346-3350), of the restart branch (lines 1107-1112), of `LdVar` and `LdDots`
(lines 4103-4138) and of `StVar` (lines 4858-4943; its miss branch calls the
setter without `cachePtr`). -/
def execCache (code : List CacheInstr) (mem : CacheMem) : CacheEvent →
    Except CacheFault CacheMem
  | .restart => .ok (mem.storeNull (restartStores code))
  | .exec (.MkEnv id stub) _ _ => .ok (mem.storeNull (mkEnvStores code id stub))
  | .exec i cellUnbound missFill =>
    match cacheAccess i with
    | none => .ok mem
    | some (env, varName, isLoad) =>
      if hasCache code env then
        match offsetOf code env varName with
        | none => .error .noSlot
        | some offset =>
          match mem offset with
          | none => .error (.uninitializedRead offset)
          | some cache =>
            let miss := decide (cache ≤ 1) || cellUnbound
            if isLoad && miss then
              match missFill with
              | some v => .ok (mem.store offset v)
              | none => .ok mem
            else .ok mem
      else .ok mem

/-- A whole execution from the state `mem`. -/
def runCache (code : List CacheInstr) (mem : CacheMem) : List CacheEvent →
    Except CacheFault CacheMem
  | [] => .ok mem
  | e :: rest =>
    match execCache code mem e with
    | .error f => .error f
    | .ok mem2 => runCache code mem2 rest

/-- The steps of an execution are instructions of `code`. -/
def traceOf (code : List CacheInstr) (trace : List CacheEvent) : Bool :=
  trace.all (fun e =>
    match e with
    | .restart => true
    | .exec i _ _ => decide (i ∈ code))

/-- The environment that `i` loads from or stores to is among `created`. -/
def accessDominated (created : List Nat) (i : CacheInstr) : Bool :=
  match cacheAccess i with
  | some (env, _, _) => decide (env ∈ created)
  | none => true

/-- The non-stub `MkEnv` instructions that have run once `i` has. -/
def createdAfter (created : List Nat) (i : CacheInstr) : List Nat :=
  match i with
  | .MkEnv id false => id :: created
  | _ => created

/-- The definition of an environment dominates its uses: every load or store
on a `MkEnv` runs after the code of that `MkEnv`; `created` are the ones that ran
so far. -/
def envDominates (created : List Nat) : List CacheEvent → Bool
  | [] => true
  | .restart :: rest => envDominates created rest
  | .exec i _ _ :: rest =>
    accessDominated created i && envDominates (createdAfter created i) rest

/-- The slots of the environments in `created` have been written. -/
def cacheWritten (code : List CacheInstr) (created : List Nat) (mem : CacheMem) : Prop :=
  ∀ env, env ∈ created → ∀ varName s, offsetOf code env varName = some s → mem s ≠ none

/-! ## Variables of the lowering -/

/-- Source `Variable::Kind`, lines 219-224. -/
inductive VarKind
  | MutableLocalRVariable
  | ImmutableLocalRVariable
  | MutablePrimitive
  | ImmutablePrimitive
deriving DecidableEq

/-- A value of the emitted code: an `i32`, a `double` or a pointer. -/
inductive RVal
  | int (v : Int)
  | dbl (x : F64)
  | sexp (p : SEXP)
deriving DecidableEq

/-- A storage location of the emitted code: the cell `pos` of the frame on the
node stack (`basepointer[pos]`), an `alloca` of the entry block, or the `alloca`
made by `compilePushContext` for the copy of the variable `j`. -/
inductive Addr
  | stack (pos : Nat)
  | alloca (n : Nat)
  | savedAlloca (j : Nat)
deriving DecidableEq

/-- The field `slot` of a `Variable`: null, the address of its storage, or, for
an `ImmutablePrimitive` that was set, the value itself. -/
inductive SlotRef
  | null
  | addr (a : Addr)
  | value (v : RVal)
deriving DecidableEq

/-- Source `struct Variable`, lines 213-307; `stackSlot` is `none` for
`(size_t)-1`. -/
structure Variable where
  kind : VarKind
  slot : SlotRef
  initialized : Bool
  stackSlot : Option Nat
deriving DecidableEq

/-- The memory of the emitted code. -/
abbrev Mem := Addr → RVal

/-- A store of the emitted code. -/
def Mem.store (mem : Mem) (a : Addr) (v : RVal) : Mem :=
  fun b => if b = a then v else mem b

/-- What stops the lowering: a failing `assert`, named by its expression, or the
exception of a failed `at` on a map. -/
inductive LowerFault
  | assertion (expr : String)
  | outOfRange (map : String)
deriving DecidableEq

/-- Source `Variable::MutableRVariable(i, pos, builder, basepointer)`. -/
def Variable.MutableRVariable (pos : Nat) : Variable :=
  ⟨.MutableLocalRVariable, .addr (.stack pos), false, some pos⟩

/-- Source `Variable::RVariable(i, pos, builder, basepointer)`. -/
def Variable.RVariable (pos : Nat) : Variable :=
  ⟨.ImmutableLocalRVariable, .addr (.stack pos), false, some pos⟩

/-- Source `Variable::Mutable(i, location)`. -/
def Variable.Mutable (location : Addr) : Variable :=
  ⟨.MutablePrimitive, .addr location, false, none⟩

/-- Source `Variable::Immutable(i)`. -/
def Variable.Immutable : Variable :=
  ⟨.ImmutablePrimitive, .null, false, none⟩

/-- Source `Variable::get(builder)`, lines 261-274: the value of the load, or of
`slot` itself. -/
def Variable.get (v : Variable) (mem : Mem) : Except LowerFault RVal :=
  if !v.initialized then .error (.assertion "initialized")
  else
    match v.slot with
    | .null => .error (.assertion "slot")
    | .addr a =>
      match v.kind with
      | .ImmutablePrimitive => .error (.assertion "slot is a value")
      | _ => .ok (mem a)
    | .value x =>
      match v.kind with
      | .ImmutablePrimitive => .ok x
      | _ => .error (.assertion "slot is a location")

/-- Source `Variable::update(builder, val)`, lines 276-289. -/
def Variable.update (v : Variable) (val : RVal) (mem : Mem) :
    Except LowerFault (Variable × Mem) :=
  match v.kind with
  | .ImmutableLocalRVariable => .error (.assertion "false")
  | .ImmutablePrimitive => .error (.assertion "false")
  | _ =>
    match v.slot with
    | .addr a => .ok ({ v with initialized := true }, mem.store a val)
    | _ => .error (.assertion "slot")

/-- Source `Variable::set(builder, val)`, lines 291-305. -/
def Variable.set (v : Variable) (val : RVal) (mem : Mem) :
    Except LowerFault (Variable × Mem) :=
  if v.initialized then .error (.assertion "!initialized")
  else
    match v.kind with
    | .ImmutablePrimitive => .ok ({ v with initialized := true, slot := .value val }, mem)
    | _ =>
      match v.slot with
      | .addr a => .ok ({ v with initialized := true }, mem.store a val)
      | _ => .error (.assertion "slot")

/-- What `getVariable` and `updateVariable` ask about a variable at the current
instruction: `liveness.count(variable)`, `Phi::Cast(variable)`,
`variable->bb()`, `currentBB` and its successors,
`currentInstr == currentBB->begin()`, `liveness.liveAtBBEntry(currentBB, variable)`,
`liveness.live(currentInstr - 1, variable)` and
`liveness.live(currentInstr, variable)`. -/
structure UseSite where
  count : Bool
  isPhi : Bool
  bb : Nat
  currentBB : Nat
  successors : List Nat
  atBegin : Bool
  liveAtBBEntry : Bool
  liveBefore : Bool
  live : Bool
deriving DecidableEq

/-- Source `getVariable(variable)`, lines 383-395; `var` is the entry of
`variables_`, if there is one. -/
def getVariable (s : UseSite) (var : Option Variable) (mem : Mem) :
    Except LowerFault RVal :=
  if !s.count then .error (.assertion "liveness.count(variable)")
  else if s.isPhi && s.bb != s.currentBB then
    .error (.assertion "variable->bb() == currentBB")
  else if !s.isPhi && s.atBegin && !s.liveAtBBEntry then
    .error (.assertion "liveness.liveAtBBEntry(currentBB, variable)")
  else if !s.isPhi && !s.atBegin && !s.liveBefore then
    .error (.assertion "liveness.live(currentInstr - 1, variable)")
  else
    match var with
    | none => .error (.outOfRange "variables_")
    | some v => v.get mem

/-- Source `updateVariable(variable, val)`, lines 361-382: a variable that is not
in the liveness analysis is dropped without a store. -/
def updateVariable (s : UseSite) (var : Option Variable) (val : RVal) (mem : Mem) :
    Except LowerFault (Option Variable × Mem) :=
  if !s.count then .ok (var, mem)
  else if s.isPhi && !s.successors.contains s.bb then .error (.assertion "isNext")
  else if !s.isPhi && !s.live then
    .error (.assertion "liveness.live(currentInstr, variable)")
  else
    match var with
    | none => .error (.outOfRange "variables_")
    | some v =>
      match v.update val mem with
      | .error f => .error f
      | .ok (v2, mem2) => .ok (some v2, mem2)

/-- An entry of `variables_` as `compilePushContext` sees it for the
`PushContext` `i`: the instruction `j`, its `Variable`, `representationOf(j)`, the
facts about `j` at `i`, and the entry of `data.savedSexpPos` for `j`. -/
structure LocalVar where
  j : Nat
  var : Variable
  rep : Representation
  site : UseSite
  savedSexpPos : Option Nat
deriving DecidableEq

/-- The list `savedLocals` of `compilePushContext`, lines 1040-1059: a copy for
each initialized variable that is live at the `PushContext`. -/
def savedLocals : List LocalVar → Except LowerFault (List (LocalVar × Variable))
  | [] => .ok []
  | v :: rest =>
    match savedLocals rest with
    | .error f => .error f
    | .ok tail =>
      if !v.var.initialized then .ok tail
      else if !v.site.live then .ok tail
      else if v.rep = .Sexp then
        match v.savedSexpPos with
        | none => .error (.outOfRange "savedSexpPos")
        | some pos => .ok ((v, Variable.MutableRVariable pos) :: tail)
      else .ok ((v, Variable.Mutable (.savedAlloca v.j)) :: tail)

/-- The loop `v.second.set(builder, getVariable(v.first))` of lines 1060-1061:
the copies, now initialized, and the memory after the stores. -/
def saveLocals : List (LocalVar × Variable) → Mem →
    Except LowerFault (List (LocalVar × Variable) × Mem)
  | [], mem => .ok ([], mem)
  | (v, copy) :: rest, mem =>
    match getVariable v.site (some v.var) mem with
    | .error f => .error f
    | .ok val =>
      match copy.set val mem with
      | .error f => .error f
      | .ok (copy2, mem2) =>
        match saveLocals rest mem2 with
        | .error f => .error f
        | .ok (tail, mem3) => .ok ((v, copy2) :: tail, mem3)

/-- The loop `updateVariable(v.first, v.second.get(builder))` of the block
`longjmpRestart`, lines 1103-1104: the memory when control reaches `cont`. -/
def restoreLocals : List (LocalVar × Variable) → Mem → Except LowerFault Mem
  | [], mem => .ok mem
  | (v, copy) :: rest, mem =>
    match copy.get mem with
    | .error f => .error f
    | .ok val =>
      match updateVariable v.site (some v.var) val mem with
      | .error f => .error f
      | .ok (_, mem2) => restoreLocals rest mem2

/-- A `PushContext` followed by the code `body` and a restart `longjmp`: the
memory when control is back at the block `cont`. -/
def pushContextRestart (vars : List LocalVar) (mem : Mem) (body : Mem → Mem) :
    Except LowerFault Mem :=
  match savedLocals vars with
  | .error f => .error f
  | .ok copies =>
    match saveLocals copies mem with
    | .error f => .error f
    | .ok (saved, mem2) => restoreLocals saved (body mem2)

/-! ## The frame on the node stack -/

/-- The constant `MAX_TEMPS`, line 154. -/
def MAX_TEMPS : Nat := 4

/-- The conversion of a `size_t` count to the `int` parameter of `incStack` and
`decStack`. -/
def toInt (n : Nat) : Int := wrap32 n

/-- Source `incStack(i, zero)`, lines 745-754, on the top pointer of the node
stack, counted in cells. -/
def incStack (i : Int) (top : Int) : Int :=
  if i = 0 then top else top + i

/-- Source `decStack(i)`, lines 756-762. -/
def decStack (i : Int) (top : Int) : Int :=
  if i = 0 then top else top + wrap32 (-i)

/-- What fixes the size of the frame: `allocator.slots()` and the number of
`savedSexpPos` entries given out at line 2307. -/
structure FrameLayout where
  allocatorSlots : Nat
  savedSexpSlots : Nat
deriving DecidableEq

/-- The member `numLocals` after the set-up of `tryCompile`, lines 2218, 2255,
2307 and 2325. -/
def numLocals (l : FrameLayout) : Nat :=
  0 + 1 + l.allocatorSlots + l.savedSexpSlots + MAX_TEMPS

/-- The entry code of `tryCompile`: `incStack(1, false)` at line 2221 and
`incStack(numLocals - 1, true)` at lines 2326-2327. -/
def enterFrame (l : FrameLayout) (top : Int) : Int :=
  let top1 := incStack 1 top
  if numLocals l > 1 then incStack (toInt (numLocals l - 1)) top1 else top1

/-- Source `withCallFrame(args, theCall, pop)`, lines 811-825, with `nargs` the
number of arguments; `theCall` is the effect of the call on the top pointer. -/
def withCallFrame (nargs : Nat) (theCall : Int → Int) (pop : Bool) (top : Int) : Int :=
  let top1 := incStack (toInt nargs) top
  let top2 := theCall top1
  if pop then decStack (toInt nargs) top2 else top2

/-- Source `case Tag::Return`, lines 3741-3747: the top pointer at the `ret`. -/
def lowerReturn (l : FrameLayout) (top : Int) : Int :=
  if numLocals l > 0 then decStack (toInt (numLocals l)) top else top

/-- A path from the entry to a `Return` through call frames with `pop = true`,
given by their numbers of arguments; the calls leave the top pointer as they
found it. -/
def runToReturn (l : FrameLayout) (frames : List Nat) (top : Int) : Int :=
  lowerReturn l (frames.foldl (fun t nargs => withCallFrame nargs id true t) (enterFrame l top))

/-! ## Deoptimization -/

/-- Source `case Tag::ScheduledDeopt`, lines 3286-3297, on the top pointer of
the node stack: the pointer at the call of the `deopt` builtin inside
`withCallFrame(args, ...)`, and the pointer at the `unreachable` that follows
the frame pop, were the call to return. `nargs` is the number of arguments of
the instruction. -/
def lowerScheduledDeopt (nargs : Nat) (top : Int) : Int × Int :=
  (incStack (toInt nargs) top, withCallFrame nargs id true top)

/-- Modelled from the spec: a code object, with its UID (`uid`) and the address
of its first instruction (`code()`). -/
structure Code where
  uid : Nat
  code : Nat
deriving DecidableEq

/-- Modelled from the spec: the record `FrameInfo`, with the fields that
`Deoptimization.cpp` reads and writes; `pc` is an address. -/
structure FrameInfo where
  code : Code
  pc : Nat
  stackSize : Nat
  inPromise : Bool
deriving DecidableEq

/-- Modelled from the spec: the record `DeoptMetadata`; `frames` is the array
that follows the header, whose cells hold something at every index. -/
structure DeoptMetadata where
  numFrames : Nat
  frames : Nat → FrameInfo

/-- The array `frames` after the store `frames[i] = f`. -/
def storeFrame (frames : Nat → FrameInfo) (i : Nat) (f : FrameInfo) : Nat → FrameInfo :=
  fun k => if k = i then f else frames k

/-- The metadata built by `case Tag::ScheduledDeopt`, lines 3266-3284, in the
fresh store `m`: `numFrames` is `deopt->frames.size()` and the loop runs from
`frames.rbegin()` to `frames.rend()` with `m->frames[i++] = *fi`. -/
def scheduledDeoptMetadata (frames : List FrameInfo) (m : DeoptMetadata) : DeoptMetadata :=
  let nframes := frames.length
  let loop := frames.reverse.foldl
    (fun (st : (Nat → FrameInfo) × Nat) fi => (storeFrame st.1 st.2 fi, st.2 + 1))
    (m.frames, 0)
  { numFrames := nframes, frames := loop.1 }

/-- An item of an R serialization stream: an integer written by `OutInteger`, or
a UUID. -/
inductive StreamItem
  | integer (v : Int)
  | uuid (u : Nat)
deriving DecidableEq

/-- The R function `OutInteger(out, i)`; its parameter is an `int`. -/
def OutInteger (out : List StreamItem) (i : Int) : List StreamItem :=
  out ++ [.integer (wrap32 i)]

/-- The R function `InInteger(inp)`: the integer read and the rest of the
stream; `none` when the stream does not continue with an integer. -/
def InInteger : List StreamItem → Option (Int × List StreamItem)
  | .integer v :: rest => some (v, rest)
  | _ => none

/-- Modelled from the spec: `UUID::serialize` writes the UUID to the stream. -/
def UUID.serialize (u : Nat) (out : List StreamItem) : List StreamItem :=
  out ++ [.uuid u]

/-- Modelled from the spec: `UUID::deserialize` reads the UUID back. -/
def UUID.deserialize : List StreamItem → Option (Nat × List StreamItem)
  | .uuid u :: rest => some (u, rest)
  | _ => none

/-- The value of an `int` converted to `size_t`. -/
def toU64 (v : Int) : Nat := (v % 18446744073709551616).toNat

/-- Source `FrameInfo::serialize`, lines 17-23. -/
def FrameInfo.serialize (f : FrameInfo) (out : List StreamItem) : List StreamItem :=
  let out1 := UUID.serialize f.code.uid out
  let out2 := OutInteger out1 ((f.pc : Int) - (f.code.code : Int))
  let out3 := OutInteger out2 (f.stackSize : Int)
  OutInteger out3 (if f.inPromise then 1 else 0)

/-- Source `FrameInfo::deserialize`, lines 7-15; `withUid` is `Code::withUid`. -/
def FrameInfo.deserialize (withUid : Nat → Code) (inp : List StreamItem) :
    Option (FrameInfo × List StreamItem) :=
  match UUID.deserialize inp with
  | none => none
  | some (uid, inp1) =>
    let code := withUid uid
    match InInteger inp1 with
    | none => none
    | some (off, inp2) =>
      match InInteger inp2 with
      | none => none
      | some (size, inp3) =>
        match InInteger inp3 with
        | none => none
        | some (prom, inp4) =>
          some ({ code := code, pc := ((code.code : Int) + off).toNat, stackSize := toU64 size,
                  inPromise := decide (prom ≠ 0) }, inp4)

/-- The loop of `DeoptMetadata::serialize`, lines 42-43, from index `i` for `n`
more frames. -/
def serializeFrames (frames : Nat → FrameInfo) : Nat → Nat → List StreamItem → List StreamItem
  | 0, _, out => out
  | n + 1, i, out => serializeFrames frames n (i + 1) ((frames i).serialize out)

/-- Source `DeoptMetadata::serialize`, lines 39-44. -/
def DeoptMetadata.serialize (m : DeoptMetadata) (out : List StreamItem) : List StreamItem :=
  serializeFrames m.frames m.numFrames 0 (OutInteger out (m.numFrames : Int))

/-- The loop of `DeoptMetadata::deserialize`, lines 33-34, from index `i` for `n`
more frames. -/
def deserializeFrames (withUid : Nat → Code) :
    Nat → Nat → (Nat → FrameInfo) → List StreamItem →
      Option ((Nat → FrameInfo) × List StreamItem)
  | 0, _, frames, inp => some (frames, inp)
  | n + 1, i, frames, inp =>
    match FrameInfo.deserialize withUid inp with
    | none => none
    | some (f, inp2) => deserializeFrames withUid n (i + 1) (storeFrame frames i f) inp2

/-- Source `DeoptMetadata::deserialize`, lines 25-37: the metadata placed in the
fresh store, whose array holds `fresh` before the loop, and the rest of the
stream. -/
def DeoptMetadata.deserialize (withUid : Nat → Code) (fresh : Nat → FrameInfo)
    (inp : List StreamItem) : Option (DeoptMetadata × List StreamItem) :=
  match InInteger inp with
  | none => none
  | some (n, inp1) =>
    let numFrames := toU32 n
    match deserializeFrames withUid numFrames 0 fresh inp1 with
    | none => none
    | some (frames, inp2) => some ({ numFrames := numFrames, frames := frames }, inp2)

/-! ## Failure of the lowering -/

/-- What `MkEnv::Cast(st->env())` gives for a `StVarSuper`: the flag `stub` of the
`MkEnv` and, when its `lexicalEnv()` is a `MkEnv` too, the flag `stub` of that
parent. -/
structure SuperEnv where
  stub : Bool
  parentStub : Option Bool
deriving DecidableEq

/-- An instruction as the switch of `tryCompile` treats the flag `success`: the
cases `Int3`, `PrintInvocation` and `StVarSuper` of lines 4959-5041, and any other
instruction, with `fails` telling whether its case clears the flag. -/
inductive LoweredInstr
  | Int3
  | PrintInvocation
  | StVarSuper (environment : Option SuperEnv)
  | other (fails : Bool)
deriving DecidableEq

/-- Whether the case of the instruction executes `success = false`, lines
4961-4968 and 5038-5041. -/
def clearsSuccess : LoweredInstr → Bool
  | .Int3 => true
  | .PrintInvocation => true
  | .StVarSuper none => false
  | .StVarSuper (some environment) =>
    environment.stub ||
      (match environment.parentStub with
        | some parentStub => parentStub
        | none => false)
  | .other fails => fails

/-- The flag `success` and the instructions whose case of the switch has run,
in order. -/
structure LowerState where
  success : Bool
  lowered : List LoweredInstr
deriving DecidableEq

/-- The loop over the instructions of a block, lines 2340-5082: the test
`if (!success) return;` at the head of each iteration, the switch, and the test
after the switch. -/
def lowerInstrs : LowerState → List LoweredInstr → LowerState
  | st, [] => st
  | st, i :: rest =>
    if !st.success then st
    else
      let st2 : LowerState :=
        { success := if clearsSuccess i then false else st.success,
          lowered := st.lowered ++ [i] }
      if !st2.success then st2 else lowerInstrs st2 rest

/-- LLVM `add nuw nsw` on `i32`: undefined on signed or unsigned overflow. -/
def addNUWNSW (a b : Int) : Option Int :=
  if isInt32 (a + b) ∧ toU32 a + toU32 b < 4294967296 then some (a + b) else none

/-- What `setVal(i, res)` does at the end of `case Tag::Inc`: it binds a value
(`none` when undefined), or it is called with the null pointer, which
`convert` dereferences in `val->getType()`, lines 1267 and 1298. -/
inductive IncOut
  | bound (res : Option Int)
  | nullDereference
deriving DecidableEq

/-- Source `case Tag::Inc`, lines 3219-3230: the flag `success` afterwards and
the effect of `setVal(i, res)`; `res` stays `nullptr` when the operand is not in
`Integer` representation. -/
def lowerInc (success : Bool) (arg : Operand) : Bool × IncOut :=
  let r : Bool × Option (Option Int) :=
    match arg with
    | .int v => (success, some (addNUWNSW v 1))
    | _ => (false, none)
  (r.1,
    match r.2 with
    | none => .nullDereference
    | some res => .bound res)

/-! ## Copies of Phi inputs -/

/-- A Phi as the set-up of lines 2277-2290 sees it: its number, whether it is in
the liveness analysis and needs a variable, and its inputs, each a predecessor
block with the incoming instruction. -/
structure PhiInstr where
  id : Nat
  registered : Bool
  inputs : List (Nat × Nat)
deriving DecidableEq

/-- The map `phis` after the loop of lines 2277-2290 over the Phis in the order
of the visitor: `phis[i] = phi` for every input, a later entry for the same
`i` replacing an earlier one. -/
def phisMap (code : List PhiInstr) : Nat → Option Nat :=
  code.foldl
    (fun phis phi =>
      if !phi.registered then phis
      else phi.inputs.foldl (fun m inp => fun i => if i = inp.2 then some phi.id else m i) phis)
    (fun _ => none)

/-- What the loop "Copy of phi input values" asks about the block `bb` being
lowered, lines 5085-5096, once all its instructions are lowered
(`currentInstr` is the end of the block): `currentBB->successors()`,
`phi->bb()`, `liveness.count(v)`, `variables_.count(i)`, `Phi::Cast(i)`,
whether `i` is a `CastType` of an `LdConst`, `LdConst::Cast(i)`,
`liveness.live(currentInstr - 1, i)`, and whether the conversions of `load`
(lines 896-944) from what is loaded for `i` to the representation of `phi` go
through. -/
structure CopySite where
  successors : List Nat
  phiBB : Nat → Nat
  count : Nat → Bool
  hasVariable : Nat → Bool
  isPhi : Nat → Bool
  isCastOfLdConst : Nat → Bool
  isLdConst : Nat → Bool
  liveAtEnd : Nat → Bool
  convertible : Nat → Nat → Bool

/-- The assertions of `load(i, representationOf(phi->type))`, lines 837-944, for
an instruction `i` of the block: a `CastType` of an `LdConst` and an `LdConst`
are loaded as constants; an instruction with a variable is loaded by
`getVariable` (lines 383-395), which asserts `liveness.count(i)` and, when `i`
is not a Phi, that `i` is live at the last instruction (a Phi of the block
passes `variable->bb() == currentBB`, and the variable is initialized, as line
5077 asserted); any other instruction ends in `assert(false)`; then the
conversions. -/
def loadChecks (s : CopySite) (i phi : Nat) : Except LowerFault Unit :=
  if s.isCastOfLdConst i then
    if s.convertible i phi then .ok () else .error (.assertion "false")
  else if s.hasVariable i then
    if !s.count i then .error (.assertion "liveness.count(variable)")
    else if !s.isPhi i && !s.liveAtEnd i then
      .error (.assertion "liveness.live(currentInstr - 1, variable)")
    else if s.convertible i phi then .ok () else .error (.assertion "false")
  else if s.isLdConst i then
    if s.convertible i phi then .ok () else .error (.assertion "false")
  else .error (.assertion "false")

/-- The loop "Copy of phi input values" at the end of a block, lines 5085-5096:
the updates `variables_.at(phi).update(load(i, representationOf(phi)))` it
emits, as pairs of a Phi and the instruction loaded, in order, or the
assertion that stops the lowering. `instrs` are the instructions of the block,
`deadMove i phi` is the result of `deadMove(i, phi)`. After the load,
`updateVariable(phi, inpv)` (lines 361-382) drops the update of a Phi that is
not in the liveness analysis and asserts `isNext`: the block of the Phi is a
successor of the block at hand. `ensureNamedIfNeeded(phi, inpv)` emits
reference-count code only. -/
def phiCopies (s : CopySite) (phis : Nat → Option Nat) (deadMove : Nat → Nat → Bool) :
    List Nat → Except LowerFault (List (Nat × Nat))
  | [] => .ok []
  | i :: rest =>
    match phis i with
    | none => phiCopies s phis deadMove rest
    | some phi =>
      if deadMove i phi then phiCopies s phis deadMove rest
      else
        match loadChecks s i phi with
        | .error f => .error f
        | .ok _ =>
          if !s.count phi then phiCopies s phis deadMove rest
          else if !s.successors.contains (s.phiBB phi) then .error (.assertion "isNext")
          else
            match phiCopies s phis deadMove rest with
            | .error f => .error f
            | .ok copies => .ok ((phi, i) :: copies)

/-! ## Promises -/

/-- The constant `PROMSXP` of the R headers. -/
def PROMSXP : Nat := 5

/-- What the emitted code of `force` and `depromise` reads from an object: its
`sexptype`, its `car`, and the result of the builtin `forcePromise`. -/
structure PromiseHeap where
  sexptype : SEXP → Nat
  car : SEXP → SEXP
  forcePromise : SEXP → SEXP

/-- Source `force(i, arg)`, lines 611-655: the value of the phi `res`. -/
def force (h : PromiseHeap) (arg : SEXP) : SEXP :=
  if h.sexptype arg = PROMSXP then
    let val := h.car arg
    if val = .R_UnboundValue then h.forcePromise arg else val
  else arg

/-- Source `depromise(arg)`, lines 1775-1802: the value of the phi `res`. -/
def depromise (h : PromiseHeap) (arg : SEXP) : SEXP :=
  if h.sexptype arg = PROMSXP then h.car arg else arg

/-! ## Cells of the frame -/

/-- The value `basepointer`, line 2250: the top pointer loaded after the
`incStack(1, false)` of line 2221. -/
def basepointer (top : Int) : Int := incStack 1 top

/-- The cell addressed by `GEP(basepointer, {c(pos), c(1)})`, lines 241, 735 and
741. -/
def localCell (top : Int) (pos : Nat) : Int := basepointer top + pos

/-- The cell that `stack({container(paramCode())})` stores to, lines 2222 and
717-730: the one below the top pointer after `incStack(1, false)`. -/
def containerCell (top : Int) : Int := incStack 1 top + (-1)

/-- The position of the variable with allocator slot `a`:
`allocator[i] + numLocalsBase`, lines 2254 and 2261, with `numLocalsBase = 1`. -/
def variablePos (a : Nat) : Nat := a + (0 + 1)

/-- The position `savedSexpPos[j] = numLocals++` of the `k`-th save slot given
out, line 2307. -/
def savedSexpPosOf (l : FrameLayout) (k : Nat) : Nat := 0 + 1 + l.allocatorSlots + k

/-- The position that `protectTemp` passes to `setLocal`, line 1772:
`numLocals - 1 - numTemps`. -/
def tempPos (l : FrameLayout) (numTemps : Nat) : Nat := numLocals l - 1 - numTemps

/-! ## Dead moves and the choice of the variable kinds -/

/-- Source `Variable::deadMove(other)`, lines 214-217:
`slot == other.slot || (stackSlot != (size_t)-1 && stackSlot == other.stackSlot)`.
The comparison of two `llvm::Value*` is the comparison of the model's slots. -/
def Variable.deadMove (v other : Variable) : Bool :=
  decide (v.slot = other.slot) ||
    (decide (v.stackSlot ≠ none) && decide (v.stackSlot = other.stackSlot))

/-- The map `variables_`, keyed by the instruction. -/
abbrev VarMap := Nat → Option Variable

/-- Source `variables_[i] = v`. -/
def VarMap.set (m : VarMap) (i : Nat) (v : Variable) : VarMap :=
  fun k => if k = i then some v else m k

/-- Source `LowerFunctionLLVM::deadMove(a, bi)`, lines 515-527: `a` is `none`
for a value that is not an instruction (`Instruction::Cast(a)` is null, which
is no key of `variables_`). The result is the returned flag and the map after
the call. -/
def deadMove (variables_ : VarMap) (a : Option Nat) (bi : Nat) : Bool × VarMap :=
  match a with
  | none => (false, variables_)
  | some ai =>
    match variables_ ai with
    | none => (false, variables_)
    | some av =>
      match variables_ bi with
      | none => (false, variables_)
      | some bv =>
        if av.deadMove bv then (true, variables_.set bi { bv with initialized := true })
        else (false, variables_)

/-- What the set-up of `tryCompile` asks about the code, lines 2250-2322: the
instructions in the order of the visitor, for each of them `Phi::Cast(i)`,
`liveness.count(i)`, `i->producesRirResult()`, `LdConst::Cast(i)`, whether it is
a `CastType` of an `LdConst`, `representationOf(i)` and `allocator[i]`; the
pairs `(pop->push(), pop)` of the `PopContext` instructions in the order of the
visitor, and `liveness.live(where, what)`. -/
structure CodeInfo where
  instrs : List Nat
  isPhi : Nat → Bool
  count : Nat → Bool
  producesRirResult : Nat → Bool
  isLdConst : Nat → Bool
  isCastOfLdConst : Nat → Bool
  rep : Nat → Representation
  slotOf : Nat → Nat
  contexts : List (Nat × Nat)
  live : Nat → Nat → Bool

/-- Source `NativeAllocator::needsAVariable(v)`, lines 115-120. -/
def needsAVariable (c : CodeInfo) (v : Nat) : Bool :=
  c.producesRirResult v && !c.isLdConst v && !c.isCastOfLdConst v

/-- Source `NativeAllocator::needsASlot(v)`, lines 122-124. -/
def needsASlot (c : CodeInfo) (v : Nat) : Bool :=
  needsAVariable c v && decide (c.rep v = Representation.Sexp)

/-- Source lambda `createVariable(i, mut)`, lines 2257-2272, as the variable it
stores into `variables_[i]`; `numLocalsBase` is 1 and `topAlloca` gives the
instruction an `alloca` of its own. -/
def createVariable (c : CodeInfo) (i : Nat) (mutable : Bool) : Variable :=
  if c.rep i = Representation.Sexp then
    if mutable then Variable.MutableRVariable (variablePos (c.slotOf i))
    else Variable.RVariable (variablePos (c.slotOf i))
  else
    if mutable then Variable.Mutable (.alloca i)
    else Variable.Immutable

/-- The first loop, lines 2277-2290: a mutable variable for every live Phi that
needs a variable. -/
def phiVariables (c : CodeInfo) (m : VarMap) : VarMap :=
  c.instrs.foldl (fun m i =>
    if !c.count i || !needsAVariable c i then m
    else if c.isPhi i then m.set i (createVariable c i true)
    else m) m

/-- The inner loop of lines 2303-2315 for the `PopContext` `p.2` with the
`PushContext` `p.1`: a mutable variable for every value live at one of them
that has no variable yet. -/
def contextVariables (c : CodeInfo) (p : Nat × Nat) (m : VarMap) : VarMap :=
  c.instrs.foldl (fun m j =>
    if needsAVariable c j then
      if (m j).isNone && (c.live p.1 j || c.live p.2 j) then
        m.set j (createVariable c j true)
      else m
    else m) m

/-- The second loop, lines 2292-2317, over the `PopContext` instructions. -/
def contextsVariables (c : CodeInfo) (m : VarMap) : VarMap :=
  c.contexts.foldl (fun m p => contextVariables c p m) m

/-- The third loop, lines 2318-2322: an immutable variable for every other live
value that needs a variable. -/
def restVariables (c : CodeInfo) (m : VarMap) : VarMap :=
  c.instrs.foldl (fun m i =>
    if needsAVariable c i && c.count i && (m i).isNone then
      m.set i (createVariable c i false)
    else m) m

/-- The map `variables_` after the three loops of lines 2277-2322. -/
def tryCompileVariables (c : CodeInfo) : VarMap :=
  restVariables c (contextsVariables c (phiVariables c (fun _ => none)))

/-- One step of a loop that stores `mk i` into the map for the selected
instructions, either always or only where the map has no entry: the common
shape of the three loops. -/
def passStep (sel : Nat → Bool) (ovw : Bool) (mk : Nat → Variable) (m : VarMap) (i : Nat) :
    VarMap :=
  if sel i && (ovw || (m i).isNone) then m.set i (mk i) else m

/-- Whether the value `i` is live at a `PushContext` or at its `PopContext`. -/
def crossesContext (c : CodeInfo) (i : Nat) : Bool :=
  c.contexts.any (fun p => c.live p.1 i || c.live p.2 i)

/-- The size `idx` passed to `topAlloca(t::SEXP, idx)` for the array of the
binding cache, line 2245: the number of offsets given out. -/
def bindingsCacheSize (code : List CacheInstr) : Nat := (bindings code).length

/-! ## Division, and the inlined `min`, `max` and `as.integer` -/

/-- The integer callback of `Tag::Div`, lines 3394-3403: `CreateSDiv(a, b)`. -/
def divInt (a b : Int) : Emitted Int := Emitted.pure (sdiv a b)

/-- The floating-point callback of `Tag::Div`: `CreateFDiv(a, b)`. -/
def divFp (a b : F64) : Emitted F64 := Emitted.pure (some (F64.fdiv a b))

/-- The case `Tag::Div` of `tryCompile`: `compileBinop` with the two
callbacks. -/
def lowerDiv (hasEnv : Bool) (rep : Representation) (lhsMaybeNa rhsMaybeNa : Bool)
    (lhs rhs : Operand) : BinopOut :=
  compileBinop hasEnv divInt (some divFp) rep lhsMaybeNa rhsMaybeNa lhs rhs

/-- LLVM `select`. -/
def select {α : Type} (c : Bool) (x y : α) : α := if c then x else y

/-- LLVM `icmp slt` on `i32`. -/
def icmpSLT (a b : Int) : Bool := decide (a < b)

/-- What the inlined code of a builtin binds to the instruction: an unboxed
value, the result of `boxInt` or `boxReal`, or nothing when the builtin is not
inlined for these representations (the builtin is then called). -/
inductive InlineOut
  | value (v : Option NVal)
  | boxInt (v : Int)
  | boxReal (x : F64)
  | notInlined
deriving DecidableEq

/-- The cases `min` and `max` of the builtins with two arguments, lines
2949-2982: `aval` and `bval` are the operands loaded in their own
representation, `orep` is the representation of the call. -/
def lowerMinMax (isMin : Bool) (orep : Representation) (a b : Operand) : InlineOut :=
  match a, b with
  | .int aval, .int bval =>
    if orep ≠ .Real then
      let res := select (if isMin then icmpSLT bval aval else icmpSLT aval bval) bval aval
      if orep = .Integer then .value (some (.int res)) else .boxInt res
    else .notInlined
  | .dbl aval, .dbl bval =>
    if orep ≠ .Integer then
      let res := select (if isMin then F64.fcmpUGT bval aval else F64.fcmpUGT aval bval)
        aval bval
      if orep = .Real then .value (some (.dbl res)) else .boxReal res
    else .notInlined
  | _, _ => .notInlined

/-- The branch of `as.integer` for an argument in `Real` and a result in
`Integer` representation, lines 2746-2751:
`select(fcmp une a a, NA_INTEGER, fptosi a)`; an undefined arm that is not
selected does not matter. -/
def asIntegerRealToInt (a : F64) : Option Int :=
  if F64.fcmpUNE a a then some NA_INTEGER else F64.fptosi a

/-- The branch of `as.integer` for an argument and a result in `Real`
representation, lines 2752-2758: `select(fcmp une a a, a, llvm.floor a)`. -/
def asIntegerRealToReal (a : F64) : F64 :=
  select (F64.fcmpUNE a a) a (F64.floor a)

/-- The case `as.integer` of the builtins with one argument, lines 2742-2770,
for an unboxed argument `a` loaded in its own representation; `orep` is the
representation of the call. -/
def lowerAsInteger (orep : Representation) (a : NVal) : InlineOut :=
  match a, orep with
  | .int v, .Integer => .value (some (.int v))
  | .dbl x, .Integer => .value ((asIntegerRealToInt x).map NVal.int)
  | .dbl x, .Real => .value (some (.dbl (asIntegerRealToReal x)))
  | _, _ => .notInlined

/-! ## Compiling a closure to PIR -/

/-- What `compileClosure` does that can be seen from outside: the call of
`module->createIfMissing`, the call of `module->get`, and the calls of the two
callbacks. -/
inductive CompileEvent
  | createIfMissing
  | get
  | success
  | fail
deriving DecidableEq

/-- One run of `compileClosure`: the default arguments and the argument names
(symbols as numbers, `R_DotsSymbol` among them), whether the module has no
closure yet for the function, the results of `rir2pir.tryCompile` and of
`Verify::apply`, and whether the build has `NDEBUG` (so that `assert` does
nothing). -/
structure ClosureCompile where
  default_args : List SEXP
  arg_names : List Nat
  missing : Bool
  tryCompile : Bool
  verify : Bool
  ndebug : Bool
deriving DecidableEq

/-- The lambda passed to `createIfMissing`, lines 80-104: the value of `failed`
after it ran, or the failing `assert(false)` of line 96. -/
def createCallback (r : ClosureCompile) : Except LowerFault Bool :=
  if r.tryCompile then
    if !r.verify then
      if r.ndebug then .ok true else .error (.assertion "false")
    else .ok false
  else .ok true

/-- Modelled from the spec: `Module::createIfMissing` is not among the sources;
it runs the callback once when the module has no closure for the function and
not at all otherwise. The result is the value of the variable `failed` of
`compileClosure` after the call, which is false before it. -/
def createIfMissing (r : ClosureCompile) : Except LowerFault Bool :=
  if r.missing then createCallback r else .ok false

/-- Source `Rir2PirCompiler::compileClosure(srcFunction, arg_names,
default_args, closureEnv, success, fail)`, lines 63-112: the events in the
order they happen. -/
def compileClosure (r : ClosureCompile) : Except LowerFault (List CompileEvent) :=
  if r.default_args.any (fun d => decide (d ≠ SEXP.R_MissingArg)) then .ok [.fail]
  else if r.arg_names.any (fun d => decide (d = R_DotsSymbol)) then .ok [.fail]
  else
    match createIfMissing r with
    | .error e => .error e
    | .ok failed =>
      if failed then .ok [.createIfMissing, .fail]
      else .ok [.createIfMissing, .get, .success]

/-! ## Names of the versions in the event stream -/

/-- The two maps of `EventStream` that `setNameOf` and `getNameOf` use; a UID is
a number. -/
structure EventStream where
  versionNames : Nat → Option String
  numVersionsWithName : String → Option Nat

/-- The event stream before any registration. -/
def EventStream.empty : EventStream := ⟨fun _ => none, fun _ => none⟩

/-- Source `EventStream::getNameOf(functionUid)`, lines 245-251. -/
def EventStream.getNameOf (s : EventStream) (functionUid : Nat) : String :=
  match s.versionNames functionUid with
  | none => "<unknown>"
  | some name => name

/-- Source `EventStream::setNameOf(uid, name)`, lines 253-263; `operator[]` on
the counter map reads 0 for a name it does not have, and `std::to_string`
gives the decimal digits. -/
def EventStream.setNameOf (s : EventStream) (uid : Nat) (name : String) : EventStream :=
  match s.versionNames uid with
  | some _ => s
  | none =>
    let nonCollidingName :=
      match s.numVersionsWithName name with
      | some k => name ++ "~" ++ toString k
      | none => name
    { versionNames := fun u => if u = uid then some nonCollidingName else s.versionNames u,
      numVersionsWithName := fun n =>
        if n = name then some ((s.numVersionsWithName name).getD 0 + 1)
        else s.numVersionsWithName n }

/-- A sequence of registrations, from the empty stream. -/
def EventStream.register (regs : List (Nat × String)) : EventStream :=
  regs.foldl (fun s r => s.setNameOf r.1 r.2) EventStream.empty

/-! ## The visibility analysis -/

/-- The abstract state `LastVisibilityUpdate`: the instruction that last set the
visibility, if any, and the set `observable`, kept without repetitions. -/
structure LastVisibilityUpdate where
  last : Option Nat
  observable : List Nat
deriving DecidableEq

/-- The tag of an instruction as far as `VisibilityAnalysis::apply` looks at
it, with `builtinUpdatesVisibility(builtinId)` for the two calls of builtins
and `i->exits()` for the others. -/
inductive VisTag
  | Invisible
  | Visible
  | CallBuiltin (updatesVisibility : Bool)
  | CallSafeBuiltin (updatesVisibility : Bool)
  | other (exits : Bool)
deriving DecidableEq

/-- The lambda `isVisibilityChanging` of lines 10-16; the flag is whether
`res.update()` was called. -/
def isVisibilityChanging (vis : LastVisibilityUpdate) (i : Nat) : Bool × LastVisibilityUpdate :=
  if vis.last ≠ some i then (true, { last := some i, observable := [] })
  else (false, vis)

/-- Source `VisibilityAnalysis::apply(vis, i)`, lines 7-42, for the instruction
`i` with the tag `tag`: whether the result is `Updated`, and the state
afterwards. -/
def VisibilityAnalysis.apply (vis : LastVisibilityUpdate) (i : Nat) (tag : VisTag) :
    Bool × LastVisibilityUpdate :=
  match tag with
  | .Invisible => isVisibilityChanging vis i
  | .Visible => isVisibilityChanging vis i
  | .CallBuiltin upd => if upd then isVisibilityChanging vis i else (false, vis)
  | .CallSafeBuiltin upd => if upd then isVisibilityChanging vis i else (false, vis)
  | .other exits =>
    match vis.last with
    | some l =>
      if exits then (true, { vis with observable := vis.observable.insert l })
      else (false, vis)
    | none => (false, vis)

/-! # Theorems

## Rounding to binary64 -/

namespace F64

theorem roundHalfEven_intCast (k : Int) : roundHalfEven (k : ℚ) = k := by
  unfold roundHalfEven
  simp

theorem roundHalfEven_err (x : ℚ) : |(roundHalfEven x : ℚ) - x| ≤ 1 / 2 := by
  unfold roundHalfEven
  have h1 := Int.floor_le x
  have h2 := Int.lt_floor_add_one x
  simp only
  split_ifs with ha hb hc
  · rw [abs_le]; constructor <;> linarith
  · rw [abs_le]; push_cast; constructor <;> linarith
  · rw [abs_le]; constructor <;> linarith
  · rw [abs_le]; push_cast; constructor <;> linarith

theorem ulp_pos (m : ℚ) : 0 < ulp m := by
  unfold ulp; positivity

/-- A magnitude that is an integral multiple of its unit in the last place is
not changed by rounding. -/
theorem round_exact (neg : Bool) (m : ℚ) (k : Int) (hk : m / ulp m = k)
    (hlt : m < 2 ^ 1024) : round neg m = fin neg m := by
  unfold round
  have hu := ulp_pos m
  have hr : ((roundHalfEven (m / ulp m) : Int) : ℚ) * ulp m = m := by
    rw [hk, roundHalfEven_intCast, ← hk]
    field_simp
  simp only [hr]
  rw [if_neg (not_le.mpr hlt)]

theorem binade_natCast (n : ℕ) : binade (n : ℚ) = Nat.log 2 n := by
  unfold binade
  rw [Int.log_natCast]
  omega

theorem round_natCast (neg : Bool) (n : ℕ) (hn : n < 2 ^ 53) :
    round neg (n : ℚ) = fin neg n := by
  have he : Nat.log 2 n ≤ 52 := by
    have := Nat.log_lt_of_lt_pow (b := 2) (x := 53) (y := n)
    by_cases h0 : n = 0
    · subst h0; simp
    · have := this h0 hn; omega
  apply round_exact neg n ((n * 2 ^ (52 - Nat.log 2 n) : ℕ) : Int)
  · unfold ulp
    rw [binade_natCast]
    have : ((Nat.log 2 n : ℕ) : Int) - 52 = -((52 - Nat.log 2 n : ℕ) : Int) := by omega
    rw [this, zpow_neg, zpow_natCast]
    push_cast
    field_simp
  · have : (n : ℚ) < 2 ^ 53 := by exact_mod_cast hn
    have h2 : (2 : ℚ) ^ 53 < 2 ^ 1024 := by norm_num
    linarith


theorem round_near (neg : Bool) (m : ℚ) (hm : (2 : ℚ) ^ (-1022 : Int) ≤ m)
    (hm2 : m < 2 ^ 1023) :
    ∃ r : ℚ, round neg m = fin neg r ∧ |r - m| ≤ m / 2 ^ 53 := by
  have hpos : 0 < m := lt_of_lt_of_le (by positivity) hm
  have hlog : (-1022 : Int) ≤ Int.log 2 m := by
    have := (Int.zpow_le_iff_le_log (b := 2) (by norm_num) (x := -1022) hpos).mp
    exact this (by exact_mod_cast hm)
  have hb : binade m = Int.log 2 m := by unfold binade; omega
  have hle : (2 : ℚ) ^ Int.log 2 m ≤ m := by
    have := Int.zpow_log_le_self (b := 2) (r := m) (by norm_num) hpos
    exact_mod_cast this
  have hu : ulp m ≤ m / 2 ^ 52 := by
    unfold ulp
    rw [hb, zpow_sub₀ (by norm_num : (2 : ℚ) ≠ 0)]
    have : (2 : ℚ) ^ (52 : Int) = 2 ^ 52 := by norm_cast
    rw [this]
    exact div_le_div_of_nonneg_right hle (by positivity)
  have hup := ulp_pos m
  have herr := roundHalfEven_err (m / ulp m)
  have hrm : |(roundHalfEven (m / ulp m) : ℚ) * ulp m - m| ≤ ulp m / 2 := by
    have e : (roundHalfEven (m / ulp m) : ℚ) * ulp m - m
        = ((roundHalfEven (m / ulp m) : ℚ) - m / ulp m) * ulp m := by
      field_simp
    rw [e, abs_mul, abs_of_pos hup]
    calc |(roundHalfEven (m / ulp m) : ℚ) - m / ulp m| * ulp m
        ≤ 1 / 2 * ulp m := mul_le_mul_of_nonneg_right herr hup.le
      _ = ulp m / 2 := by ring
  have hfin : |(roundHalfEven (m / ulp m) : ℚ) * ulp m - m| ≤ m / 2 ^ 53 := by
    have : ulp m / 2 ≤ m / 2 ^ 53 := by
      have e : m / 2 ^ 53 = m / 2 ^ 52 / 2 := by ring
      rw [e]; linarith
    linarith
  refine ⟨(roundHalfEven (m / ulp m) : ℚ) * ulp m, ?_, hfin⟩
  unfold round
  simp only
  rw [if_neg]
  rw [not_le]
  have h1 := (abs_le.mp hfin).2
  have h3 : m / 2 ^ 53 ≤ m := by
    apply div_le_self hpos.le
    norm_num
  have h4 : (2:ℚ) ^ 1023 * 2 = 2 ^ 1024 := by norm_num
  linarith

/-- The quotient of two naturals below `2^31`, rounded to binary64, lies in the
same unit interval as the exact quotient. -/
theorem round_quot (neg : Bool) (a b : ℕ) (hb : 0 < b) (hb2 : b ≤ 2 ^ 31)
    (ha : a ≤ 2 ^ 31) :
    ∃ r : ℚ, round neg ((a : ℚ) / b) = fin neg r ∧ ⌊r⌋ = ⌊(a : ℚ) / b⌋ ∧
      ⌈r⌉ = ⌈(a : ℚ) / b⌉ := by
  have hbq : (0 : ℚ) < b := by exact_mod_cast hb
  by_cases hdvd : b ∣ a
  · obtain ⟨c, rfl⟩ := hdvd
    have hc : c < 2 ^ 53 := by
      have : c ≤ b * c := Nat.le_mul_of_pos_left c hb
      have : (2:ℕ) ^ 31 < 2 ^ 53 := by norm_num
      omega
    have e : ((b * c : ℕ) : ℚ) / b = c := by
      push_cast; field_simp
    rw [e]
    exact ⟨c, round_natCast neg c hc, rfl, rfl⟩
  · set m : ℚ := (a : ℚ) / b with hm
    set k : Int := ⌊m⌋ with hk
    -- the exact quotient is at distance at least 1/b from the integers
    have hkle : (k : ℚ) ≤ m := Int.floor_le m
    have hklt : m < k + 1 := Int.lt_floor_add_one m
    have hmb : m * b = a := by rw [hm]; field_simp
    have hk0 : 0 ≤ k := Int.floor_nonneg.mpr (by rw [hm]; positivity)
    have h1 : (k : ℚ) * b + 1 ≤ a := by
      have h : k * b < a := by
        have hle : k * (b : Int) ≤ a := by
          have : (k : ℚ) * b ≤ a := by
            rw [← hmb]; exact mul_le_mul_of_nonneg_right hkle hbq.le
          exact_mod_cast this
        rcases lt_or_eq_of_le hle with h | h
        · exact h
        · exfalso; apply hdvd
          have : (a : Int) = (b : Int) * k := by rw [← h]; ring
          have hd : (b : Int) ∣ (a : Int) := ⟨k, this⟩
          exact Int.natCast_dvd_natCast.mp hd
      have : k * b + 1 ≤ a := h
      exact_mod_cast this
    have h2 : (a : ℚ) + 1 ≤ (k + 1) * b := by
      have h : (a : Int) < (k + 1) * b := by
        have : (a : ℚ) < (k + 1) * b := by
          rw [← hmb]; exact mul_lt_mul_of_pos_right hklt hbq
        exact_mod_cast this
      have : (a : Int) + 1 ≤ (k + 1) * b := h
      exact_mod_cast this
    have hlow : (k : ℚ) + 1 / b ≤ m := by
      rw [hm, le_div_iff₀ hbq]
      have : ((k : ℚ) + 1 / b) * b = k * b + 1 := by field_simp
      rw [this]; exact h1
    have hhigh : m ≤ (k : ℚ) + 1 - 1 / b := by
      rw [hm, div_le_iff₀ hbq]
      have : ((k : ℚ) + 1 - 1 / b) * b = (k + 1) * b - 1 := by field_simp
      rw [this]; linarith
    have hbq2 : (b : ℚ) ≤ 2 ^ 31 := by exact_mod_cast hb2
    have haq : (a : ℚ) ≤ 2 ^ 31 := by exact_mod_cast ha
    have hinv : (1 : ℚ) / 2 ^ 31 ≤ 1 / b := by
      apply one_div_le_one_div_of_le hbq hbq2
    have hmlow : (2 : ℚ) ^ (-1022 : Int) ≤ m := by
      have hk0q : (0 : ℚ) ≤ k := by exact_mod_cast hk0
      have h31 : (1 : ℚ) / 2 ^ 31 = 2 ^ (-31 : Int) := by
        rw [one_div, zpow_neg]; norm_cast
      have hz : (2 : ℚ) ^ (-1022 : Int) ≤ 2 ^ (-31 : Int) :=
        zpow_le_zpow_right₀ (by norm_num) (by norm_num)
      calc (2 : ℚ) ^ (-1022 : Int) ≤ 1 / 2 ^ 31 := by rw [h31]; exact hz
        _ ≤ 1 / b := hinv
        _ ≤ k + 1 / b := by linarith
        _ ≤ m := hlow
    have hmup : m ≤ 2 ^ 31 / b := by
      rw [hm]; exact div_le_div_of_nonneg_right haq hbq.le
    have hmup2 : m < 2 ^ 1023 := by
      have : (2:ℚ) ^ 31 / b ≤ 2 ^ 31 := by
        apply div_le_self (by positivity)
        exact_mod_cast hb
      have : (2:ℚ) ^ 31 < 2 ^ 1023 := by norm_num
      linarith
    obtain ⟨r, hr, herr⟩ := round_near neg m hmlow hmup2
    have hsmall : m / 2 ^ 53 < 1 / b := by
      have : m / 2 ^ 53 ≤ 2 ^ 31 / b / 2 ^ 53 :=
        div_le_div_of_nonneg_right hmup (by positivity)
      have e : (2:ℚ) ^ 31 / b / 2 ^ 53 = (1 / b) * (1 / 2 ^ 22) := by
        field_simp; ring
      have : (1 / (b:ℚ)) * (1 / 2 ^ 22) < 1 / b := by
        have hpos : (0:ℚ) < 1 / b := by positivity
        have : (1:ℚ) / 2 ^ 22 < 1 := by norm_num
        nlinarith
      linarith
    have hab := abs_le.mp herr
    refine ⟨r, hr, ?_, ?_⟩
    · rw [Int.floor_eq_iff]
      constructor <;> linarith [hab.1, hab.2]
    · have hc : ⌈m⌉ = k + 1 := by
        rw [Int.ceil_eq_iff]; push_cast
        constructor <;> linarith
      rw [hc, Int.ceil_eq_iff]; push_cast
      constructor <;> linarith [hab.1, hab.2]


theorem ofInt_eq (i : Int) (h : i.natAbs < 2 ^ 53) :
    ofInt i = fin (decide (i < 0)) (i.natAbs : ℚ) := by
  unfold ofInt
  have e : |(i : ℚ)| = ((i.natAbs : ℕ) : ℚ) := by
    rw [Nat.cast_natAbs, Int.cast_abs]
  rw [e]
  exact round_natCast _ _ h

/-- Division of two integral magnitudes below `2^31`. -/
theorem fdiv_fin_quot (s1 s2 : Bool) (a b : ℕ) (hb : 0 < b) (hb2 : b ≤ 2 ^ 31)
    (ha : a ≤ 2 ^ 31) :
    ∃ r : ℚ, fdiv (fin s1 a) (fin s2 b) = fin (xor s1 s2) r ∧ 0 ≤ r ∧
      ⌊r⌋ = ((a / b : ℕ) : Int) ∧ ⌈r⌉ = ⌈(a : ℚ) / b⌉ := by
  obtain ⟨r, hr, hf, hc⟩ := round_quot (xor s1 s2) a b hb hb2 ha
  have hfl : ⌊r⌋ = ((a / b : ℕ) : Int) := by
    rw [hf]; exact Rat.floor_natCast_div_natCast a b
  refine ⟨r, ?_, ?_, hfl, hc⟩
  · have hb0 : (b : ℚ) ≠ 0 := by exact_mod_cast hb.ne'
    simp only [fdiv, hb0, if_false]
    exact hr
  · have : 0 ≤ ⌊r⌋ := by rw [hfl]; exact Int.natCast_nonneg _
    exact Int.floor_nonneg.mp this

theorem fmul_fin_nat (s1 s2 : Bool) (a b : ℕ) (h : a * b < 2 ^ 53) :
    fmul (fin s1 a) (fin s2 b) = fin (xor s1 s2) ((a * b : ℕ) : ℚ) := by
  simp only [fmul]
  have := round_natCast (xor s1 s2) (a * b) h
  push_cast at this ⊢
  exact this

/-- The signed integer denoted by a sign and an integral magnitude. -/
theorem toRat_fin_nat (s : Bool) (a : ℕ) :
    (fin s a).toRat = ((if s then -(a : Int) else a : Int) : ℚ) := by
  cases s <;> simp [toRat]

/-- Sum of two finite values with integral magnitudes. -/
theorem fadd_fin_nat (s1 s2 : Bool) (a b : ℕ) (d : Int)
    (hd : d = (if s1 then -(a : Int) else a) + (if s2 then -(b : Int) else b))
    (h : d.natAbs < 2 ^ 53) :
    fadd (fin s1 a) (fin s2 b)
      = if d = 0 then fin (s1 && s2) 0 else fin (decide (d < 0)) (d.natAbs : ℚ) := by
  have hq : (fin s1 a).toRat + (fin s2 b).toRat = (d : ℚ) := by
    rw [toRat_fin_nat, toRat_fin_nat, hd]; push_cast; rfl
  simp only [fadd, hq]
  by_cases h0 : d = 0
  · simp [h0]
  · have h0q : (d : ℚ) ≠ 0 := by exact_mod_cast h0
    rw [if_neg h0q, if_neg h0]
    have := ofInt_eq d h
    unfold ofInt at this
    unfold ofRat
    have e : decide ((d : ℚ) < 0) = decide (d < 0) := by
      congr 1; exact propext Int.cast_lt_zero
    rw [e]; exact this

theorem trunc_fin (s : Bool) (r : ℚ) (hr : 0 ≤ r) :
    (fin s r).trunc = if s then -⌊r⌋ else ⌊r⌋ := by
  unfold trunc
  cases s
  · simp [toRat, hr]
  · simp only [toRat, if_true]
    by_cases h0 : r = 0
    · subst h0; simp
    · have : ¬ (0 ≤ -r) := by
        intro h; apply h0; linarith
      rw [if_neg this, Int.ceil_neg]

end F64

/-! ## Representations and integer arithmetic -/

/-- C1: `representationOf` is `Integer` exactly for the subtypes of `test`, of
scalar non-object logical and of scalar non-object integer; `Real` exactly when
none of these holds and the type is a subtype of scalar non-object real; `Sexp`
otherwise. The scalar type `integer|real` is boxed, and `Bottom` is never
returned. -/
theorem representationOf_contract (t : PirType) :
    (representationOf t = .Integer ↔
      (t.isA PirType.test = true ∨
        t.isA (PirType.ofRType .logical).scalar.notObject = true ∨
        t.isA (PirType.ofRType .integer).scalar.notObject = true)) ∧
    (representationOf t = .Real ↔
      (¬ (t.isA PirType.test = true ∨
          t.isA (PirType.ofRType .logical).scalar.notObject = true ∨
          t.isA (PirType.ofRType .integer).scalar.notObject = true) ∧
        t.isA (PirType.ofRType .real).scalar.notObject = true)) ∧
    (representationOf t = .Sexp ↔
      (¬ (t.isA PirType.test = true ∨
          t.isA (PirType.ofRType .logical).scalar.notObject = true ∨
          t.isA (PirType.ofRType .integer).scalar.notObject = true) ∧
        ¬ t.isA (PirType.ofRType .real).scalar.notObject = true)) ∧
    representationOf
      ((PirType.bottom.or (PirType.ofRType .integer)).or
        (PirType.ofRType .real)).scalar.notObject = .Sexp ∧
    representationOf t ≠ .Bottom := by
  refine ⟨?_, ?_, ?_, by decide, ?_⟩ <;>
    (unfold representationOf; split_ifs <;> simp_all)

/-- C2: on the unboxed path of Add, Sub and Mul (and of every other arithmetic
tag) with two `Integer` operands whose types may be NA, an operand equal to
`NA_INTEGER` gives `NA_INTEGER`; otherwise, when the exact result is a 32-bit
integer, the result is that sum, difference or product. -/
theorem binop_int_fast_path (hasEnv : Bool) (a b : Int) :
    ((a = NA_INTEGER ∨ b = NA_INTEGER) → ∀ tag : BinopTag,
      lowerBinop tag hasEnv .Integer true true (.int a) (.int b)
        = .native false (.value (some (.int NA_INTEGER)))) ∧
    (a ≠ NA_INTEGER → b ≠ NA_INTEGER →
      (isInt32 (a + b) →
        lowerBinop .Add hasEnv .Integer true true (.int a) (.int b)
          = .native false (.value (some (.int (a + b))))) ∧
      (isInt32 (a - b) →
        lowerBinop .Sub hasEnv .Integer true true (.int a) (.int b)
          = .native false (.value (some (.int (a - b))))) ∧
      (isInt32 (a * b) →
        lowerBinop .Mul hasEnv .Integer true true (.int a) (.int b)
          = .native false (.value (some (.int (a * b)))))) := by
  constructor
  · intro h tag
    have hc : (checkNa true (.int a) || checkNa true (.int b)) = true := by
      rcases h with h | h <;> simp [checkNa, nacheck, h]
    simp [lowerBinop, compileBinop, Operand.load, Operand.rep, binopNative, hc,
      Emitted.pure, convert]
  · intro ha hb
    have hc : (checkNa true (.int a) || checkNa true (.int b)) = false := by
      simp [checkNa, nacheck, ha, hb]
    refine ⟨?_, ?_, ?_⟩ <;> intro h <;>
      simp [lowerBinop, compileBinop, Operand.load, Operand.rep, binopNative, hc,
        intInsertOf, addNSW, subNSW, mulNSW, h, Emitted.pure, Emitted.map, convert]

/-- Witness of C2: `3 + 4 = 7` and `NA_INTEGER + 1 = NA_INTEGER`. -/
theorem binop_int_fast_path_witness :
    lowerBinop .Add false .Integer true true (.int 3) (.int 4)
      = .native false (.value (some (.int 7))) ∧
    lowerBinop .Add false .Integer true true (.int NA_INTEGER) (.int 1)
      = .native false (.value (some (.int NA_INTEGER))) :=
  ⟨((binop_int_fast_path false 3 4).2 (by decide) (by decide)).1 (by decide),
   (binop_int_fast_path false NA_INTEGER 1).1 (Or.inl rfl) .Add⟩

/-! ## Vector indices -/

theorem toU32_of_nonneg (i : Int) (h0 : 0 ≤ i) (h1 : i ≤ 4294967295) :
    toU32 i = i.toNat := by
  unfold toU32
  rw [Int.emod_eq_of_lt h0 (by omega)]

/-- The last two steps of `computeAndCheckIndex` on a native index `t`. -/
theorem index_rest (t bound : Nat) (h1 : 1 ≤ t) (ht : t < 18446744073709551616) :
    (t ≤ bound → bound < 9223372036854775808 →
      (subNUWNSW64 t 1).map
        (fun n => if bound ≤ n then IndexCheck.fallback else IndexCheck.hit n)
        = some (.hit (t - 1))) ∧
    (bound < t → bound < 9223372036854775808 →
      ∀ k, (subNUWNSW64 t 1).map
        (fun n => if bound ≤ n then IndexCheck.fallback else IndexCheck.hit n)
        ≠ some (.hit k)) ∧
    (bound < t → t < 9223372036854775808 →
      (subNUWNSW64 t 1).map
        (fun n => if bound ≤ n then IndexCheck.fallback else IndexCheck.hit n)
        = some .fallback) := by
  refine ⟨?_, ?_, ?_⟩
  · intro hle hb
    have hs : subNUWNSW64 t 1 = some (t - 1) := by
      unfold subNUWNSW64 toS64 isInt64
      rw [if_pos]
      refine ⟨h1, ?_⟩
      rw [if_pos (by omega), if_pos (by omega)]
      omega
    rw [hs]
    simp only [Option.map_some']
    rw [if_neg (by omega)]
  · intro hlt hb k
    unfold subNUWNSW64
    split_ifs with h
    · simp only [Option.map_some']
      rw [if_pos (by omega)]
      simp
    · simp
  · intro hlt hb
    have hs : subNUWNSW64 t 1 = some (t - 1) := by
      unfold subNUWNSW64 toS64 isInt64
      rw [if_pos]
      refine ⟨h1, ?_⟩
      rw [if_pos (by omega), if_pos (by omega)]
      omega
    rw [hs]
    simp only [Option.map_some']
    rw [if_pos (by omega)]

theorem F64.trunc_of_one_le (x : F64) (h : 1 ≤ x.toRat) : x.trunc = ⌊x.toRat⌋ := by
  unfold F64.trunc
  rw [if_pos (by linarith)]

/-- An `i32` index that is not NA and lies in `1 .. bound` reaches `hit`. -/
theorem computeAndCheckIndex_int_hit (vector : VectorSrc) (max : Option Nat)
    (hn : indexBound vector max < 9223372036854775808) (i : Int) (hi : isInt32 i)
    (h : i ≠ NA_INTEGER ∧ 1 ≤ i ∧ i ≤ indexBound vector max) :
    computeAndCheckIndex (.int i) vector max = some (.hit (i - 1).toNat) ∧
    (i - 1).toNat < indexBound vector max := by
  obtain ⟨hlo, hhi⟩ := hi
  obtain ⟨hna, h1, hle⟩ := h
  have hu : toU32 i = i.toNat := toU32_of_nonneg i (by omega) (by omega)
  have hr := (index_rest i.toNat (indexBound vector max) (by omega) (by omega)).1
    (by omega) hn
  refine ⟨?_, by omega⟩
  have e : (i - 1).toNat = i.toNat - 1 := by omega
  simp only [computeAndCheckIndex, hu]
  rw [if_neg (by simp; omega), e]
  exact hr

/-- Every other `i32` index goes to `fallback`. -/
theorem computeAndCheckIndex_int_fallback (vector : VectorSrc) (max : Option Nat)
    (i : Int) (hi : isInt32 i)
    (hnot : ¬ (i ≠ NA_INTEGER ∧ 1 ≤ i ∧ i ≤ indexBound vector max)) :
    computeAndCheckIndex (.int i) vector max = some .fallback := by
  obtain ⟨hlo, hhi⟩ := hi
  by_cases h1 : i < 1
  · simp [computeAndCheckIndex, h1]
  · by_cases hna : i = NA_INTEGER
    · simp [computeAndCheckIndex, hna]
    · have hgt : (indexBound vector max : Int) < i := by
        by_contra hc
        exact hnot ⟨hna, by omega, by omega⟩
      have hu : toU32 i = i.toNat := toU32_of_nonneg i (by omega) (by omega)
      have hr := (index_rest i.toNat (indexBound vector max) (by omega) (by omega)).2.2
        (by omega) (by omega)
      simp only [computeAndCheckIndex, hu]
      rw [if_neg (by simp; omega)]
      exact hr

/-- C3: `computeAndCheckIndex` reaches `hit` exactly for a valid index. For an
`i32` index `i` and bound `n`: `hit` with native index `i - 1 < n` when `i` is
not NA and `1 ≤ i ≤ n`, `fallback` otherwise. For a `double` index `x`:
`fallback` when `x` is NaN, infinite, below 1 or at least `2^64`; otherwise
`hit` is reached exactly when `trunc x ≤ n`, with native index `trunc x - 1`.
The bound is a length, below `2^63`. -/
theorem computeAndCheckIndex_spec (vector : VectorSrc) (max : Option Nat)
    (hn : indexBound vector max < 9223372036854775808) :
    (∀ i : Int, isInt32 i →
      ((i ≠ NA_INTEGER ∧ 1 ≤ i ∧ i ≤ indexBound vector max) →
        computeAndCheckIndex (.int i) vector max = some (.hit (i - 1).toNat) ∧
        (i - 1).toNat < indexBound vector max) ∧
      (¬ (i ≠ NA_INTEGER ∧ 1 ≤ i ∧ i ≤ indexBound vector max) →
        computeAndCheckIndex (.int i) vector max = some .fallback)) ∧
    (∀ x : F64,
      ((x.isNaN = true ∨ x = .inf false ∨ x = .inf true ∨
          (∃ s m, x = .fin s m ∧ (x.toRat < 1 ∨ 18446744073709551616 ≤ x.toRat))) →
        computeAndCheckIndex (.dbl x) vector max = some .fallback) ∧
      (∀ s m, x = .fin s m → 1 ≤ x.toRat → x.toRat < 18446744073709551616 →
        ((∃ k, computeAndCheckIndex (.dbl x) vector max = some (.hit k)) ↔
          x.trunc ≤ indexBound vector max) ∧
        (x.trunc ≤ indexBound vector max →
          computeAndCheckIndex (.dbl x) vector max
            = some (.hit (x.trunc - 1).toNat)))) := by
  constructor
  · intro i hi
    exact ⟨computeAndCheckIndex_int_hit vector max hn i hi,
      computeAndCheckIndex_int_fallback vector max i hi⟩
  · intro x
    constructor
    · rintro (h | h | h | ⟨s, m, h, hr⟩)
      · cases x <;> simp_all [computeAndCheckIndex, F64.fcmpULT, F64.unordered, F64.isNaN]
      · subst h
        simp [computeAndCheckIndex, F64.fcmpULT, F64.fcmpUGE, F64.unordered, F64.isNaN,
          F64.lt, ulongMaxDouble]
      · subst h
        simp [computeAndCheckIndex, F64.fcmpULT, F64.fcmpUGE, F64.unordered, F64.isNaN,
          F64.lt, ulongMaxDouble]
      · subst h
        rcases hr with hr | hr
        · have : F64.fcmpULT (.fin s m) (.fin false 1) = true := by
            simp only [F64.fcmpULT, F64.unordered, F64.isNaN, F64.lt, Bool.false_or,
              decide_eq_true_eq]
            have e : (F64.fin false 1).toRat = 1 := by simp [F64.toRat]
            rw [e]; exact hr
          simp [computeAndCheckIndex, this]
        · have : F64.fcmpUGE (.fin s m) ulongMaxDouble = true := by
            simp only [F64.fcmpUGE, F64.unordered, F64.isNaN, F64.lt, F64.eq, ulongMaxDouble,
              Bool.false_or, Bool.or_eq_true, decide_eq_true_eq]
            have e : (F64.fin false 18446744073709551616).toRat = 18446744073709551616 := by
              simp [F64.toRat]
            rw [e]
            rcases lt_or_eq_of_le hr with h | h
            · left; exact h
            · right; exact h.symm
          simp [computeAndCheckIndex, this]
    · intro s m hx h1 h2
      subst hx
      have htr : (F64.fin s m).trunc = ⌊(F64.fin s m).toRat⌋ := F64.trunc_of_one_le _ h1
      have ht1 : 1 ≤ (F64.fin s m).trunc := by
        rw [htr]; exact Int.le_floor.mpr (by exact_mod_cast h1)
      have ht2 : (F64.fin s m).trunc < 18446744073709551616 := by
        rw [htr]; exact Int.floor_lt.mpr (by exact_mod_cast h2)
      have hpre : computeAndCheckIndex (.dbl (.fin s m)) vector max
          = (subNUWNSW64 (F64.fin s m).trunc.toNat 1).map
            (fun n => if indexBound vector max ≤ n then IndexCheck.fallback
              else IndexCheck.hit n) := by
        have hu : F64.fcmpULT (.fin s m) (.fin false 1) = false := by
          simp only [F64.fcmpULT, F64.unordered, F64.isNaN, F64.lt, Bool.false_or,
            decide_eq_false_iff_not]
          have e : (F64.fin false 1).toRat = 1 := by simp [F64.toRat]
          rw [e]; exact not_lt.mpr h1
        have ho : F64.fcmpUGE (.fin s m) ulongMaxDouble = false := by
          simp only [F64.fcmpUGE, F64.unordered, F64.isNaN, F64.lt, F64.eq,
            ulongMaxDouble, Bool.false_or, Bool.or_eq_false_iff, decide_eq_false_iff_not]
          have e : (F64.fin false 18446744073709551616).toRat = 18446744073709551616 := by
            simp [F64.toRat]
          rw [e]
          constructor
          · exact not_lt.mpr h2.le
          · exact ne_of_lt h2
        have hna : F64.fcmpUNE (.fin s m) (.fin s m) = false := by
          simp [F64.fcmpUNE, F64.unordered, F64.isNaN, F64.eq]
        have hf : F64.fptoui (.fin s m) = some (F64.fin s m).trunc.toNat := by
          simp only [F64.fptoui]
          rw [if_pos ⟨by omega, ht2⟩]
        simp only [computeAndCheckIndex, hu, ho, hna, hf]
        simp
      have hrest := index_rest (F64.fin s m).trunc.toNat (indexBound vector max)
        (by omega) (by omega)
      have e : ((F64.fin s m).trunc - 1).toNat = (F64.fin s m).trunc.toNat - 1 := by omega
      constructor
      · constructor
        · rintro ⟨k, hk⟩
          by_contra hc
          rw [hpre] at hk
          exact hrest.2.1 (by omega) hn k hk
        · intro hle
          exact ⟨_, by rw [hpre]; exact hrest.1 (by omega) hn⟩
      · intro hle
        rw [hpre, e]
        exact hrest.1 (by omega) hn

/-- Witness of C3: a vector of length 3 and the indices 2, 4 and NaN. -/
theorem computeAndCheckIndex_spec_witness :
    computeAndCheckIndex (.int 2) (.sexp 3) none = some (.hit 1) ∧
    computeAndCheckIndex (.int 4) (.sexp 3) none = some .fallback ∧
    computeAndCheckIndex (.dbl .nan) (.sexp 3) none = some .fallback :=
  ⟨(((computeAndCheckIndex_spec (.sexp 3) none (by decide)).1 2 (by decide)).1
      ⟨by decide, by decide, by decide⟩).1,
   ((computeAndCheckIndex_spec (.sexp 3) none (by decide)).1 4 (by decide)).2 (by decide),
   ((computeAndCheckIndex_spec (.sexp 3) none (by decide)).2 .nan).1 (Or.inl rfl)⟩

theorem computeAndCheckIndex_hit_lt (index : NVal) (vector : VectorSrc) (max : Option Nat)
    (k : Nat) (h : computeAndCheckIndex index vector max = some (.hit k)) :
    k < indexBound vector max := by
  have key : ∀ t : Nat, (subNUWNSW64 t 1).map
      (fun n => if indexBound vector max ≤ n then IndexCheck.fallback else IndexCheck.hit n)
      = some (.hit k) → k < indexBound vector max := by
    intro t ht
    cases hs : subNUWNSW64 t 1 with
    | none => rw [hs] at ht; simp at ht
    | some n =>
      rw [hs] at ht
      simp only [Option.map_some', Option.some.injEq] at ht
      split_ifs at ht with hb
      · cases ht
        omega
  cases index with
  | int i =>
    simp only [computeAndCheckIndex] at h
    split_ifs at h
    · simp at h
    · exact key _ h
  | dbl x =>
    simp only [computeAndCheckIndex] at h
    split_ifs at h
    · simp at h
    · cases hf : F64.fptoui x with
      | none => rw [hf] at h; simp at h
      | some t => rw [hf] at h; exact key t h

theorem toS64_of_lt (a : Nat) (h : a < 9223372036854775808) : toS64 a = a := by
  unfold toS64; rw [if_pos h]

/-- The offset computation `nrow * index2 + index1` for in-range operands. -/
theorem offset_defined (nrow ncol i1 i2 : Nat) (hr : nrow ≤ 2147483647)
    (hc : ncol ≤ 2147483647) (h1 : i1 < nrow) (h2 : i2 < ncol) :
    (mulNUWNSW64 nrow i2).bind (fun i => addNUWNSW64 i i1) = some (nrow * i2 + i1) ∧
    nrow * i2 + i1 < nrow * ncol := by
  have hp : nrow * i2 + i1 < nrow * ncol := by
    have : nrow * (i2 + 1) ≤ nrow * ncol := Nat.mul_le_mul_left nrow h2
    have e : nrow * (i2 + 1) = nrow * i2 + nrow := by ring
    omega
  have hb : nrow * ncol ≤ 2147483647 * 2147483647 := Nat.mul_le_mul hr hc
  have hm : nrow * i2 ≤ nrow * i2 + i1 := Nat.le_add_right _ _
  refine ⟨?_, hp⟩
  have hmul : mulNUWNSW64 nrow i2 = some (nrow * i2) := by
    unfold mulNUWNSW64 isInt64
    rw [if_pos]
    rw [toS64_of_lt nrow (by omega), toS64_of_lt i2 (by omega)]
    refine ⟨by omega, ?_, ?_⟩
    · have h0 : (0 : Int) ≤ (nrow : Int) * (i2 : Int) := by positivity
      omega
    · have : ((nrow * i2 : Nat) : Int) ≤ 9223372036854775807 := by omega
      push_cast at this; exact this
  have hadd : addNUWNSW64 (nrow * i2) i1 = some (nrow * i2 + i1) := by
    unfold addNUWNSW64 isInt64
    rw [if_pos]
    rw [toS64_of_lt (nrow * i2) (by omega), toS64_of_lt i1 (by omega)]
    refine ⟨by omega, by omega, by omega⟩
  rw [hmul]
  simp [hadd]

theorem offset_unique (nrow a b a2 b2 : Nat) (ha : a < nrow) (ha2 : a2 < nrow)
    (h : nrow * b + a = nrow * b2 + a2) : a = a2 ∧ b = b2 := by
  have hpos : 0 < nrow := by omega
  have h1 : (nrow * b + a) % nrow = a := by
    rw [Nat.mul_add_mod]; exact Nat.mod_eq_of_lt ha
  have h2 : (nrow * b2 + a2) % nrow = a2 := by
    rw [Nat.mul_add_mod]; exact Nat.mod_eq_of_lt ha2
  have hq1 : (nrow * b + a) / nrow = b := by
    rw [Nat.mul_add_div hpos, Nat.div_eq_of_lt ha]; rfl
  have hq2 : (nrow * b2 + a2) / nrow = b2 := by
    rw [Nat.mul_add_div hpos, Nat.div_eq_of_lt ha2]; rfl
  constructor
  · rw [← h1, h, h2]
  · rw [← hq1, h, hq2]

/-- The two-dimensional index for two valid `i32` indices. -/
theorem index2D_int (ncols nrows : Int) (vector : VectorSrc)
    (hc : 0 ≤ ncols ∧ ncols ≤ 2147483647) (hr : 0 ≤ nrows ∧ nrows ≤ 2147483647)
    (idx1 idx2 : Int) (h1 : 1 ≤ idx1 ∧ idx1 ≤ nrows) (h2 : 1 ≤ idx2 ∧ idx2 ≤ ncols) :
    index2D ncols nrows (.int idx1) (.int idx2) vector
      = some (.hit (nrows.toNat * (idx2 - 1).toNat + (idx1 - 1).toNat)) ∧
    (idx1 - 1).toNat < nrows.toNat ∧ (idx2 - 1).toNat < ncols.toNat := by
  have hur : toU32 nrows = nrows.toNat := toU32_of_nonneg _ hr.1 (by omega)
  have huc : toU32 ncols = ncols.toNat := toU32_of_nonneg _ hc.1 (by omega)
  have c1 := computeAndCheckIndex_int_hit vector (some nrows.toNat)
    (by simp [indexBound]; omega) idx1 ⟨by omega, by omega⟩
      ⟨by unfold NA_INTEGER; omega, h1.1, by simp [indexBound]; omega⟩
  have c2 := computeAndCheckIndex_int_hit vector (some ncols.toNat)
    (by simp [indexBound]; omega) idx2 ⟨by omega, by omega⟩
      ⟨by unfold NA_INTEGER; omega, h2.1, by simp [indexBound]; omega⟩
  have ho := offset_defined nrows.toNat ncols.toNat (idx1 - 1).toNat (idx2 - 1).toNat
    (by omega) (by omega) (by omega) (by omega)
  refine ⟨?_, by omega, by omega⟩
  simp only [index2D, hur, huc, c1.1, c2.1, ho.1, Option.map_some']

/-- C4: in the two-dimensional fast paths, when both index checks pass the
offset is `nrow * index2 + index1` for the zero-based indices, that is
`nrow * (idx2 - 1) + (idx1 - 1)`; it is below `nrow * ncol`, and every offset
below `nrow * ncol` is the offset of exactly one pair of one-based indices in
`[1 .. nrow] x [1 .. ncol]`. The dimensions are non-negative `int`s. -/
theorem index2D_column_major (ncols nrows : Int) (vector : VectorSrc)
    (hc : 0 ≤ ncols ∧ ncols ≤ 2147483647) (hr : 0 ≤ nrows ∧ nrows ≤ 2147483647) :
    (∀ (idx1 idx2 : NVal) (i1 i2 : Nat),
      computeAndCheckIndex idx1 vector (some (toU32 nrows)) = some (.hit i1) →
      computeAndCheckIndex idx2 vector (some (toU32 ncols)) = some (.hit i2) →
      index2D ncols nrows idx1 idx2 vector = some (.hit (nrows.toNat * i2 + i1)) ∧
      nrows.toNat * i2 + i1 < nrows.toNat * ncols.toNat) ∧
    (∀ idx1 idx2 : Int, 1 ≤ idx1 → idx1 ≤ nrows → 1 ≤ idx2 → idx2 ≤ ncols →
      index2D ncols nrows (.int idx1) (.int idx2) vector
        = some (.hit (nrows * (idx2 - 1) + (idx1 - 1)).toNat)) ∧
    (∀ off : Nat, off < nrows.toNat * ncols.toNat →
      ∃ idx1 idx2 : Int, (1 ≤ idx1 ∧ idx1 ≤ nrows ∧ 1 ≤ idx2 ∧ idx2 ≤ ncols) ∧
        index2D ncols nrows (.int idx1) (.int idx2) vector = some (.hit off) ∧
        ∀ j1 j2 : Int, 1 ≤ j1 → j1 ≤ nrows → 1 ≤ j2 → j2 ≤ ncols →
          index2D ncols nrows (.int j1) (.int j2) vector = some (.hit off) →
          j1 = idx1 ∧ j2 = idx2) := by
  have hur : toU32 nrows = nrows.toNat := toU32_of_nonneg _ hr.1 (by omega)
  have huc : toU32 ncols = ncols.toNat := toU32_of_nonneg _ hc.1 (by omega)
  refine ⟨?_, ?_, ?_⟩
  · intro idx1 idx2 i1 i2 h1 h2
    rw [hur] at h1
    rw [huc] at h2
    have l1 := computeAndCheckIndex_hit_lt _ _ _ _ h1
    have l2 := computeAndCheckIndex_hit_lt _ _ _ _ h2
    simp only [indexBound] at l1 l2
    have ho := offset_defined nrows.toNat ncols.toNat i1 i2 (by omega) (by omega) l1 l2
    refine ⟨?_, ho.2⟩
    simp only [index2D, hur, huc, h1, h2, ho.1, Option.map_some']
  · intro idx1 idx2 a1 a2 b1 b2
    have h := (index2D_int ncols nrows vector hc hr idx1 idx2 ⟨a1, a2⟩ ⟨b1, b2⟩).1
    rw [h]
    congr 2
    have e : ((nrows.toNat * (idx2 - 1).toNat + (idx1 - 1).toNat : Nat) : Int)
        = nrows * (idx2 - 1) + (idx1 - 1) := by
      push_cast
      rw [Int.toNat_of_nonneg hr.1, Int.toNat_of_nonneg (by omega : 0 ≤ idx2 - 1),
        Int.toNat_of_nonneg (by omega : 0 ≤ idx1 - 1)]
    rw [← e, Int.toNat_natCast]
  · intro off hoff
    have hpos : 0 < nrows.toNat := by
      rcases Nat.eq_zero_or_pos nrows.toNat with h | h
      · rw [h] at hoff; simp at hoff
      · exact h
    obtain ⟨q, r, hq, hr2, hqr⟩ : ∃ q r : Nat, q < ncols.toNat ∧ r < nrows.toNat ∧
        nrows.toNat * q + r = off :=
      ⟨off / nrows.toNat, off % nrows.toNat, Nat.div_lt_of_lt_mul hoff,
        Nat.mod_lt _ hpos, Nat.div_add_mod off nrows.toNat⟩
    refine ⟨(r : Int) + 1, (q : Int) + 1, ⟨by omega, by omega, by omega, by omega⟩, ?_, ?_⟩
    · have h := (index2D_int ncols nrows vector hc hr ((r : Int) + 1) ((q : Int) + 1)
        ⟨by omega, by omega⟩ ⟨by omega, by omega⟩).1
      rw [h]
      congr 2
      have e1 : ((q : Int) + 1 - 1).toNat = q := by omega
      have e2 : ((r : Int) + 1 - 1).toNat = r := by omega
      rw [e1, e2]
      exact hqr
    · intro j1 j2 a1 a2 b1 b2 hj
      have h := index2D_int ncols nrows vector hc hr j1 j2 ⟨a1, a2⟩ ⟨b1, b2⟩
      rw [h.1] at hj
      simp only [Option.some.injEq, IndexCheck.hit.injEq] at hj
      have hu := offset_unique nrows.toNat _ _ _ _ h.2.1 hr2 (hj.trans hqr.symm)
      omega

/-- Witness of C4: a 3 x 2 matrix, element `[2, 2]`, offset 4. -/
theorem index2D_column_major_witness :
    index2D 2 3 (.int 2) (.int 2) (.sexp 6) = some (.hit 4) :=
  (index2D_column_major 2 3 (.sexp 6) (by decide) (by decide)).2.1 2 2
    (by decide) (by decide) (by decide) (by decide)

/-! ## Integer division and remainder -/

theorem tdiv_sign_natAbs (a b : Int) :
    (if xor (decide (a < 0)) (decide (b < 0)) then -((a.natAbs / b.natAbs : ℕ) : Int)
      else ((a.natAbs / b.natAbs : ℕ) : Int)) = Int.tdiv a b := by
  obtain ⟨A, rfl | rfl⟩ := Int.eq_nat_or_neg a <;>
  obtain ⟨B, rfl | rfl⟩ := Int.eq_nat_or_neg b
  all_goals
    have e : (A : Int).tdiv B = (A : Int) / B :=
      Int.tdiv_eq_ediv (Int.natCast_nonneg A) (Int.natCast_nonneg B)
    have hA : ¬ ((A : Int) < 0) := by omega
    have hB : ¬ ((B : Int) < 0) := by omega
  · simp [e, hA, hB]
  · rcases Nat.eq_zero_or_pos B with h | h
    · subst h; simp
    · have : (-(B : Int) < 0) := by omega
      simp [this, e, hA]
  · rcases Nat.eq_zero_or_pos A with h | h
    · subst h; simp
    · have : (-(A : Int) < 0) := by omega
      simp [this, e, hB]
  · rcases Nat.eq_zero_or_pos A with h | h
    · subst h; simp
    · rcases Nat.eq_zero_or_pos B with h2 | h2
      · subst h2; simp
      · have h1 : (-(A : Int) < 0) := by omega
        have h3 : (-(B : Int) < 0) := by omega
        simp [h1, h3, e]

/-- LLVM `fptosi` of a finite value whose magnitude has a small integral part. -/
theorem fptosi_fin (s : Bool) (r : ℚ) (hr : 0 ≤ r) (k : ℕ) (hk : ⌊r⌋ = (k : Int))
    (hs : k ≤ 2147483647) :
    F64.fptosi (.fin s r) = some (if s then -(k : Int) else k) := by
  have ht : (F64.fin s r).trunc = if s then -(k : Int) else k := by
    rw [F64.trunc_fin s r hr, hk]
  simp only [F64.fptosi, ht]
  rw [if_pos]
  unfold isInt32
  cases s <;> simp <;> omega

/-- The integer path of IDiv truncates the quotient toward zero. -/
theorem idivInt_eq_tdiv (a b : Int) (ha : isInt32 a) (hb : isInt32 b)
    (hna : a ≠ NA_INTEGER) (hb0 : b ≠ 0) :
    idivInt a b = Emitted.pure (some (Int.tdiv a b)) := by
  obtain ⟨ha1, ha2⟩ := ha
  obtain ⟨hb1, hb2⟩ := hb
  unfold NA_INTEGER at hna
  have hA : a.natAbs ≤ 2147483647 := by omega
  have hB : b.natAbs ≤ 2147483648 := by omega
  have hBpos : 0 < b.natAbs := by omega
  unfold idivInt
  rw [if_neg hb0, F64.ofInt_eq a (by omega), F64.ofInt_eq b (by omega)]
  obtain ⟨r, hr, hr0, hfl, -⟩ := F64.fdiv_fin_quot (decide (a < 0)) (decide (b < 0))
    a.natAbs b.natAbs hBpos (by norm_num; omega) (by norm_num; omega)
  rw [hr]
  have hq : a.natAbs / b.natAbs ≤ 2147483647 :=
    le_trans (Nat.div_le_self _ _) hA
  rw [fptosi_fin _ r hr0 _ hfl hq, tdiv_sign_natAbs]

/-- C5 (code defect): IDiv on the `Integer` operands -7 and 2 yields -3, the
quotient truncated toward zero, while the floor of -7 / 2 is -4. -/
theorem idiv_int_truncates_at_neg7_2 :
    lowerBinop .IDiv false .Integer true true (.int (-7)) (.int 2)
      = .native false (.value (some (.int (-3)))) ∧
    ⌊((-7 : Int) : ℚ) / ((2 : Int) : ℚ)⌋ = -4 := by
  constructor
  · have h := idivInt_eq_tdiv (-7) 2 (by decide) (by decide) (by decide) (by decide)
    have hc : (checkNa true (.int (-7)) || checkNa true (.int 2)) = false := by decide
    simp only [lowerBinop, compileBinop, Operand.load, Operand.rep, binopNative, hc,
      intInsertOf, h, Emitted.pure, Emitted.map]
    decide
  · rw [Int.floor_eq_iff]; norm_num

theorem ceil_natCast_div (A B : ℕ) (hB : 0 < B) :
    ⌈(A : ℚ) / B⌉ = ((if A % B = 0 then A / B else A / B + 1 : ℕ) : Int) := by
  have hBq : (0 : ℚ) < B := by exact_mod_cast hB
  have hdm := Nat.div_add_mod A B
  have hlt := Nat.mod_lt A hB
  generalize A / B = k at hdm ⊢
  generalize A % B = ρ at hdm hlt ⊢
  have hdq : (B : ℚ) * k + ρ = A := by exact_mod_cast hdm
  have hltq : (ρ : ℚ) < B := by exact_mod_cast hlt
  rw [Int.ceil_eq_iff]
  split_ifs with h
  · subst h
    simp only [Nat.cast_zero, add_zero] at hdq
    rw [lt_div_iff₀ hBq, div_le_iff₀ hBq, Int.cast_natCast]
    constructor <;> nlinarith
  · have hp : (1 : ℚ) ≤ ρ := by
      have : 1 ≤ ρ := Nat.one_le_iff_ne_zero.mpr h
      exact_mod_cast this
    rw [lt_div_iff₀ hBq, div_le_iff₀ hBq, Int.cast_natCast]
    push_cast
    constructor <;> nlinarith

/-- LLVM `llvm.floor` of a quotient whose magnitude `r` has the integral part and
the ceiling of `A / B`. -/
theorem floor_fin_quot (s : Bool) (r : ℚ) (A B : ℕ) (hB : 0 < B)
    (hfl : ⌊r⌋ = ((A / B : ℕ) : Int)) (hcl : ⌈r⌉ = ⌈(A : ℚ) / B⌉) :
    F64.floor (.fin s r)
      = .fin s ((if s then (if A % B = 0 then A / B else A / B + 1) else A / B : ℕ) : ℚ) := by
  cases s
  · simp only [F64.floor, hfl, Int.cast_natCast]; rfl
  · simp only [F64.floor, hcl, ceil_natCast_div A B hB, Int.cast_natCast]; rfl

theorem fcmpUEQ_fin_zero (s : Bool) (B : ℕ) (hB : 0 < B) :
    F64.fcmpUEQ (.fin s B) (.fin false 0) = false := by
  have hBq : (B : ℚ) ≠ 0 := by exact_mod_cast hB.ne'
  cases s <;> simp [F64.fcmpUEQ, F64.unordered, F64.isNaN, F64.eq, F64.toRat, hBq]

theorem sign_natAbs (d : Int) :
    (if decide (d < 0) = true then -((d.natAbs : ℕ) : Int) else ((d.natAbs : ℕ) : Int)) = d := by
  by_cases h : d < 0
  · simp only [h, decide_True, if_true]; omega
  · simp only [h, decide_False]; simp only [Bool.false_eq_true, if_false]; omega

/-- The steps of `myfmod` after the first `floor`: with `fq` of magnitude `M`,
`tmp = a - fq * b` is the exact integer `d`, and the correction
`tmp - floor (tmp / b) * b` leaves it unchanged. -/
theorem mod_pipeline (sa sb : Bool) (A B M : ℕ) (d : Int) (hB0 : 0 < B)
    (hB : B ≤ 2 ^ 31) (hMB : M * B < 2 ^ 53)
    (hd : d = (if sa then -(A : Int) else A)
      + (if !(xor (xor sa sb) sb) then -((M * B : ℕ) : Int) else ((M * B : ℕ) : Int)))
    (hdB : d.natAbs < B) (hsign : xor (decide (d < 0)) sb = true → d = 0) :
    F64.fsub (.fin sa A) (F64.fmul (.fin (xor sa sb) M) (.fin sb B))
      = .fin (decide (d < 0)) (d.natAbs : ℚ) ∧
    F64.fsub (.fin (decide (d < 0)) (d.natAbs : ℚ))
      (F64.fmul (F64.floor (F64.fdiv (.fin (decide (d < 0)) (d.natAbs : ℚ)) (.fin sb B)))
        (.fin sb B))
      = .fin (decide (d < 0)) (d.natAbs : ℚ) := by
  have hB53 : B < 2 ^ 53 := lt_of_le_of_lt hB (by norm_num)
  have hd53 : d.natAbs < 2 ^ 53 := lt_trans hdB hB53
  constructor
  · rw [F64.fmul_fin_nat _ _ _ _ hMB]
    simp only [F64.fsub, F64.fneg]
    rw [F64.fadd_fin_nat sa (!(xor (xor sa sb) sb)) A (M * B) d hd hd53]
    split_ifs with h0
    · subst h0
      have : (sa && !(xor (xor sa sb) sb)) = false := by cases sa <;> cases sb <;> rfl
      rw [this]; simp
    · rfl
  · obtain ⟨r, hr, -, hfl, hcl⟩ := F64.fdiv_fin_quot (decide (d < 0)) sb d.natAbs B hB0 hB
      (le_trans hdB.le hB)
    rw [hr, floor_fin_quot _ r d.natAbs B hB0 hfl hcl]
    have hdiv : d.natAbs / B = 0 := Nat.div_eq_of_lt hdB
    have hmag : (if xor (decide (d < 0)) sb = true then
        (if d.natAbs % B = 0 then d.natAbs / B else d.natAbs / B + 1) else d.natAbs / B) = 0 := by
      split_ifs with h1 h2
      · exact hdiv
      · exfalso; apply h2
        have := hsign h1
        subst this; simp
      · exact hdiv
    rw [hmag]
    rw [F64.fmul_fin_nat _ _ 0 B (by simp)]
    simp only [F64.fsub, F64.fneg]
    have hd2 : d = (if decide (d < 0) = true then -((d.natAbs : ℕ) : Int) else ((d.natAbs : ℕ) : Int))
        + (if (!(xor (xor (decide (d < 0)) sb) sb)) = true then -((0 * B : ℕ) : Int)
          else ((0 * B : ℕ) : Int)) := by
      rw [sign_natAbs]; simp
    rw [F64.fadd_fin_nat _ _ d.natAbs (0 * B) d hd2 hd53]
    split_ifs with h0
    · subst h0; simp
    · rfl

/-- The floor of a quotient of two integers given by sign and magnitude. -/
theorem floor_div_sign (sa sb : Bool) (A B : ℕ) (hB : 0 < B) :
    ⌊(((if sa then -(A : Int) else A : Int) : ℚ)) / (((if sb then -(B : Int) else B : Int) : ℚ))⌋
      = if xor sa sb then
          -(((if A % B = 0 then A / B else A / B + 1 : ℕ)) : Int)
        else ((A / B : ℕ) : Int) := by
  cases sa <;> cases sb <;>
    simp only [Bool.xor_false, Bool.xor_true, Bool.not_false, Bool.not_true,
      Bool.false_eq_true, if_false, if_true, Int.cast_neg, Int.cast_natCast,
      div_neg, neg_div, neg_neg, Int.floor_neg, Bool.xor_self]
  · exact Rat.floor_natCast_div_natCast A B
  · rw [ceil_natCast_div A B hB]
  · rw [ceil_natCast_div A B hB]
  · exact Rat.floor_natCast_div_natCast A B

/-- The arithmetic of the floored remainder `d = a - floor (a / b) * b` in terms
of the magnitudes of `a` and `b`. -/
theorem mod_arith (sa sb : Bool) (A B : ℕ) (hB : 0 < B) (hsa : sa = true → 0 < A)
    (M : ℕ) (hM : M = if xor sa sb then (if A % B = 0 then A / B else A / B + 1) else A / B)
    (d : Int)
    (hd : d = (if sa then -(A : Int) else A)
      - ⌊(((if sa then -(A : Int) else A : Int) : ℚ)) /
          (((if sb then -(B : Int) else B : Int) : ℚ))⌋ * (if sb then -(B : Int) else B)) :
    d = (if sa then -(A : Int) else A)
      + (if !(xor (xor sa sb) sb) then -((M * B : ℕ) : Int) else ((M * B : ℕ) : Int)) ∧
    d.natAbs < B ∧ (xor (decide (d < 0)) sb = true → d = 0) ∧ M * B ≤ A + B ∧
    (d = 0 ∨ (d < 0 ↔ sb = true)) := by
  rw [floor_div_sign sa sb A B hB] at hd
  have hdm := Nat.div_add_mod A B
  have hlt := Nat.mod_lt A hB
  generalize A / B = k at hdm hM hd
  generalize A % B = ρ at hdm hlt hM hd
  have hP : ((B * k : ℕ) : Int) = (B : Int) * k := by push_cast; ring
  generalize B * k = P at hdm hP
  by_cases hρ : ρ = 0
  · subst hρ
    simp only [if_true, ite_self] at hM
    subst hM
    have hMB : ((M * B : ℕ) : Int) = (B : Int) * M := by push_cast; ring
    have hMB2 : M * B = P := by
      have : ((M * B : ℕ) : Int) = (P : Int) := by rw [hMB, hP]
      exact_mod_cast this
    cases sa <;> cases sb <;>
      simp only [Bool.xor_false, Bool.xor_true, Bool.not_false, Bool.not_true,
        Bool.false_eq_true, if_false, if_true, Bool.xor_self, decide_eq_true_eq,
        Bool.not_eq_true', decide_eq_false_iff_not, neg_mul, mul_neg, neg_neg,
        sub_neg_eq_add] at hd ⊢ <;>
      (have hd2 : d = 0 := by
        rw [hd]
        have : (M : Int) * B = P := by rw [mul_comm, ← hP]
        omega) <;>
      subst hd2 <;> simp <;> omega
  · have hρ1 : 1 ≤ ρ := Nat.one_le_iff_ne_zero.mpr hρ
    simp only [hρ, if_false] at hM hd
    cases sa <;> cases sb <;>
      simp only [Bool.xor_false, Bool.xor_true, Bool.not_false, Bool.not_true,
        Bool.false_eq_true, if_false, if_true, Bool.xor_self, decide_eq_true_eq,
        Bool.not_eq_true', decide_eq_false_iff_not, neg_mul, mul_neg, neg_neg,
        sub_neg_eq_add] at hd hM ⊢
    · subst hM
      have hMB : ((M * B : ℕ) : Int) = P := by rw [hP]; push_cast; ring
      have hMB2 : M * B = P := by exact_mod_cast hMB
      have hprod : (M : Int) * B = P := by rw [← hMB]; push_cast; ring
      have hd2 : d = (ρ : Int) := by rw [hd, hprod]; omega
      subst hd2
      refine ⟨?_, ?_, ?_, ?_, ?_⟩ <;>
        first
          | omega
          | (simp only [decide_eq_true_eq, Bool.xor_false, Bool.xor_true, Bool.not_eq_true',
              decide_eq_false_iff_not, Bool.false_eq_true, Bool.not_false, Bool.not_true,
              iff_false, iff_true, not_lt]; omega)
    · subst hM
      have hMB : (((k + 1) * B : ℕ) : Int) = P + B := by rw [hP]; push_cast; ring
      have hMB2 : (k + 1) * B = P + B := by exact_mod_cast hMB
      have hprod : ((k + 1 : ℕ) : Int) * B = P + B := by rw [← hMB]; push_cast; ring
      have hd2 : d = (ρ : Int) - B := by rw [hd, hprod]; omega
      subst hd2
      refine ⟨?_, ?_, ?_, ?_, ?_⟩ <;>
        first
          | omega
          | (simp only [decide_eq_true_eq, Bool.xor_false, Bool.xor_true, Bool.not_eq_true',
              decide_eq_false_iff_not, Bool.false_eq_true, Bool.not_false, Bool.not_true,
              iff_false, iff_true, not_lt]; omega)
    · subst hM
      have hMB : (((k + 1) * B : ℕ) : Int) = P + B := by rw [hP]; push_cast; ring
      have hMB2 : (k + 1) * B = P + B := by exact_mod_cast hMB
      have hprod : ((k + 1 : ℕ) : Int) * B = P + B := by rw [← hMB]; push_cast; ring
      have hd2 : d = (B : Int) - ρ := by rw [hd, hprod]; omega
      subst hd2
      refine ⟨?_, ?_, ?_, ?_, ?_⟩ <;>
        first
          | omega
          | (simp only [decide_eq_true_eq, Bool.xor_false, Bool.xor_true, Bool.not_eq_true',
              decide_eq_false_iff_not, Bool.false_eq_true, Bool.not_false, Bool.not_true,
              iff_false, iff_true, not_lt]; omega)
    · subst hM
      have hMB : ((M * B : ℕ) : Int) = P := by rw [hP]; push_cast; ring
      have hMB2 : M * B = P := by exact_mod_cast hMB
      have hprod : (M : Int) * B = P := by rw [← hMB]; push_cast; ring
      have hd2 : d = -(ρ : Int) := by rw [hd, hprod]; omega
      subst hd2
      refine ⟨?_, ?_, ?_, ?_, ?_⟩ <;>
        first
          | omega
          | (simp only [decide_eq_true_eq, Bool.xor_false, Bool.xor_true, Bool.not_eq_true',
              decide_eq_false_iff_not, Bool.false_eq_true, Bool.not_false, Bool.not_true,
              iff_false, iff_true, not_lt]; omega)

theorem int_sign_natAbs (a : Int) :
    (if decide (a < 0) = true then -((a.natAbs : ℕ) : Int) else ((a.natAbs : ℕ) : Int)) = a :=
  sign_natAbs a

/-- The lambda `myfmod` on two converted 32-bit integers computes the floored remainder
exactly and does not warn. -/
theorem myfmod_ofInt (a b : Int) (ha : isInt32 a) (hb : isInt32 b) (hb0 : b ≠ 0)
    (d : Int) (hd : d = a - ⌊(a : ℚ) / (b : ℚ)⌋ * b) :
    myfmod (F64.ofInt a) (F64.ofInt b)
      = ⟨false, some (.fin (decide (d < 0)) (d.natAbs : ℚ))⟩ ∧
    d.natAbs < b.natAbs ∧ (d = 0 ∨ (d < 0 ↔ b < 0)) := by
  obtain ⟨ha1, ha2⟩ := ha
  obtain ⟨hb1, hb2⟩ := hb
  have hA : a.natAbs ≤ 2 ^ 31 := by norm_num; omega
  have hB : b.natAbs ≤ 2 ^ 31 := by norm_num; omega
  have hB0 : 0 < b.natAbs := by omega
  have hsa : decide (a < 0) = true → 0 < a.natAbs := by
    intro h; have := of_decide_eq_true h; omega
  have hd' : d = (if decide (a < 0) then -((a.natAbs : ℕ) : Int) else ((a.natAbs : ℕ) : Int))
      - ⌊(((if decide (a < 0) then -((a.natAbs : ℕ) : Int) else ((a.natAbs : ℕ) : Int) : Int) : ℚ)) /
          (((if decide (b < 0) then -((b.natAbs : ℕ) : Int) else ((b.natAbs : ℕ) : Int) : Int) : ℚ))⌋
        * (if decide (b < 0) then -((b.natAbs : ℕ) : Int) else ((b.natAbs : ℕ) : Int)) := by
    rw [int_sign_natAbs a, int_sign_natAbs b]; exact hd
  obtain ⟨h1, h2, h3, h4, h5⟩ := mod_arith (decide (a < 0)) (decide (b < 0)) a.natAbs b.natAbs
    hB0 hsa _ rfl d hd'
  refine ⟨?_, h2, ?_⟩
  · rw [F64.ofInt_eq a (lt_of_le_of_lt hA (by norm_num)),
      F64.ofInt_eq b (lt_of_le_of_lt hB (by norm_num))]
    obtain ⟨r, hr, hr0, hfl, hcl⟩ := F64.fdiv_fin_quot (decide (a < 0)) (decide (b < 0))
      a.natAbs b.natAbs hB0 hB hA
    have hMB : (if xor (decide (a < 0)) (decide (b < 0)) = true then
        (if a.natAbs % b.natAbs = 0 then a.natAbs / b.natAbs else a.natAbs / b.natAbs + 1)
        else a.natAbs / b.natAbs) * b.natAbs < 2 ^ 53 := by
      have : a.natAbs + b.natAbs < 2 ^ 53 := by
        have : (2 : ℕ) ^ 31 + 2 ^ 31 < 2 ^ 53 := by norm_num
        omega
      omega
    obtain ⟨p1, p2⟩ := mod_pipeline (decide (a < 0)) (decide (b < 0)) a.natAbs b.natAbs _ d
      hB0 hB hMB h1 h2 h3
    have hgt : F64.fcmpUGT (F64.fabs (.fin (xor (decide (a < 0)) (decide (b < 0))) r))
        accuracyInvEps = false := by
      have hr1 : r < ⌊r⌋ + 1 := Int.lt_floor_add_one r
      have hk : ((a.natAbs / b.natAbs : ℕ) : ℚ) ≤ 2 ^ 31 := by
        have : a.natAbs / b.natAbs ≤ 2 ^ 31 := le_trans (Nat.div_le_self _ _) hA
        exact_mod_cast this
      rw [hfl, Int.cast_natCast] at hr1
      simp only [F64.fcmpUGT, F64.fabs, F64.unordered, F64.isNaN, F64.lt, accuracyInvEps,
        F64.toRat, Bool.false_or, Bool.false_eq_true, if_false, decide_eq_false_iff_not, not_lt]
      have : (2 : ℚ) ^ 31 + 1 ≤ 4503599627370496 := by norm_num
      linarith
    unfold myfmod
    rw [fcmpUEQ_fin_zero _ _ hB0]
    simp only [Bool.false_eq_true, if_false]
    rw [hr, hgt, floor_fin_quot _ r a.natAbs b.natAbs hB0 hfl hcl, p1, p2]
    simp
  · rcases h5 with h | h
    · exact Or.inl h
    · right; rw [h]; simp

/-- The integer path of Mod computes the floored remainder on both of its
paths, without a warning. -/
theorem modInt_eq (a b : Int) (ha : isInt32 a) (hb : isInt32 b) (hb0 : b ≠ 0)
    (d : Int) (hd : d = a - ⌊(a : ℚ) / (b : ℚ)⌋ * b) :
    modInt a b = ⟨false, some d⟩ ∧
    (0 ≤ a ∧ 0 < b → srem a b = some d) ∧
    (myfmod (F64.ofInt a) (F64.ofInt b)).value.bind F64.fptosi = some d := by
  obtain ⟨hm, hlt, hs⟩ := myfmod_ofInt a b ha hb hb0 d hd
  have hslow : (myfmod (F64.ofInt a) (F64.ofInt b)).value.bind F64.fptosi = some d := by
    rw [hm]
    simp only [Option.some_bind]
    rw [fptosi_fin _ _ (by positivity) d.natAbs (by simp) (by
      obtain ⟨hb1, hb2⟩ := hb; omega)]
    rw [sign_natAbs]
  have hfast : 0 ≤ a ∧ 0 < b → srem a b = some d := by
    rintro ⟨h0, hbp⟩
    obtain ⟨ha1, ha2⟩ := ha
    obtain ⟨hb1, hb2⟩ := hb
    have hfl : ⌊(a : ℚ) / (b : ℚ)⌋ = a / b := by
      have := Rat.floor_intCast_div_natCast a b.toNat
      have e : ((b.toNat : ℕ) : Int) = b := Int.toNat_of_nonneg hbp.le
      have e2 : ((b.toNat : ℕ) : ℚ) = (b : ℚ) := by exact_mod_cast congrArg (Int.cast (R := ℚ)) e
      rw [e2, e] at this
      exact this
    have hd2 : d = a % b := by
      rw [hd, hfl, Int.emod_def]; ring
    have hq : Int.tdiv a b = a / b := Int.tdiv_eq_ediv h0 hbp.le
    have hqb : a / b ≤ a := Int.ediv_le_self b h0
    have hq0 : 0 ≤ a / b := Int.ediv_nonneg h0 hbp.le
    unfold srem
    rw [if_neg, Int.tmod_eq_emod h0 hbp.le, hd2]
    rw [hq]; unfold isInt32
    push_neg
    exact ⟨hb0, by omega, by omega⟩
  refine ⟨?_, hfast, hslow⟩
  unfold modInt
  split_ifs with h
  · rw [hfast h]; rfl
  · rw [hm] at hslow ⊢
    simp only [Option.some_bind] at hslow ⊢
    rw [hslow]

/-- C6: Mod on two `Integer` operands that are not NA, with a non-zero
divisor, yields `a - floor (a / b) * b`, on the native-remainder path (taken
when `a ≥ 0` and `b > 0`) as well as on the floating-point fallback; no warning
is emitted. The result is 0 or has the sign of `b`, and is smaller than `b` in
magnitude. -/
theorem mod_int_floored (hasEnv lhsMaybeNa rhsMaybeNa : Bool) (a b : Int)
    (ha : isInt32 a) (hb : isInt32 b) (hna : a ≠ NA_INTEGER) (hnb : b ≠ NA_INTEGER)
    (hb0 : b ≠ 0) :
    lowerBinop .Mod hasEnv .Integer lhsMaybeNa rhsMaybeNa (.int a) (.int b)
      = .native false (.value (some (.int (a - ⌊(a : ℚ) / (b : ℚ)⌋ * b)))) ∧
    (0 ≤ a ∧ 0 < b → srem a b = some (a - ⌊(a : ℚ) / (b : ℚ)⌋ * b)) ∧
    (myfmod (F64.ofInt a) (F64.ofInt b)).value.bind F64.fptosi
      = some (a - ⌊(a : ℚ) / (b : ℚ)⌋ * b) ∧
    (a - ⌊(a : ℚ) / (b : ℚ)⌋ * b = 0 ∨ (a - ⌊(a : ℚ) / (b : ℚ)⌋ * b < 0 ↔ b < 0)) ∧
    (a - ⌊(a : ℚ) / (b : ℚ)⌋ * b).natAbs < b.natAbs := by
  obtain ⟨hm, hfast, hslow⟩ := modInt_eq a b ha hb hb0 _ rfl
  obtain ⟨-, hlt, hs⟩ := myfmod_ofInt a b ha hb hb0 _ rfl
  refine ⟨?_, hfast, hslow, hs, hlt⟩
  have hc : (checkNa lhsMaybeNa (.int a) || checkNa rhsMaybeNa (.int b)) = false := by
    simp [checkNa, nacheck, hna, hnb]
  simp only [lowerBinop, compileBinop, Operand.load, Operand.rep, binopNative, hc,
    intInsertOf, hm, Emitted.map]
  simp [convert]

/-- Witness of C6: `-7 mod 2 = 1`, through the floating-point fallback. -/
theorem mod_int_floored_witness :
    lowerBinop .Mod false .Integer false false (.int (-7)) (.int 2)
      = .native false (.value (some (.int 1))) := by
  have h := (mod_int_floored false false false (-7) 2 (by decide) (by decide) (by decide)
    (by decide) (by decide)).1
  have hf : ⌊((-7 : Int) : ℚ) / ((2 : Int) : ℚ)⌋ = -4 := by
    rw [Int.floor_eq_iff]; norm_num
  rw [hf] at h
  exact h


/-! ## Relational instructions, bitwise builtins and coercions -/

theorem and32_zextBool (p q : Bool) :
    and32 (zextBool p) (zextBool q) = zextBool (p && q) := by
  cases p <;> cases q <;> decide

theorem or32_zextBool (p q : Bool) :
    or32 (zextBool p) (zextBool q) = zextBool (p || q) := by
  cases p <;> cases q <;> decide

theorem Bits.zext_i32 (v : Int) : (Bits.i32 v).zext = v := rfl

theorem Bits.zext_i1 (p : Bool) : (Bits.i1 p).zext = zextBool p := rfl

/-- Every tag but LOr yields the boolean of its relation on two `Integer`
operands that are not NA; LOr yields the bitwise or of the operands. -/
theorem relop_int_result (tag : RelopTag) (hasEnv : Bool) (a b : Int)
    (ha : a ≠ NA_INTEGER) (hb : b ≠ NA_INTEGER) :
    lowerRelop tag hasEnv .Integer (.int a) (.int b)
      = .native (.value (some (.int
          (if tag = .LOr then or32 a b else zextBool (tag.holds a b))))) := by
  have hna : nacheck (.int a) = true := by simp [nacheck, ha]
  have hnb : nacheck (.int b) = true := by simp [nacheck, hb]
  have hrel : relopNative (relIntInsertOf tag) (relFpInsertOf tag) (.int a) (.int b)
      = (relIntInsertOf tag a b).zext := by
    simp only [relopNative, hna, hnb, Bool.not_true, Bool.false_eq_true, if_false]
  have hlow : lowerRelop tag hasEnv .Integer (.int a) (.int b)
      = .native (.value (some (.int ((relIntInsertOf tag a b).zext)))) := by
    simp only [lowerRelop, compileRelop, Operand.load, hrel, convert]
  rw [hlow]
  cases tag
  case LAnd =>
    have e : relIntInsertOf .LAnd a b
        = .i32 (and32 (zextBool (decide (a ≠ 0))) (zextBool (decide (b ≠ 0)))) := rfl
    rw [e, Bits.zext_i32, and32_zextBool, if_neg (by decide)]
    simp only [RelopTag.holds, Bool.decide_and]
  case LOr =>
    have e : relIntInsertOf .LOr a b = .i32 (or32 a b) := rfl
    rw [e, Bits.zext_i32, if_pos rfl]
  all_goals
    rw [if_neg (by decide)]
    rfl

/-- C7 (code defect): LOr on the `Integer` operands 2 and 0, neither of them
NA, yields 2, the bitwise or of the operands, while `2 != 0 or 0 != 0` holds
and its boolean is 1. -/
theorem relop_lor_not_boolean :
    lowerRelop .LOr false .Integer (.int 2) (.int 0)
      = .native (.value (some (.int 2))) ∧
    zextBool (RelopTag.holds .LOr 2 0) = 1 := by
  decide

/-- `nacheck` on a `double` never leaves for `isNa`: `fcmp ueq v, v` holds for
every value, NaN included. -/
theorem nacheck_dbl (x : F64) : nacheck (.dbl x) = true := by
  cases x <;> simp [nacheck, F64.fcmpUEQ, F64.unordered, F64.isNaN, F64.eq]

/-- An `Integer` operand equal to `NA_INTEGER` makes the result of every
relational instruction `NA_INTEGER`. -/
theorem relop_int_na (tag : RelopTag) (a b : NVal)
    (h : a = .int NA_INTEGER ∨ b = .int NA_INTEGER) :
    relopNative (relIntInsertOf tag) (relFpInsertOf tag) a b = NA_INTEGER := by
  rcases h with h | h
  · subst h; simp [relopNative, nacheck]
  · subst h
    by_cases hn : nacheck a = true
    · simp [relopNative, nacheck, hn]
    · simp [relopNative, hn]

/-- C8 (code defect): Eq on the `Real` operands NaN and 1.0 yields 1, not
`NA_INTEGER`: the NaN test of `nacheck` holds for every `double`. -/
theorem relop_nan_not_na :
    lowerRelop .Eq false .Integer (.dbl .nan) (.dbl (.fin false 1))
      = .native (.value (some (.int 1))) ∧
    (∀ x : F64, nacheck (.dbl x) = true) :=
  ⟨by decide, nacheck_dbl⟩

/-- The inlined bitwise builtins on two `Integer` operands. -/
theorem bitwiseInline_int (x y : Int) :
    ((x = NA_INTEGER ∨ y = NA_INTEGER) → ∀ op,
      bitwiseInline op (.int x) (.int y) = some NA_INTEGER) ∧
    (x ≠ NA_INTEGER → y ≠ NA_INTEGER →
      bitwiseInline .shiftL (.int x) (.int y)
        = some (if y < 0 ∨ 31 < y then NA_INTEGER else wrap32 (x * 2 ^ y.toNat)) ∧
      bitwiseInline .shiftR (.int x) (.int y)
        = some (if y < 0 ∨ 31 < y then NA_INTEGER
            else wrap32 (toU32 x / 2 ^ y.toNat : Nat)) ∧
      bitwiseInline .and (.int x) (.int y) = some (and32 x y) ∧
      bitwiseInline .or (.int x) (.int y) = some (or32 x y) ∧
      bitwiseInline .xor (.int x) (.int y) = some (xor32 x y)) := by
  constructor
  · intro h op
    rcases h with h | h
    · simp [bitwiseInline, nacheck, h]
    · by_cases hx : x = NA_INTEGER <;> simp [bitwiseInline, nacheck, h, hx]
  · intro hx hy2
    have hnx : nacheck (.int x) = true := by simp [nacheck, hx]
    have hny : nacheck (.int y) = true := by simp [nacheck, hy2]
    have hshift : ∀ k : Int → Option Int,
        shiftGuard (some y) k
          = if y < 0 ∨ 31 < y then some NA_INTEGER else k y := by
      intro k
      unfold shiftGuard
      by_cases h1 : y < 0
      · simp [h1]
      · by_cases h2 : y > 31
        · have : 31 < y := h2
          simp [h1, this]
        · have : ¬ 31 < y := h2
          simp [h1, this]
    have hL : bitwiseInline .shiftL (.int x) (.int y)
        = shiftGuard (some y) (fun n => shl x n) := by
      simp only [bitwiseInline, hnx, hny, loadInt, Bool.not_true, Bool.false_eq_true,
        if_false, Option.some_bind]
    have hR : bitwiseInline .shiftR (.int x) (.int y)
        = shiftGuard (some y) (fun n => lshr x n) := by
      simp only [bitwiseInline, hnx, hny, loadInt, Bool.not_true, Bool.false_eq_true,
        if_false, Option.some_bind]
    have hu : ¬ (y < 0 ∨ 31 < y) → toU32 y = y.toNat := fun h =>
      toU32_of_nonneg y (by omega) (by omega)
    refine ⟨?_, ?_, ?_, ?_, ?_⟩
    · rw [hL, hshift]
      split_ifs with h
      · rfl
      · simp only [shl, hu h]
        rw [if_pos (by omega)]
    · rw [hR, hshift]
      split_ifs with h
      · rfl
      · simp only [lshr, hu h]
        rw [if_pos (by omega)]
    · simp only [bitwiseInline, hnx, hny, loadInt, Bool.not_true, Bool.false_eq_true,
        if_false, Option.some_bind, Option.map_some']
    · simp only [bitwiseInline, hnx, hny, loadInt, Bool.not_true, Bool.false_eq_true,
        if_false, Option.some_bind, Option.map_some']
    · simp only [bitwiseInline, hnx, hny, loadInt, Bool.not_true, Bool.false_eq_true,
        if_false, Option.some_bind, Option.map_some']

/-- C9 (code defect): `bitwiseAnd` on a `Real` operand NaN and the `Integer`
operand 1 has an undefined result, not `NA_INTEGER`: `nacheck` lets the NaN
pass and the `fptosi` of `load` is applied to it. The shifts behave alike. -/
theorem bitwise_nan_undefined :
    bitwiseInline .and (.dbl .nan) (.int 1) = none ∧
    bitwiseInline .shiftL (.dbl .nan) (.int 1) = none ∧
    bitwiseInline .shiftL (.int 1) (.dbl .nan) = none := by
  decide

theorem fcmpUNE_self_fin (s : Bool) (m : ℚ) : F64.fcmpUNE (.fin s m) (.fin s m) = false := by
  simp [F64.fcmpUNE, F64.unordered, F64.isNaN, F64.eq]

theorem fptosi_ofInt (i : Int) (hi : isInt32 i) : F64.fptosi (F64.ofInt i) = some i := by
  obtain ⟨h1, h2⟩ := hi
  rw [F64.ofInt_eq i (by norm_num; omega)]
  by_cases hna : i = -2147483648
  · subst hna
    have ht : (F64.fin (decide ((-2147483648 : Int) < 0)) (((-2147483648 : Int).natAbs : ℕ) : ℚ)).trunc
        = -2147483648 := by
      rw [F64.trunc_fin _ _ (by positivity)]
      simp
    simp only [F64.fptosi, ht]
    decide
  · rw [fptosi_fin _ _ (by positivity) i.natAbs (by simp) (by omega), sign_natAbs]

/-- `convert` keeps NA in both directions, and an `i32` that is not NA
survives the conversion to `double` and back, in `convert` and in `load`. -/
theorem coercion_roundtrip (i : Int) (hi : isInt32 i) (hna : i ≠ NA_INTEGER) :
    convert (.int NA_INTEGER) .Real = .value (some (.dbl NA_REAL)) ∧
    convert (.dbl F64.nan) .Integer = .value (some (.int NA_INTEGER)) ∧
    convert (.int i) .Real = .value (some (.dbl (F64.ofInt i))) ∧
    convert (.dbl (F64.ofInt i)) .Integer = .value (some (.int i)) ∧
    loadCoerce (.int i) .Real = .value (some (.dbl (F64.ofInt i))) ∧
    loadCoerce (.dbl (F64.ofInt i)) .Integer = .value (some (.int i)) := by
  have hof : F64.ofInt i = .fin (decide (i < 0)) (i.natAbs : ℚ) :=
    F64.ofInt_eq i (by obtain ⟨h1, h2⟩ := hi; norm_num; omega)
  refine ⟨by decide, by decide, ?_, ?_, ?_, ?_⟩
  · simp [convert, hna]
  · have h := fptosi_ofInt i hi
    rw [hof] at h ⊢
    simp [convert, fcmpUNE_self_fin, h]
  · simp [loadCoerce]
  · simp [loadCoerce, fptosi_ofInt i hi]

/-- C10 (code defect): the coercion step of `load` does not keep NA. The `i32`
`NA_INTEGER` becomes the `double` -2147483648.0, not NaN, and the result for a
NaN `double` is undefined, not `NA_INTEGER`; `convert` yields NaN and
`NA_INTEGER` on the same values. -/
theorem load_coercion_drops_na :
    loadCoerce (.int NA_INTEGER) .Real = .value (some (.dbl (.fin true 2147483648))) ∧
    loadCoerce (.dbl F64.nan) .Integer = .value none ∧
    convert (.int NA_INTEGER) .Real = .value (some (.dbl F64.nan)) ∧
    convert (.dbl F64.nan) .Integer = .value (some (.int NA_INTEGER)) := by
  refine ⟨?_, by decide, by decide, by decide⟩
  have h := F64.ofInt_eq NA_INTEGER (by decide)
  have e : F64.fin (decide (NA_INTEGER < 0)) ((NA_INTEGER.natAbs : ℕ) : ℚ)
      = F64.fin true 2147483648 := by
    have h1 : decide (NA_INTEGER < 0) = true := by decide
    have h2 : NA_INTEGER.natAbs = 2147483648 := by decide
    rw [h1, h2]; norm_num
  simp only [loadCoerce, h, e]

/-! ## The `sxpinfo` header word -/

theorem named_eq (w : Nat) : named w = w / 2 ^ 32 % 2 ^ 16 := by
  unfold named NAMED_BITS
  simp only [Nat.shiftRight_eq_div_pow, Nat.and_pow_two_sub_one_eq_mod]

theorem named_lt (w : Nat) : named w < 2 ^ 16 := by
  rw [named_eq]; exact Nat.mod_lt _ (by norm_num)

theorem testBit_named (w j : Nat) :
    (named w).testBit j = (decide (j < 16) && w.testBit (32 + j)) := by
  rw [named_eq, Nat.testBit_mod_two_pow, ← Nat.shiftRight_eq_div_pow, Nat.testBit_shiftRight]

theorem testBit_of_lt64 (w i : Nat) (hw : w < 2 ^ 64) (hi : 64 ≤ i) : w.testBit i = false :=
  Nat.testBit_lt_two_pow (lt_of_lt_of_le hw (Nat.pow_le_pow_right (by norm_num) hi))

theorem named_eq_of_bits (w c : Nat) (hc : c < 2 ^ 16)
    (h : ∀ j, j < 16 → w.testBit (32 + j) = c.testBit j) : named w = c := by
  apply Nat.eq_of_testBit_eq
  intro j
  rw [testBit_named]
  by_cases hj : j < 16
  · simp [hj, h j hj]
  · have : c.testBit j = false :=
      Nat.testBit_lt_two_pow (lt_of_lt_of_le hc (Nat.pow_le_pow_right (by norm_num) (by omega)))
    simp [hj, this]

theorem named_bits_zero (w : Nat) (h : named w = 0) (j : Nat) (hj : j < 16) :
    w.testBit (32 + j) = false := by
  have := testBit_named w j
  rw [h] at this
  simpa [hj] using this.symm

theorem and_namedMask (w : Nat) : w &&& ((2 ^ 16 - 1) <<< 32) = named w <<< 32 := by
  apply Nat.eq_of_testBit_eq
  intro i
  rw [Nat.testBit_and, Nat.testBit_shiftLeft, Nat.testBit_shiftLeft, Nat.testBit_two_pow_sub_one,
    testBit_named]
  by_cases hi : 32 ≤ i
  · have e : 32 + (i - 32) = i := by omega
    simp [hi, e, Bool.and_comm]
  · simp [hi]

theorem and_namedMask_eq_zero (w : Nat) : w &&& ((2 ^ 16 - 1) <<< 32) = 0 ↔ named w = 0 := by
  rw [and_namedMask, Nat.shiftLeft_eq]
  constructor
  · intro h
    rcases Nat.mul_eq_zero.mp h with h | h
    · exact h
    · exact absurd h (by norm_num)
  · intro h; rw [h]

theorem ensureNamed_of_named (w : Nat) (h : named w ≠ 0) : ensureNamed w = w := by
  unfold ensureNamed NAMED_BITS
  have : ¬ (w &&& ((2 ^ 16 - 1) <<< 32) = 0) := fun e => h ((and_namedMask_eq_zero w).mp e)
  simp only [this, decide_False, Bool.false_eq_true, if_false]

theorem ensureNamed_of_zero (w : Nat) (h : named w = 0) : ensureNamed w = w ||| 2 ^ 32 := by
  unfold ensureNamed NAMED_BITS
  have : w &&& ((2 ^ 16 - 1) <<< 32) = 0 := (and_namedMask_eq_zero w).mpr h
  simp only [this, decide_True, if_true, Nat.one_shiftLeft]

theorem testBit_ensureNamed (w i : Nat) (h : i ≠ 32) :
    (ensureNamed w).testBit i = w.testBit i := by
  by_cases h0 : named w = 0
  · rw [ensureNamed_of_zero w h0, Nat.testBit_or, Nat.testBit_two_pow]
    simp [Ne.symm h]
  · rw [ensureNamed_of_named w h0]

theorem named_ensureNamed (w : Nat) (h : named w = 0) : named (ensureNamed w) = 1 := by
  apply named_eq_of_bits _ _ (by norm_num)
  intro j hj
  rw [ensureNamed_of_zero w h, Nat.testBit_or, Nat.testBit_two_pow, named_bits_zero w h j hj]
  by_cases h0 : j = 0
  · subst h0; simp
  · have : Nat.testBit 1 j = false := by
      cases hb : Nat.testBit 1 j
      · rfl
      · exact absurd (Nat.testBit_one_eq_true_iff_self_eq_zero.mp hb) h0
    rw [this]
    simp; omega

theorem ensureShared_of_shared (w : Nat) (h : 2 ≤ named w) : ensureShared w = w := by
  unfold ensureShared
  simp [h]

theorem testBit_two (k : Nat) : Nat.testBit 2 k = decide (k = 1) := by
  have : (2 : Nat) = 2 ^ 1 := rfl
  rw [this, Nat.testBit_two_pow]
  by_cases h : k = 1 <;> simp [h, eq_comm]

theorem testBit_ensureShared (w i : Nat) (hw : w < 2 ^ 64) (h : named w < 2) :
    (ensureShared w).testBit i =
      if 32 ≤ i ∧ i < 48 then decide (i = 33) else w.testBit i := by
  unfold ensureShared not64 NAMED_BITS
  have hn : ¬ (2 ≤ named w) := by omega
  simp only [ge_iff_le, hn, decide_False, Bool.false_eq_true, if_false]
  rw [Nat.testBit_or, Nat.testBit_and, Nat.testBit_xor, Nat.testBit_shiftLeft,
    Nat.testBit_shiftLeft, Nat.testBit_two_pow_sub_one, Nat.testBit_two_pow_sub_one, testBit_two]
  by_cases h1 : 32 ≤ i
  · by_cases h2 : i < 48
    · have a : i < 64 := by omega
      have b : i - 32 < 16 := by omega
      simp [h1, h2, a, b]; omega
    · by_cases h3 : i < 64
      · have b : ¬ (i - 32 < 16) := by omega
        have c : ¬ (i - 32 = 1) := by omega
        simp [h1, h2, h3, b, c]
      · have b : ¬ (i - 32 < 16) := by omega
        have c : ¬ (i - 32 = 1) := by omega
        simp [h1, h2, h3, b, c, testBit_of_lt64 w i hw (by omega)]
  · have a : i < 64 := by omega
    simp [h1, a]

theorem named_ensureShared (w : Nat) (hw : w < 2 ^ 64) (h : named w < 2) :
    named (ensureShared w) = 2 := by
  apply named_eq_of_bits _ _ (by norm_num)
  intro j hj
  rw [testBit_ensureShared w _ hw h, testBit_two]
  have : 32 ≤ 32 + j ∧ 32 + j < 48 := by omega
  rw [if_pos this]
  by_cases h1 : j = 1
  · subst h1; simp
  · have : ¬ (32 + j = 33) := by omega
    simp [h1, this]

/-! ## Explicit logical conversions -/

theorem asTest_asLogical_int (v : Int) :
    lowerAsLogical (.int v) = .value (some v) ∧
    lowerAsTest (.int v) = (if v = NA_INTEGER then .error asTestMsg else .done (some v)) := by
  refine ⟨rfl, ?_⟩
  unfold lowerAsTest
  by_cases h : v = NA_INTEGER <;> simp [h]

/-- C11: `AsTest` and `AsLogical` on a `double` operand never reach their NA
case, because the test `fcmp ueq x, x` holds for every `x`: the value is the
`fptosi` of the operand. For NaN no error is raised by `AsTest` and the result
of `AsLogical` is not `NA_INTEGER` but undefined. -/
theorem asTest_asLogical_nan_not_na :
    (∀ x : F64, lowerAsTest (.dbl x) = .done (F64.fptosi x) ∧
      lowerAsLogical (.dbl x) = .value (F64.fptosi x)) ∧
    lowerAsTest (.dbl F64.nan) = .done none ∧
    lowerAsLogical (.dbl F64.nan) = .value none := by
  refine ⟨fun x => ⟨?_, ?_⟩, rfl, rfl⟩
  · have h : F64.fcmpUEQ x x = true := nacheck_dbl x
    unfold lowerAsTest
    simp only [h, if_true]
  · unfold lowerAsLogical
    simp only [nacheck_dbl x, if_true, loadInt]

/-! ## The write barrier -/

theorem and_bit_ne_zero (x i : Nat) : (x &&& 1 <<< i ≠ 0) ↔ x.testBit i = true := by
  rw [Nat.one_shiftLeft, Nat.and_two_pow]
  have hp : 0 < 2 ^ i := Nat.two_pow_pos i
  cases x.testBit i <;> simp [hp.ne']

theorem and_bit_gt (x y i : Nat) :
    (x &&& 1 <<< i > y &&& 1 <<< i) ↔ (x.testBit i = true ∧ y.testBit i = false) := by
  rw [Nat.one_shiftLeft, Nat.and_two_pow, Nat.and_two_pow]
  have hp : 0 < 2 ^ i := Nat.two_pow_pos i
  cases x.testBit i <;> cases y.testBit i <;> simp [hp]

/-- C12, counterexample: for `x` marked (bit 24 set) and `y` unmarked the
callback that runs is `yes`, the slow one, not the fast one. -/
theorem writeBarrier_marked_unmarked :
    writeBarrier (1 <<< 24) 0 = [BarrierCallback.yes] := by
  decide

/-- C12, amended: `writeBarrier` runs exactly one callback on every path: `yes`
(slow) when the mark bit of `x` is set and either the mark bit of `y` is clear
or the generation bit of `x` is set while that of `y` is clear; `no` (fast) in
every other case. -/
theorem writeBarrier_spec (x y : Nat) :
    writeBarrier x y =
      if x.testBit (TYPE_BITS + 19) = true ∧
          (y.testBit (TYPE_BITS + 19) = false ∨
            (x.testBit (TYPE_BITS + 23) = true ∧ y.testBit (TYPE_BITS + 23) = false))
      then [BarrierCallback.yes] else [BarrierCallback.no] := by
  unfold writeBarrier
  simp only [and_bit_ne_zero, and_bit_gt]
  cases x.testBit (TYPE_BITS + 19) <;> cases y.testBit (TYPE_BITS + 19) <;>
    cases x.testBit (TYPE_BITS + 23) <;> cases y.testBit (TYPE_BITS + 23) <;> simp

/-! ## Reference counts -/

/-- C13: `ensureNamed` changes the word only when NAMED is 0 and then makes it
1; `ensureShared` changes it only when NAMED is below 2 and then makes it 2;
the bits outside the NAMED field (bits 32 to 47) are kept, NAMED never
decreases, both operations are idempotent and the results are 64-bit words.
NAMED is the field of `NAMED_BITS` bits starting at bit 32. -/
theorem ensureNamed_ensureShared_spec (w : Nat) (hw : w < 2 ^ 64) :
    named w = w / 2 ^ 32 % 2 ^ NAMED_BITS ∧
    (named w ≠ 0 → ensureNamed w = w) ∧
    (named w = 0 → named (ensureNamed w) = 1) ∧
    (2 ≤ named w → ensureShared w = w) ∧
    (named w < 2 → named (ensureShared w) = 2) ∧
    (∀ i, i < 32 ∨ 32 + NAMED_BITS ≤ i →
      (ensureNamed w).testBit i = w.testBit i ∧
      (ensureShared w).testBit i = w.testBit i) ∧
    named w ≤ named (ensureNamed w) ∧ named w ≤ named (ensureShared w) ∧
    ensureNamed (ensureNamed w) = ensureNamed w ∧
    ensureShared (ensureShared w) = ensureShared w ∧
    ensureNamed w < 2 ^ 64 ∧ ensureShared w < 2 ^ 64 := by
  have hN : ∀ v, named v = 0 ∨ named v ≠ 0 := fun v => by omega
  have hS : ∀ v, named v < 2 ∨ 2 ≤ named v := fun v => by omega
  refine ⟨named_eq w, ensureNamed_of_named w, named_ensureNamed w, ensureShared_of_shared w,
    named_ensureShared w hw, ?_, ?_, ?_, ?_, ?_, ?_, ?_⟩
  · intro i hi
    have hi2 : i < 32 ∨ 48 ≤ i := hi
    refine ⟨testBit_ensureNamed w i (by omega), ?_⟩
    rcases hS w with h | h
    · rw [testBit_ensureShared w i hw h, if_neg (by omega)]
    · rw [ensureShared_of_shared w h]
  · rcases hN w with h | h
    · rw [named_ensureNamed w h, h]; omega
    · rw [ensureNamed_of_named w h]
  · rcases hS w with h | h
    · rw [named_ensureShared w hw h]; omega
    · rw [ensureShared_of_shared w h]
  · rcases hN w with h | h
    · exact ensureNamed_of_named _ (by rw [named_ensureNamed w h]; omega)
    · rw [ensureNamed_of_named w h, ensureNamed_of_named w h]
  · rcases hS w with h | h
    · exact ensureShared_of_shared _ (by rw [named_ensureShared w hw h])
    · rw [ensureShared_of_shared w h, ensureShared_of_shared w h]
  · rcases hN w with h | h
    · rw [ensureNamed_of_zero w h]
      exact Nat.or_lt_two_pow hw (by norm_num)
    · rw [ensureNamed_of_named w h]; exact hw
  · rcases hS w with h | h
    · have hn : ¬ (2 ≤ named w) := by omega
      unfold ensureShared
      simp only [ge_iff_le, hn, decide_False, Bool.false_eq_true, if_false]
      exact Nat.or_lt_two_pow (lt_of_le_of_lt Nat.and_le_left hw) (by decide)
    · rw [ensureShared_of_shared w h]; exact hw

theorem ensureNamed_ensureShared_spec_witness :
    (1 <<< 24) < 2 ^ 64 ∧ named (1 <<< 24) = 0 ∧ named (ensureNamed (1 <<< 24)) = 1 ∧
    named (ensureShared (1 <<< 24)) = 2 :=
  have h := ensureNamed_ensureShared_spec (1 <<< 24) (by decide)
  ⟨by decide, by decide, h.2.2.1 (by decide), h.2.2.2.2.1 (by decide)⟩

/-- C14: at the creation site the annotation `EnsureNamed` is lowered to
`ensureShared`, as `SetShared` is: a value with NAMED 1 (or 0) annotated
`EnsureNamed` ends with NAMED 2, whereas the same annotation before a use
leaves NAMED 1 at 1. -/
theorem atCreation_ensureNamed_sets_shared :
    (∀ w, ensureNamedIfNeeded .Sexp true true (some .EnsureNamed) w = ensureShared w) ∧
    (∀ w, adjustBeforeUse .Sexp (some .EnsureNamed) w = ensureNamed w) ∧
    named (1 <<< 32) = 1 ∧
    named (ensureNamedIfNeeded .Sexp true true (some .EnsureNamed) (1 <<< 32)) = 2 ∧
    named (adjustBeforeUse .Sexp (some .EnsureNamed) (1 <<< 32)) = 1 ∧
    named (ensureNamedIfNeeded .Sexp true true (some .EnsureNamed) 0) = 2 := by
  refine ⟨fun w => rfl, fun w => rfl, ?_, ?_, ?_, ?_⟩ <;> decide

/-! ## In-place vector assignment -/

theorem shared_iff (w : Nat) : shared w = true ↔ 1 < w / 2 ^ 32 % 2 ^ NAMED_BITS := by
  unfold shared
  rw [named_eq]
  simp [NAMED_BITS]

theorem subassignGuards_shared (tag : SubassignTag) (maybeHasAttrs : Bool) (w : Nat)
    (altrep ok : Bool) (length : Nat) (h : shared w = true) :
    subassignGuards tag maybeHasAttrs (.boxed w altrep ok length) = false := by
  cases tag <;> cases altrep <;> cases maybeHasAttrs <;> cases ok <;>
    simp [subassignGuards, h]

theorem lowerSubassign_shared (tag : SubassignTag) (fastcase maybeHasAttrs : Bool) (w : Nat)
    (altrep ok : Bool) (length : Nat) (idx1 idx2 : NVal) (ncols nrows : Int)
    (rep : Representation) (h : shared w = true) :
    lowerSubassign tag fastcase maybeHasAttrs (.boxed w altrep ok length) idx1 idx2 ncols nrows
      rep = some .fallback := by
  unfold lowerSubassign
  rw [subassignGuards_shared tag maybeHasAttrs w altrep ok length h]
  cases fastcase <;> rfl

theorem lowerSubassign_stored (tag : SubassignTag) (fastcase maybeHasAttrs : Bool)
    (vector : SubassignVec) (idx1 idx2 : NVal) (ncols nrows : Int)
    (rep : Representation) (n : Nat)
    (h : lowerSubassign tag fastcase maybeHasAttrs vector idx1 idx2 ncols nrows rep =
      some (.stored n)) :
    if tag = .Subassign2_2D then index2D ncols nrows idx1 idx2 vector.src = some (.hit n)
    else computeAndCheckIndex idx1 vector.src none = some (.hit n) := by
  unfold lowerSubassign at h
  cases fastcase
  · simp at h
  cases hg : subassignGuards tag maybeHasAttrs vector
  · simp [hg] at h
  rw [hg] at h
  simp only [Bool.not_true, Bool.false_eq_true, if_false] at h
  cases tag
  · simp only [reduceCtorEq, if_false]
    revert h
    generalize computeAndCheckIndex idx1 vector.src none = c1
    intro h
    rcases c1 with _ | _ | i
    · simp at h
    · simp at h
    · by_cases hr : rep = .Sexp
      · simp [hr] at h; rw [h]
      · simp [hr] at h
  · simp only [reduceCtorEq, if_false]
    revert h
    generalize computeAndCheckIndex idx1 vector.src none = c1
    intro h
    rcases c1 with _ | _ | i
    · simp at h
    · simp at h
    · by_cases hr : rep = .Sexp
      · simp [hr] at h; rw [h]
      · simp [hr] at h
  · simp only [if_true]
    dsimp only [index2D]
    revert h
    generalize computeAndCheckIndex idx1 vector.src (some (toU32 nrows)) = c1
    generalize computeAndCheckIndex idx2 vector.src (some (toU32 ncols)) = c2
    intro h
    rcases c1 with _ | _ | i
    · simp at h
    · simp at h
    · rcases c2 with _ | _ | j
      · simp at h
      · simp at h
      · by_cases hr : rep = .Sexp
        · simp only [hr, if_true] at h
          simp only
          revert h
          generalize (mulNUWNSW64 (toU32 nrows) j).bind (fun i_1 => addNUWNSW64 i_1 i) = m
          intro h
          cases m with
          | none => simp at h
          | some v => simp at h; simp [h]
        · simp [hr] at h

/-- C15: with a Boxed vector the fast paths of `Subassign1_1D`, `Subassign2_1D`
and `Subassign2_2D` store in place only when the vector is not shared (NAMED at
most 1) and the index check returned the index stored at; a shared vector
(NAMED above 1) always leads to the runtime call. `shared` holds exactly when
NAMED is above 1. -/
theorem subassign_store_only_unshared (tag : SubassignTag) (fastcase maybeHasAttrs : Bool)
    (w : Nat) (altrep ok : Bool) (length : Nat) (idx1 idx2 : NVal) (ncols nrows : Int)
    (rep : Representation) :
    (shared w = true ↔ 1 < w / 2 ^ 32 % 2 ^ NAMED_BITS) ∧
    (shared w = true →
      lowerSubassign tag fastcase maybeHasAttrs (.boxed w altrep ok length) idx1 idx2 ncols
        nrows rep = some .fallback) ∧
    (∀ n, lowerSubassign tag fastcase maybeHasAttrs (.boxed w altrep ok length) idx1 idx2
        ncols nrows rep = some (.stored n) →
      shared w = false ∧ w / 2 ^ 32 % 2 ^ NAMED_BITS ≤ 1 ∧
      (if tag = .Subassign2_2D then
        index2D ncols nrows idx1 idx2 (.sexp length) = some (.hit n)
      else computeAndCheckIndex idx1 (.sexp length) none = some (.hit n))) := by
  refine ⟨shared_iff w, lowerSubassign_shared tag fastcase maybeHasAttrs w altrep ok length
    idx1 idx2 ncols nrows rep, ?_⟩
  intro n h
  have hs : shared w = false := by
    cases hs : shared w
    · rfl
    · rw [lowerSubassign_shared tag fastcase maybeHasAttrs w altrep ok length idx1 idx2 ncols
        nrows rep hs] at h
      simp at h
  refine ⟨hs, ?_, lowerSubassign_stored _ _ _ _ _ _ _ _ _ n h⟩
  have := shared_iff w
  rw [hs] at this
  simp at this
  exact this

theorem subassign_store_only_unshared_witness :
    lowerSubassign .Subassign1_1D true false (.boxed (1 <<< 32) false true 3) (.int 2)
      (.int 0) 0 0 .Sexp = some (.stored 1) ∧
    shared (1 <<< 32) = false ∧ (1 <<< 32) / 2 ^ 32 % 2 ^ NAMED_BITS ≤ 1 :=
  have h : lowerSubassign .Subassign1_1D true false (.boxed (1 <<< 32) false true 3) (.int 2)
      (.int 0) 0 0 .Sexp = some (.stored 1) := by decide
  have t := (subassign_store_only_unshared .Subassign1_1D true false (1 <<< 32) false true 3
    (.int 2) (.int 0) 0 0 .Sexp).2.2 1 h
  ⟨h, t.1, t.2.1⟩


/-! ## Variable loads -/

theorem ldvar_checked_paths (env : LdVarEnv) (forUpdate : Bool) (r : LdVarRun)
    (henv : env = .cached ∨ env = .direct) :
    let res : SEXP × Nat :=
      if env = .cached then ldVarCached forUpdate r
      else
        ((if forUpdate then r.ldvarForUpdateResult else r.ldvarResult),
          r.sxpinfo (if forUpdate then r.ldvarForUpdateResult else r.ldvarResult))
    lowerLdVar true env forUpdate r =
      (if res.1 = .R_MissingArg then .error "argument is missing, with no default"
      else if res.1 = .R_UnboundValue then .error "object not found"
      else .bound res.1 res.2) ∧
    lowerLdVar false env forUpdate r = .bound res.1 res.2 := by
  rcases henv with h | h <;> subst h
  · simp only [if_true]
    unfold lowerLdVar checkMissing checkUnbound
    generalize ldVarCached forUpdate r = p
    constructor
    · by_cases h1 : p.1 = .R_MissingArg
      · simp [h1]
      · by_cases h2 : p.1 = .R_UnboundValue
        · simp [h1, h2]
        · simp [h1, h2]
    · simp
  · simp only [reduceCtorEq, if_false]
    unfold lowerLdVar checkMissing checkUnbound
    generalize (if forUpdate = true then r.ldvarForUpdateResult else r.ldvarResult) = v
    constructor
    · by_cases h1 : v = .R_MissingArg
      · simp [h1]
      · by_cases h2 : v = .R_UnboundValue
        · simp [h1, h2]
        · simp [h1, h2]
    · simp

theorem lddots_unchecked (env : LdVarEnv) (forUpdate : Bool) (r : LdVarRun) (msg : String) :
    lowerLdVar false env forUpdate r ≠ .error msg := by
  cases env <;> simp [lowerLdVar]

/-- C16: the stub-environment path of `LdVar` binds the loaded value without
`checkMissing` and `checkUnbound`: it never raises an error, so `R_MissingArg`
read from the stub slot, or `R_UnboundValue` returned by the lookup in the
parent, is given to `setVal`, whereas the runtime-lookup path raises the error
for the same values. -/
theorem ldvar_stub_unchecked :
    (∀ (b forUpdate : Bool) (r : LdVarRun) (msg : String),
      lowerLdVar true (.stub b) forUpdate r ≠ .error msg) ∧
    lowerLdVar true (.stub false) false
      { stubSlot := .R_MissingArg, parentLookup := .obj 0, cache := 0, cellValue := .obj 0,
        cacheMissResult := .obj 0, ldvarResult := .R_MissingArg,
        ldvarForUpdateResult := .obj 0, sxpinfo := fun _ => 0 } = .bound .R_MissingArg 0 ∧
    lowerLdVar true (.stub true) false
      { stubSlot := .R_UnboundValue, parentLookup := .R_UnboundValue, cache := 0,
        cellValue := .obj 0, cacheMissResult := .obj 0, ldvarResult := .R_UnboundValue,
        ldvarForUpdateResult := .obj 0, sxpinfo := fun _ => 0 } = .bound .R_UnboundValue 0 ∧
    lowerLdVar true .direct false
      { stubSlot := .R_MissingArg, parentLookup := .obj 0, cache := 0, cellValue := .obj 0,
        cacheMissResult := .obj 0, ldvarResult := .R_MissingArg,
        ldvarForUpdateResult := .obj 0, sxpinfo := fun _ => 0 } =
      .error "argument is missing, with no default" ∧
    lowerLdVar true .direct false
      { stubSlot := .R_UnboundValue, parentLookup := .R_UnboundValue, cache := 0,
        cellValue := .obj 0, cacheMissResult := .obj 0, ldvarResult := .R_UnboundValue,
        ldvarForUpdateResult := .obj 0, sxpinfo := fun _ => 0 } =
      .error "object not found" := by
  refine ⟨?_, ?_, ?_, ?_, ?_⟩
  · intro b forUpdate r msg
    simp [lowerLdVar]
  all_goals decide

/-- C17, counterexample: a cached `LdVar` of `needsLdVarForUpdate` that hits the
cache on a value with NAMED 1 binds it with NAMED still 1: the hit path does
not make the value shared. -/
theorem ldvar_cached_hit_not_shared :
    ldVarCached true
      { stubSlot := .obj 0, parentLookup := .obj 0, cache := 2, cellValue := .obj 7,
        cacheMissResult := .obj 0, ldvarResult := .obj 0, ldvarForUpdateResult := .obj 0,
        sxpinfo := fun _ => 1 <<< 32 } = (.obj 7, 1 <<< 32) ∧
    named (1 <<< 32) = 1 := by
  decide

theorem one_le_named_ensureNamed (w : Nat) : 1 ≤ named (ensureNamed w) := by
  by_cases h : named w = 0
  · rw [named_ensureNamed w h]
  · rw [ensureNamed_of_named w h]; omega

theorem two_le_named_ensureShared (w : Nat) (hw : w < 2 ^ 64) : 2 ≤ named (ensureShared w) := by
  by_cases h : named w < 2
  · rw [named_ensureShared w hw h]
  · rw [ensureShared_of_shared w (by omega)]; omega

/-- C17, amended: on the cache-hit path (the slot holds a binding cell whose value
is not `R_UnboundValue`) a cached `LdVar` or `LdDots`, in
`needsLdVarForUpdate` or not, binds the value of the cell after `ensureNamed`:
NAMED is at least 1, and a value with NAMED 1 or more is left as it is. On the
cache-miss path the result of `ldvarCacheMiss` is made shared (NAMED at least
2) when the instruction is in `needsLdVarForUpdate`, and is bound with its
header untouched otherwise. -/
theorem ldvar_cached_named (forUpdate : Bool) (r : LdVarRun)
    (hw : r.sxpinfo r.cacheMissResult < 2 ^ 64) :
    ((1 < r.cache ∧ r.cellValue ≠ .R_UnboundValue) →
      ldVarCached forUpdate r = (r.cellValue, ensureNamed (r.sxpinfo r.cellValue)) ∧
      1 ≤ named (ensureNamed (r.sxpinfo r.cellValue)) ∧
      (named (r.sxpinfo r.cellValue) ≠ 0 →
        ensureNamed (r.sxpinfo r.cellValue) = r.sxpinfo r.cellValue)) ∧
    (¬ (1 < r.cache ∧ r.cellValue ≠ .R_UnboundValue) →
      ldVarCached forUpdate r =
        (r.cacheMissResult,
          if forUpdate then ensureShared (r.sxpinfo r.cacheMissResult)
          else r.sxpinfo r.cacheMissResult) ∧
      2 ≤ named (ensureShared (r.sxpinfo r.cacheMissResult))) := by
  constructor
  · rintro ⟨h1, h2⟩
    refine ⟨?_, one_le_named_ensureNamed _, ensureNamed_of_named _⟩
    unfold ldVarCached
    simp only [if_neg (show ¬ r.cache ≤ 1 by omega), if_neg h2]
  · intro h
    refine ⟨?_, two_le_named_ensureShared _ hw⟩
    unfold ldVarCached
    by_cases h1 : r.cache ≤ 1
    · simp only [if_pos h1]
    · have h2 : r.cellValue = .R_UnboundValue := by
        by_contra h2
        exact h ⟨by omega, h2⟩
      simp only [if_neg h1, if_pos h2]

theorem ldvar_cached_named_witness :
    (0 : Nat) < 2 ^ 64 ∧
    ldVarCached true
      { stubSlot := .obj 0, parentLookup := .obj 0, cache := 0, cellValue := .obj 7,
        cacheMissResult := .obj 3, ldvarResult := .obj 0, ldvarForUpdateResult := .obj 0,
        sxpinfo := fun _ => 0 } = (.obj 3, ensureShared 0) ∧
    2 ≤ named (ensureShared 0) :=
  ⟨by decide,
    (ldvar_cached_named true
      { stubSlot := .obj 0, parentLookup := .obj 0, cache := 0, cellValue := .obj 7,
        cacheMissResult := .obj 3, ldvarResult := .obj 0, ldvarForUpdateResult := .obj 0,
        sxpinfo := fun _ => 0 } (by decide)).2 (by decide)⟩

/-! ## The binding cache -/

theorem slotIndex_lt_length (k : Nat × Nat) (l : List (Nat × Nat)) (h : k ∈ l) :
    slotIndex k l < l.length := by
  induction l with
  | nil => simp at h
  | cons x xs ih =>
    unfold slotIndex
    by_cases hx : x = k
    · simp [hx]
    · rcases List.mem_cons.mp h with h | h
      · exact absurd h.symm hx
      · simp [hx, ih h]

theorem slotIndex_inj (k1 k2 : Nat × Nat) (l : List (Nat × Nat)) (h1 : k1 ∈ l)
    (h : slotIndex k1 l = slotIndex k2 l) : k1 = k2 := by
  induction l with
  | nil => simp at h1
  | cons x xs ih =>
    unfold slotIndex at h
    by_cases hx1 : x = k1
    · by_cases hx2 : x = k2
      · rw [← hx1, ← hx2]
      · rw [if_pos hx1, if_neg hx2] at h
        omega
    · by_cases hx2 : x = k2
      · rw [if_neg hx1, if_pos hx2] at h
        omega
      · rcases List.mem_cons.mp h1 with h0 | h0
        · exact absurd h0.symm hx1
        · simp only [hx1, hx2, if_false, Nat.add_right_cancel_iff] at h
          exact ih h0 h

theorem slotIndex_getElem (l : List (Nat × Nat)) (hn : l.Nodup) (s : Nat) (h : s < l.length) :
    slotIndex l[s] l = s := by
  induction l generalizing s with
  | nil => simp at h
  | cons x xs ih =>
    unfold slotIndex
    cases s with
    | zero => simp
    | succ t =>
      have hn2 := List.nodup_cons.mp hn
      have ht : t < xs.length := by simpa using h
      have hne : ¬ (x = xs[t]) := fun e => hn2.1 (e ▸ List.getElem_mem _)
      simp only [List.getElem_cons_succ, hne, if_false, ih hn2.2 t ht]

theorem offsetOf_eq_some (code : List CacheInstr) (env varName s : Nat) :
    offsetOf code env varName = some s ↔
      (env, varName) ∈ bindings code ∧ slotIndex (env, varName) (bindings code) = s := by
  unfold offsetOf
  by_cases h : (env, varName) ∈ bindings code
  · simp [h]
  · simp [h]

theorem mem_bindings_of_access (code : List CacheInstr) (i : CacheInstr) (hi : i ∈ code)
    (env varName : Nat) (isLoad : Bool) (h : cacheAccess i = some (env, varName, isLoad)) :
    (env, varName) ∈ bindings code := by
  unfold bindings
  rw [List.mem_dedup, List.mem_filterMap]
  exact ⟨i, hi, by rw [h]; rfl⟩

theorem mem_mkEnvStores (code : List CacheInstr) (id s : Nat) :
    s ∈ mkEnvStores code id false ↔ ∃ varName, offsetOf code id varName = some s := by
  unfold mkEnvStores
  simp only [Bool.false_eq_true, if_false, List.mem_map, List.mem_filter, decide_eq_true_eq]
  constructor
  · rintro ⟨⟨e, n⟩, ⟨hk, he⟩, hs⟩
    simp only at he
    subst he
    exact ⟨n, (offsetOf_eq_some code e n s).mpr ⟨hk, hs⟩⟩
  · rintro ⟨n, hn⟩
    obtain ⟨hk, hs⟩ := (offsetOf_eq_some code id n s).mp hn
    exact ⟨(id, n), ⟨hk, rfl⟩, hs⟩

theorem offsetOf_inj (code : List CacheInstr) (e1 n1 e2 n2 s : Nat)
    (h1 : offsetOf code e1 n1 = some s) (h2 : offsetOf code e2 n2 = some s) :
    e1 = e2 ∧ n1 = n2 := by
  obtain ⟨m1, i1⟩ := (offsetOf_eq_some code e1 n1 s).mp h1
  obtain ⟨m2, i2⟩ := (offsetOf_eq_some code e2 n2 s).mp h2
  have := slotIndex_inj _ _ _ m1 (i1.trans i2.symm)
  exact ⟨congrArg Prod.fst this, congrArg Prod.snd this⟩

theorem mem_restartStores (code : List CacheInstr) (s : Nat) :
    s ∈ restartStores code ↔ s < (bindings code).length := by
  unfold restartStores
  rw [List.mem_map]
  constructor
  · rintro ⟨k, hk, rfl⟩
    exact slotIndex_lt_length _ _ hk
  · intro h
    refine ⟨(bindings code)[s], List.getElem_mem _, ?_⟩
    exact slotIndex_getElem _ (List.nodup_dedup _) s h

theorem storeNull_written (mem : CacheMem) (slots : List Nat) (s : Nat) (h : mem s ≠ none) :
    mem.storeNull slots s ≠ none := by
  unfold CacheMem.storeNull
  by_cases hs : s ∈ slots <;> simp [hs, h]

theorem store_written (mem : CacheMem) (slot v s : Nat) (h : mem s ≠ none) :
    mem.store slot v s ≠ none := by
  unfold CacheMem.store
  by_cases hs : s = slot <;> simp [hs, h]

theorem execCache_ok (code : List CacheInstr) (created : List Nat) (mem : CacheMem)
    (i : CacheInstr) (u : Bool) (f : Option Nat) (hi : i ∈ code)
    (hw : cacheWritten code created mem)
    (hd : accessDominated created i = true) :
    ∃ mem2, execCache code mem (.exec i u f) = .ok mem2 ∧
      cacheWritten code (createdAfter created i) mem2 := by
  have access : ∀ env varName isLoad, cacheAccess i = some (env, varName, isLoad) →
      (∀ id stub, i ≠ .MkEnv id stub) →
      ∃ mem2, execCache code mem (.exec i u f) = .ok mem2 ∧ cacheWritten code created mem2 := by
    intro env varName isLoad ha hne
    have hmem := mem_bindings_of_access code i hi env varName isLoad ha
    have hoff : offsetOf code env varName = some (slotIndex (env, varName) (bindings code)) :=
      (offsetOf_eq_some _ _ _ _).mpr ⟨hmem, rfl⟩
    have hc : hasCache code env = true := by
      unfold hasCache
      rw [List.any_eq_true]
      exact ⟨(env, varName), hmem, by simp⟩
    unfold accessDominated at hd
    rw [ha] at hd
    have hcr : env ∈ created := by simpa using hd
    have hs := hw env hcr varName _ hoff
    obtain ⟨c, hcv⟩ := Option.ne_none_iff_exists'.mp hs
    have e : execCache code mem (.exec i u f) =
        (if (isLoad && (decide (c ≤ 1) || u)) = true then
          match f with
          | some v => .ok (mem.store (slotIndex (env, varName) (bindings code)) v)
          | none => .ok mem
        else .ok mem) := by
      cases i with
      | MkEnv id stub => exact absurd rfl (hne id stub)
      | _ => simp only [execCache, ha, hc, hoff, hcv, if_true]
    rw [e]
    by_cases hb : (isLoad && (decide (c ≤ 1) || u)) = true
    · rw [if_pos hb]
      cases f with
      | none => exact ⟨mem, rfl, hw⟩
      | some v =>
        exact ⟨_, rfl, fun env2 h2 n2 s2 ho => store_written _ _ _ _ (hw env2 h2 n2 s2 ho)⟩
    · rw [if_neg hb]
      exact ⟨mem, rfl, hw⟩
  have noAccess : cacheAccess i = none → (∀ id stub, i ≠ .MkEnv id stub) →
      execCache code mem (.exec i u f) = .ok mem := by
    intro ha hne
    cases i with
    | MkEnv id stub => exact absurd rfl (hne id stub)
    | _ => simp only [execCache, ha]
  cases i with
  | MkEnv id stub =>
    refine ⟨_, rfl, ?_⟩
    cases stub with
    | true =>
      exact fun env2 h2 n2 s2 ho => storeNull_written _ _ _ (hw env2 h2 n2 s2 ho)
    | false =>
      intro env2 h2 n2 s2 ho
      rcases List.mem_cons.mp h2 with h | h
      · subst h
        have : s2 ∈ mkEnvStores code env2 false := (mem_mkEnvStores code env2 s2).mpr ⟨n2, ho⟩
        simp [CacheMem.storeNull, this]
      · exact storeNull_written _ _ _ (hw env2 h n2 s2 ho)
  | other => exact ⟨mem, noAccess rfl (by simp), hw⟩
  | LdVar env varName =>
    cases hc : cacheAccess (.LdVar env varName) with
    | none => exact ⟨mem, noAccess hc (by simp), hw⟩
    | some a => obtain ⟨e, n, l⟩ := a; exact access e n l hc (by simp)
  | LdDots env =>
    cases hc : cacheAccess (.LdDots env) with
    | none => exact ⟨mem, noAccess hc (by simp), hw⟩
    | some a => obtain ⟨e, n, l⟩ := a; exact access e n l hc (by simp)
  | StVar env varName =>
    cases hc : cacheAccess (.StVar env varName) with
    | none => exact ⟨mem, noAccess hc (by simp), hw⟩
    | some a => obtain ⟨e, n, l⟩ := a; exact access e n l hc (by simp)

theorem execCache_restart (code : List CacheInstr) (created : List Nat) (mem : CacheMem)
    (hw : cacheWritten code created mem) :
    cacheWritten code created (mem.storeNull (restartStores code)) :=
  fun env2 h2 n2 s2 ho => storeNull_written _ _ _ (hw env2 h2 n2 s2 ho)

theorem runCache_ok (code : List CacheInstr) (trace : List CacheEvent) :
    ∀ (created : List Nat) (mem : CacheMem), cacheWritten code created mem →
      traceOf code trace = true → envDominates created trace = true →
      ∃ mem2, runCache code mem trace = .ok mem2 := by
  induction trace with
  | nil => intro created mem _ _ _; exact ⟨mem, rfl⟩
  | cons e rest ih =>
    intro created mem hw ht hd
    unfold traceOf at ht
    rw [List.all_cons, Bool.and_eq_true] at ht
    cases e with
    | restart =>
      have hd2 : envDominates created rest = true := hd
      exact ih created _ (execCache_restart code created mem hw) ht.2 hd2
    | exec i u f =>
      have hi : i ∈ code := by simpa using ht.1
      have hd2 : (accessDominated created i &&
          envDominates (createdAfter created i) rest) = true := hd
      rw [Bool.and_eq_true] at hd2
      obtain ⟨mem2, h1, h2⟩ := execCache_ok code created mem i u f hi hw hd2.1
      obtain ⟨mem3, h3⟩ := ih _ mem2 h2 ht.2 hd2.2
      refine ⟨mem3, ?_⟩
      unfold runCache
      rw [h1]
      exact h3

/-- C18: the lowering of a non-stub `MkEnv` stores the null pointer into the
slots of its own bindings and into no slot of another environment; the restart
branch stores it into every slot of the cache; and an execution in which every
load or store on a `MkEnv` runs after that `MkEnv` never loads a cache slot that
was not written before, starting from a cache that was never written. In terms
of the memory: after the code of a non-stub `MkEnv` each of its slots holds the
null pointer and every other slot holds what it held before; the code of a stub
`MkEnv` leaves the cache as it is; after the restart branch every slot of the
cache holds the null pointer; a load or store through the cache that finds its
slot never written is the fault `uninitializedRead`, and a load that finds the
null pointer takes the miss branch, whose only write is the one of
`ldvarCacheMiss`. -/
theorem bindingsCache_reset_before_use (code : List CacheInstr) :
    (∀ id s, s ∈ mkEnvStores code id false ↔ ∃ varName, offsetOf code id varName = some s) ∧
    (∀ id s env varName, s ∈ mkEnvStores code id false →
      offsetOf code env varName = some s → env = id) ∧
    (∀ s, s ∈ restartStores code ↔ s < (bindings code).length) ∧
    (∀ env varName s, offsetOf code env varName = some s → s < (bindings code).length) ∧
    (∀ trace, traceOf code trace = true → envDominates [] trace = true →
      ∃ mem, runCache code (fun _ => none) trace = .ok mem) ∧
    (∀ (mem : CacheMem) id u f, ∃ mem2,
      execCache code mem (.exec (.MkEnv id false) u f) = .ok mem2 ∧
      (∀ varName s, offsetOf code id varName = some s → mem2 s = some 0) ∧
      (∀ s, (∀ varName, offsetOf code id varName ≠ some s) → mem2 s = mem s)) ∧
    (∀ (mem : CacheMem) id u f, ∃ mem2,
      execCache code mem (.exec (.MkEnv id true) u f) = .ok mem2 ∧ ∀ s, mem2 s = mem s) ∧
    (∀ (mem : CacheMem), ∃ mem2, execCache code mem .restart = .ok mem2 ∧
      (∀ s, s < (bindings code).length → mem2 s = some 0) ∧
      (∀ s, (bindings code).length ≤ s → mem2 s = mem s)) ∧
    (∀ (mem : CacheMem) i u f env varName isLoad s,
      cacheAccess i = some (env, varName, isLoad) → offsetOf code env varName = some s →
      mem s = none → execCache code mem (.exec i u f) = .error (.uninitializedRead s)) ∧
    (∀ (mem : CacheMem) i u f env varName s,
      cacheAccess i = some (env, varName, true) → offsetOf code env varName = some s →
      mem s = some 0 →
      execCache code mem (.exec i u f) =
        .ok (match f with
          | some v => mem.store s v
          | none => mem)) := by
  have hcache : ∀ env varName s, offsetOf code env varName = some s →
      hasCache code env = true := by
    intro env varName s ho
    obtain ⟨hk, -⟩ := (offsetOf_eq_some code env varName s).mp ho
    unfold hasCache
    rw [List.any_eq_true]
    exact ⟨(env, varName), hk, by simp⟩
  have hexec : ∀ (mem : CacheMem) i u f env varName isLoad s,
      cacheAccess i = some (env, varName, isLoad) → offsetOf code env varName = some s →
      execCache code mem (.exec i u f) =
        match mem s with
        | none => .error (.uninitializedRead s)
        | some cache =>
          if (isLoad && (decide (cache ≤ 1) || u)) = true then
            match f with
            | some v => .ok (mem.store s v)
            | none => .ok mem
          else .ok mem := by
    intro mem i u f env varName isLoad s ha ho
    have hc := hcache env varName s ho
    cases i with
    | MkEnv id stub => simp [cacheAccess] at ha
    | _ => simp only [execCache, ha, hc, ho, if_true]
  refine ⟨mem_mkEnvStores code, ?_, mem_restartStores code, ?_, ?_, ?_, ?_, ?_, ?_, ?_⟩
  · intro id s env varName hs ho
    obtain ⟨n, hn⟩ := (mem_mkEnvStores code id s).mp hs
    exact (offsetOf_inj code env varName id n s ho hn).1
  · intro env varName s ho
    obtain ⟨hk, hs⟩ := (offsetOf_eq_some code env varName s).mp ho
    rw [← hs]
    exact slotIndex_lt_length _ _ hk
  · intro trace ht hd
    exact runCache_ok code trace [] _ (fun env h => absurd h (List.not_mem_nil env)) ht hd
  · intro mem id u f
    refine ⟨mem.storeNull (mkEnvStores code id false), rfl, ?_, ?_⟩
    · intro varName s ho
      have hs : s ∈ mkEnvStores code id false := (mem_mkEnvStores code id s).mpr ⟨varName, ho⟩
      unfold CacheMem.storeNull
      rw [if_pos hs]
    · intro s hn
      have hs : s ∉ mkEnvStores code id false := by
        intro h
        obtain ⟨n, ho⟩ := (mem_mkEnvStores code id s).mp h
        exact hn n ho
      unfold CacheMem.storeNull
      rw [if_neg hs]
  · intro mem id u f
    refine ⟨mem.storeNull (mkEnvStores code id true), rfl, ?_⟩
    intro s
    have hm : mkEnvStores code id true = [] := rfl
    rw [hm]
    unfold CacheMem.storeNull
    rw [if_neg (List.not_mem_nil s)]
  · intro mem
    refine ⟨mem.storeNull (restartStores code), rfl, ?_, ?_⟩
    · intro s hs
      unfold CacheMem.storeNull
      rw [if_pos ((mem_restartStores code s).mpr hs)]
    · intro s hs
      unfold CacheMem.storeNull
      rw [if_neg (fun h => absurd ((mem_restartStores code s).mp h) (by omega))]
  · intro mem i u f env varName isLoad s ha ho hm
    rw [hexec mem i u f env varName isLoad s ha ho, hm]
  · intro mem i u f env varName s ha ho hm
    rw [hexec mem i u f env varName true s ha ho, hm]
    cases f <;> simp

theorem bindingsCache_reset_before_use_witness :
    traceOf
      [.MkEnv 1 false, .LdVar (.mkEnv 1 false) 5, .StVar (.mkEnv 1 false) 6,
        .LdDots (.mkEnv 1 false)]
      [.exec (.MkEnv 1 false) false none, .exec (.LdVar (.mkEnv 1 false) 5) false (some 4096),
        .exec (.LdVar (.mkEnv 1 false) 5) false none, .restart,
        .exec (.StVar (.mkEnv 1 false) 6) false none,
        .exec (.LdDots (.mkEnv 1 false)) true none] = true ∧
    envDominates []
      [.exec (.MkEnv 1 false) false none, .exec (.LdVar (.mkEnv 1 false) 5) false (some 4096),
        .exec (.LdVar (.mkEnv 1 false) 5) false none, .restart,
        .exec (.StVar (.mkEnv 1 false) 6) false none,
        .exec (.LdDots (.mkEnv 1 false)) true none] = true ∧
    ∃ mem, runCache
      [.MkEnv 1 false, .LdVar (.mkEnv 1 false) 5, .StVar (.mkEnv 1 false) 6,
        .LdDots (.mkEnv 1 false)]
      (fun _ => none)
      [.exec (.MkEnv 1 false) false none, .exec (.LdVar (.mkEnv 1 false) 5) false (some 4096),
        .exec (.LdVar (.mkEnv 1 false) 5) false none, .restart,
        .exec (.StVar (.mkEnv 1 false) 6) false none,
        .exec (.LdDots (.mkEnv 1 false)) true none] = .ok mem :=
  ⟨by decide, by decide,
    (bindingsCache_reset_before_use
      [.MkEnv 1 false, .LdVar (.mkEnv 1 false) 5, .StVar (.mkEnv 1 false) 6,
        .LdDots (.mkEnv 1 false)]).2.2.2.2.1 _ (by decide) (by decide)⟩

theorem runCache_uninitialized_example :
    (match runCache [.LdVar (.mkEnv 1 false) 5] (fun _ => none)
        [.exec (.LdVar (.mkEnv 1 false) 5) false none] with
      | .error f => some f
      | .ok _ => none) = some (.uninitializedRead 0) := by
  decide

/-! ## Restart of a context -/

/-- After a restart a live `Int32` variable `i = 7` that is not a Phi holds 7
again, although the code after the `PushContext` had made it 9; but for a live Phi
variable an assertion fails: in `updateVariable` (`isNext`) when the Phi belongs
to the block of the `PushContext`, and already in the `getVariable` of the save
when it belongs to another block. -/
theorem restart_int7_example :
    (pushContextRestart
      [{ j := 1, var := ⟨.MutablePrimitive, .addr (.alloca 0), true, none⟩, rep := .Integer,
         site := ⟨true, false, 0, 1, [2], false, true, true, true⟩, savedSexpPos := none }]
      (fun _ => .int 7) (fun m => m.store (.alloca 0) (.int 9))).map
        (fun m => m (.alloca 0)) = .ok (.int 7) ∧
    (pushContextRestart
      [{ j := 1, var := ⟨.MutablePrimitive, .addr (.alloca 0), true, none⟩, rep := .Integer,
         site := ⟨true, true, 1, 1, [2], false, true, true, true⟩, savedSexpPos := none }]
      (fun _ => .int 7) (fun m => m.store (.alloca 0) (.int 9))).map
        (fun m => m (.alloca 0)) = .error (.assertion "isNext") ∧
    (pushContextRestart
      [{ j := 1, var := ⟨.MutablePrimitive, .addr (.alloca 0), true, none⟩, rep := .Integer,
         site := ⟨true, true, 0, 1, [2], false, true, true, true⟩, savedSexpPos := none }]
      (fun _ => .int 7) (fun m => m.store (.alloca 0) (.int 9))).map
        (fun m => m (.alloca 0)) = .error (.assertion "variable->bb() == currentBB") := by
  refine ⟨?_, ?_, ?_⟩ <;> rfl

/-! ## The frame on the node stack -/

theorem toInt_of_lt (n : Nat) (h : n < 2 ^ 31) : toInt n = n := by
  unfold toInt wrap32
  omega

theorem incStack_toInt (n : Nat) (h : n < 2 ^ 31) (top : Int) :
    incStack (toInt n) top = top + n := by
  unfold incStack
  rw [toInt_of_lt n h]
  by_cases h0 : (n : Int) = 0
  · simp [h0]
  · simp [h0]

theorem decStack_toInt (n : Nat) (h : n < 2 ^ 31) (top : Int) :
    decStack (toInt n) top = top - n := by
  unfold decStack
  rw [toInt_of_lt n h]
  by_cases h0 : (n : Int) = 0
  · simp [h0]
  · rw [if_neg h0]
    unfold wrap32
    omega

theorem withCallFrame_eq (n : Nat) (theCall : Int → Int) (pop : Bool) (top : Int) :
    withCallFrame n theCall pop top =
      if pop then decStack (toInt n) (theCall (incStack (toInt n) top))
      else theCall (incStack (toInt n) top) := rfl

theorem withCallFrame_pop (n : Nat) (h : n < 2 ^ 31) (top : Int) :
    withCallFrame n id true top = top := by
  rw [withCallFrame_eq, if_pos rfl, id, incStack_toInt n h, decStack_toInt n h]
  omega

theorem foldl_withCallFrame (frames : List Nat) (hf : ∀ n ∈ frames, n < 2 ^ 31) (top : Int) :
    frames.foldl (fun t nargs => withCallFrame nargs id true t) top = top := by
  induction frames generalizing top with
  | nil => rfl
  | cons n rest ih =>
    rw [List.foldl_cons, withCallFrame_pop n (hf n (List.mem_cons_self _ _))]
    exact ih (fun m hm => hf m (List.mem_cons_of_mem _ hm)) top

/-- C20: the entry code raises the top pointer of the node stack by `numLocals`
cells (1 for the code container and `numLocals - 1` for the variables, the
save slots of the contexts and the `MAX_TEMPS` scratch slots), a call frame with
`pop = true` leaves it where it was, `Return` lowers it by `numLocals`, and so
every path from the entry to a `Return` through such frames ends with the
entry value. The counts fit the `int` parameters of `incStack` and `decStack`. -/
theorem frame_balanced (l : FrameLayout) (frames : List Nat) (top : Int)
    (hl : numLocals l < 2 ^ 31) (hf : ∀ n ∈ frames, n < 2 ^ 31) :
    numLocals l = 1 + (l.allocatorSlots + l.savedSexpSlots + MAX_TEMPS) ∧
    incStack 1 top = top + 1 ∧
    enterFrame l top = top + numLocals l ∧
    (∀ n t, n < 2 ^ 31 → withCallFrame n id true t = t) ∧
    (∀ t, lowerReturn l t = t - numLocals l) ∧
    runToReturn l frames top = top := by
  have hn : numLocals l = 1 + (l.allocatorSlots + l.savedSexpSlots + MAX_TEMPS) := by
    unfold numLocals; omega
  have h5 : 5 ≤ numLocals l := by rw [hn]; unfold MAX_TEMPS; omega
  have he : enterFrame l top = top + numLocals l := by
    unfold enterFrame
    simp only [if_pos (show numLocals l > 1 by omega)]
    rw [incStack_toInt _ (by omega)]
    have : incStack 1 top = top + 1 := rfl
    rw [this]
    omega
  have hr : ∀ t, lowerReturn l t = t - numLocals l := by
    intro t
    unfold lowerReturn
    rw [if_pos (by omega), decStack_toInt _ hl]
  refine ⟨hn, rfl, he, fun n t h => withCallFrame_pop n h t, hr, ?_⟩
  unfold runToReturn
  rw [foldl_withCallFrame frames hf, hr, he]
  omega

theorem frame_balanced_witness :
    numLocals ⟨3, 1⟩ < 2 ^ 31 ∧ (∀ n ∈ [2, 0, 5], n < 2 ^ 31) ∧
    enterFrame ⟨3, 1⟩ 100 = 100 + numLocals ⟨3, 1⟩ ∧ runToReturn ⟨3, 1⟩ [2, 0, 5] 100 = 100 :=
  have h := frame_balanced ⟨3, 1⟩ [2, 0, 5] 100 (by decide) (by decide)
  ⟨by decide, by decide, h.2.2.1, h.2.2.2.2.2⟩


/-- C21, counterexample: in a function with `numLocals = 9` entered with the top
pointer at 100, a `ScheduledDeopt` with two arguments calls `deopt` with the
pointer at 111 and would reach the `unreachable` with 109, where a `Return`
leaves 100: the frame of the function is not released. -/
theorem scheduledDeopt_keeps_frame :
    numLocals ⟨3, 1⟩ = 9 ∧
    lowerScheduledDeopt 2 (enterFrame ⟨3, 1⟩ 100) = (111, 109) ∧
    lowerReturn ⟨3, 1⟩ (enterFrame ⟨3, 1⟩ 100) = 100 := by
  decide

/-- C21, amended: the lowering of a `ScheduledDeopt` with `nargs` arguments
raises the top pointer by `nargs` for the argument frame of the `deopt` call,
so that at the call it is `numLocals + nargs` cells above the entry value; the
only lowering emitted after the call is the pop of that argument frame, which
leaves the pointer `numLocals` cells above the entry value. -/
theorem scheduledDeopt_frame (l : FrameLayout) (nargs : Nat) (top : Int)
    (hl : numLocals l < 2 ^ 31) (hn : nargs < 2 ^ 31) :
    lowerScheduledDeopt nargs (enterFrame l top) =
      (top + numLocals l + nargs, top + numLocals l) := by
  have h5 : 5 ≤ numLocals l := by unfold numLocals MAX_TEMPS; omega
  have he : enterFrame l top = top + numLocals l := by
    unfold enterFrame
    simp only [if_pos (show numLocals l > 1 by omega)]
    rw [incStack_toInt _ (by omega)]
    have : incStack 1 top = top + 1 := rfl
    rw [this]
    omega
  unfold lowerScheduledDeopt
  rw [he, incStack_toInt nargs hn, withCallFrame_pop nargs hn]

theorem scheduledDeopt_frame_witness :
    numLocals ⟨3, 1⟩ < 2 ^ 31 ∧ (2 : Nat) < 2 ^ 31 ∧
    lowerScheduledDeopt 2 (enterFrame ⟨3, 1⟩ 100) =
      ((100 : Int) + numLocals ⟨3, 1⟩ + (2 : Nat), (100 : Int) + numLocals ⟨3, 1⟩) :=
  ⟨by decide, by decide, scheduledDeopt_frame ⟨3, 1⟩ 2 100 (by decide) (by decide)⟩

theorem foldl_storeFrame (fs : List FrameInfo) :
    ∀ (arr : Nat → FrameInfo) (i : Nat),
      (fs.foldl (fun (st : (Nat → FrameInfo) × Nat) fi => (storeFrame st.1 st.2 fi, st.2 + 1))
        (arr, i)).2 = i + fs.length ∧
      ∀ k, (fs.foldl
          (fun (st : (Nat → FrameInfo) × Nat) fi => (storeFrame st.1 st.2 fi, st.2 + 1))
          (arr, i)).1 k =
        if i ≤ k ∧ k < i + fs.length then (fs[k - i]?).getD (arr k) else arr k := by
  induction fs with
  | nil =>
    intro arr i
    refine ⟨rfl, fun k => ?_⟩
    simp
  | cons f rest ih =>
    intro arr i
    rw [List.foldl_cons]
    obtain ⟨h1, h2⟩ := ih (storeFrame arr i f) (i + 1)
    refine ⟨by rw [h1, List.length_cons]; omega, fun k => ?_⟩
    rw [h2 k, List.length_cons]
    by_cases hk : k = i
    · subst hk
      simp [storeFrame]
    · by_cases h3 : i + 1 ≤ k ∧ k < i + 1 + rest.length
      · have h4 : i ≤ k ∧ k < i + (rest.length + 1) := by omega
        have h5 : k - i = (k - (i + 1)) + 1 := by omega
        rw [if_pos h3, if_pos h4, h5, List.getElem?_cons_succ]
        simp [storeFrame, hk]
      · have h4 : ¬ (i ≤ k ∧ k < i + (rest.length + 1)) := by omega
        rw [if_neg h3, if_neg h4]
        simp [storeFrame, hk]

/-- C22: the metadata built for a `ScheduledDeopt` has `numFrames` equal to the
number of frames and holds at index `k` the frame `n - 1 - k` of the
instruction; the emitted frames read in reverse are the frames of the
instruction in their order. -/
theorem scheduledDeopt_frames_reversed (frames : List FrameInfo) (m : DeoptMetadata) :
    (scheduledDeoptMetadata frames m).numFrames = frames.length ∧
    (∀ k, k < frames.length →
      frames[frames.length - 1 - k]? = some ((scheduledDeoptMetadata frames m).frames k)) ∧
    ((List.range frames.length).map (scheduledDeoptMetadata frames m).frames).reverse =
      frames := by
  have key : ∀ k, k < frames.length →
      (scheduledDeoptMetadata frames m).frames k = (frames.reverse[k]?).getD (m.frames k) := by
    intro k hk
    have := (foldl_storeFrame frames.reverse m.frames 0).2 k
    unfold scheduledDeoptMetadata
    simp only
    rw [this, List.length_reverse, if_pos (by omega), Nat.sub_zero]
  have key2 : ∀ k, k < frames.length →
      frames.reverse[k]? = frames[frames.length - 1 - k]? := by
    intro k hk
    rw [List.getElem?_reverse hk]
  refine ⟨rfl, ?_, ?_⟩
  · intro k hk
    rw [key k hk, key2 k hk]
    have : frames.length - 1 - k < frames.length := by omega
    rw [List.getElem?_eq_getElem this]
    rfl
  · apply List.ext_getElem?
    intro k
    by_cases hk : k < frames.length
    · have hk2 : frames.length - 1 - k < frames.length := by omega
      rw [List.getElem?_reverse (by simpa using hk)]
      simp only [List.length_map, List.length_range]
      rw [List.getElem?_map, List.getElem?_range hk2]
      simp only [Option.map_some']
      rw [key _ hk2, key2 _ hk2]
      have e : frames.length - 1 - (frames.length - 1 - k) = k := by omega
      rw [e, List.getElem?_eq_getElem hk]
      rfl
    · rw [List.getElem?_eq_none (by simpa using hk), List.getElem?_eq_none (by simpa using hk)]

theorem scheduledDeopt_frames_reversed_witness :
    (1 : Nat) < [(⟨⟨1, 0⟩, 4, 2, false⟩ : FrameInfo), ⟨⟨2, 64⟩, 70, 3, true⟩].length ∧
    [(⟨⟨1, 0⟩, 4, 2, false⟩ : FrameInfo), ⟨⟨2, 64⟩, 70, 3, true⟩][2 - 1 - 1]? =
      some ((scheduledDeoptMetadata [⟨⟨1, 0⟩, 4, 2, false⟩, ⟨⟨2, 64⟩, 70, 3, true⟩]
        ⟨0, fun _ => ⟨⟨0, 0⟩, 0, 0, false⟩⟩).frames 1) :=
  ⟨by decide,
    (scheduledDeopt_frames_reversed [⟨⟨1, 0⟩, 4, 2, false⟩, ⟨⟨2, 64⟩, 70, 3, true⟩]
      ⟨0, fun _ => ⟨⟨0, 0⟩, 0, 0, false⟩⟩).2.1 1 (by decide)⟩


theorem wrap32_of_lt (v : Int) (h0 : 0 ≤ v) (h1 : v < 2 ^ 31) : wrap32 v = v := by
  unfold wrap32
  omega

theorem toU64_natCast (n : Nat) (h : n < 2 ^ 31) : toU64 (n : Int) = n := by
  unfold toU64
  omega

/-- The items that `FrameInfo::serialize` writes for the frame `f`. -/
theorem FrameInfo.serialize_eq (f : FrameInfo) (out : List StreamItem) :
    f.serialize out =
      out ++ [.uuid f.code.uid, .integer (wrap32 ((f.pc : Int) - (f.code.code : Int))),
        .integer (wrap32 (f.stackSize : Int)),
        .integer (wrap32 (if f.inPromise then 1 else 0))] := by
  unfold FrameInfo.serialize UUID.serialize OutInteger
  simp

theorem FrameInfo.deserialize_serialize (withUid : Nat → Code) (f : FrameInfo)
    (rest : List StreamItem) (hu : withUid f.code.uid = f.code) (hp : f.code.code ≤ f.pc)
    (ho : f.pc - f.code.code < 2 ^ 31) (hs : f.stackSize < 2 ^ 31) :
    FrameInfo.deserialize withUid
      ([.uuid f.code.uid, .integer (wrap32 ((f.pc : Int) - (f.code.code : Int))),
        .integer (wrap32 (f.stackSize : Int)),
        .integer (wrap32 (if f.inPromise then 1 else 0))] ++ rest) = some (f, rest) := by
  have e1 : wrap32 ((f.pc : Int) - (f.code.code : Int)) = (f.pc : Int) - (f.code.code : Int) :=
    wrap32_of_lt _ (by omega) (by omega)
  have e2 : wrap32 (f.stackSize : Int) = (f.stackSize : Int) :=
    wrap32_of_lt _ (by omega) (by omega)
  have e3 : wrap32 (if f.inPromise then 1 else 0) = if f.inPromise then 1 else 0 := by
    cases f.inPromise <;> decide
  rw [e1, e2, e3]
  simp only [FrameInfo.deserialize, UUID.deserialize, InInteger, List.cons_append,
    List.nil_append, hu]
  have e4 : ((f.code.code : Int) + ((f.pc : Int) - (f.code.code : Int))).toNat = f.pc := by
    omega
  have e5 : decide ((if f.inPromise then (1 : Int) else 0) ≠ 0) = f.inPromise := by
    cases f.inPromise <;> decide
  rw [e4, toU64_natCast _ hs, e5]

theorem serializeFrames_append (frames : Nat → FrameInfo) (n : Nat) :
    ∀ (i : Nat) (out : List StreamItem),
      serializeFrames frames n i out = out ++ serializeFrames frames n i [] := by
  induction n with
  | zero => intro i out; simp [serializeFrames]
  | succ n ih =>
    intro i out
    unfold serializeFrames
    rw [ih (i + 1) ((frames i).serialize out), ih (i + 1) ((frames i).serialize []),
      FrameInfo.serialize_eq, FrameInfo.serialize_eq]
    simp

theorem deserializeFrames_serializeFrames (withUid : Nat → Code) (frames : Nat → FrameInfo)
    (rest : List StreamItem) (n : Nat) :
    ∀ (i : Nat) (arr : Nat → FrameInfo),
      (∀ k, i ≤ k → k < i + n →
        withUid (frames k).code.uid = (frames k).code ∧ (frames k).code.code ≤ (frames k).pc ∧
        (frames k).pc - (frames k).code.code < 2 ^ 31 ∧ (frames k).stackSize < 2 ^ 31) →
      ∃ arr2, deserializeFrames withUid n i arr (serializeFrames frames n i [] ++ rest) =
          some (arr2, rest) ∧
        (∀ k, i ≤ k → k < i + n → arr2 k = frames k) ∧ (∀ k, k < i → arr2 k = arr k) := by
  induction n with
  | zero =>
    intro i arr _
    exact ⟨arr, by simp [deserializeFrames, serializeFrames], fun k h1 h2 => by omega,
      fun k _ => rfl⟩
  | succ n ih =>
    intro i arr h
    obtain ⟨hu, hp, ho, hs⟩ := h i (le_refl i) (by omega)
    obtain ⟨arr2, h1, h2, h3⟩ := ih (i + 1) (storeFrame arr i (frames i))
      (fun k hk1 hk2 => h k (by omega) (by omega))
    refine ⟨arr2, ?_, ?_, ?_⟩
    · unfold deserializeFrames serializeFrames
      rw [serializeFrames_append, FrameInfo.serialize_eq, List.nil_append, List.append_assoc,
        FrameInfo.deserialize_serialize withUid (frames i) _ hu hp ho hs]
      exact h1
    · intro k hk1 hk2
      by_cases hk : k = i
      · subst hk
        rw [h3 k (by omega)]
        simp [storeFrame]
      · exact h2 k (by omega) (by omega)
    · intro k hk
      rw [h3 k (by omega)]
      simp [storeFrame, Nat.ne_of_lt hk]

/-- C23: `DeoptMetadata::serialize` writes `numFrames` and then the frames in
index order, each as its code UUID, its pc offset, its stack size and its
in-promise flag; and `DeoptMetadata::deserialize` applied to that output gives
back `numFrames` and every frame below it (code, pc, stack size, in-promise
flag), when `Code::withUid` finds the code of each frame under its UID and the
count, the offsets and the stack sizes fit a non-negative `int`. -/
theorem deoptMetadata_roundtrip (withUid : Nat → Code) (fresh : Nat → FrameInfo)
    (m : DeoptMetadata) (rest : List StreamItem) (hn : m.numFrames < 2 ^ 31)
    (hf : ∀ k, k < m.numFrames →
      withUid (m.frames k).code.uid = (m.frames k).code ∧
      (m.frames k).code.code ≤ (m.frames k).pc ∧
      (m.frames k).pc - (m.frames k).code.code < 2 ^ 31 ∧ (m.frames k).stackSize < 2 ^ 31) :
    m.serialize [] =
      StreamItem.integer m.numFrames ::
        (List.range m.numFrames).flatMap (fun k =>
          [.uuid (m.frames k).code.uid,
            .integer ((m.frames k).pc - (m.frames k).code.code : Nat),
            .integer (m.frames k).stackSize,
            .integer (if (m.frames k).inPromise then 1 else 0)]) ∧
    ∃ r, DeoptMetadata.deserialize withUid fresh (m.serialize [] ++ rest) = some (r, rest) ∧
      r.numFrames = m.numFrames ∧ ∀ k, k < m.numFrames → r.frames k = m.frames k := by
  have hw : wrap32 (m.numFrames : Int) = m.numFrames := wrap32_of_lt _ (by omega) (by omega)
  have hs : m.serialize [] =
      StreamItem.integer m.numFrames :: serializeFrames m.frames m.numFrames 0 [] := by
    unfold DeoptMetadata.serialize OutInteger
    rw [serializeFrames_append, hw]
    rfl
  constructor
  · rw [hs]
    have gen : ∀ n i, (∀ k, i ≤ k → k < i + n → k < m.numFrames) →
        serializeFrames m.frames n i [] =
          (List.range' i n).flatMap (fun k =>
            [.uuid (m.frames k).code.uid,
              .integer ((m.frames k).pc - (m.frames k).code.code : Nat),
              .integer (m.frames k).stackSize,
              .integer (if (m.frames k).inPromise then 1 else 0)]) := by
      intro n
      induction n with
      | zero => intro i _; simp [serializeFrames]
      | succ n ih =>
        intro i h
        obtain ⟨_, hp, ho, hss⟩ := hf i (h i (le_refl i) (by omega))
        unfold serializeFrames
        rw [serializeFrames_append, FrameInfo.serialize_eq, List.nil_append,
          ih (i + 1) (fun k h1 h2 => h k (by omega) (by omega)), List.range'_succ,
          List.flatMap_cons]
        have e1 : wrap32 (((m.frames i).pc : Int) - ((m.frames i).code.code : Int)) =
            (((m.frames i).pc - (m.frames i).code.code : Nat) : Int) := by
          rw [wrap32_of_lt _ (by omega) (by omega)]
          omega
        have e2 : wrap32 ((m.frames i).stackSize : Int) = ((m.frames i).stackSize : Int) :=
          wrap32_of_lt _ (by omega) (by omega)
        have e3 : wrap32 (if (m.frames i).inPromise then 1 else 0) =
            if (m.frames i).inPromise then 1 else 0 := by
          cases (m.frames i).inPromise <;> decide
        rw [e1, e2, e3]
    rw [gen m.numFrames 0 (fun k _ h => by omega), List.range_eq_range']
  · obtain ⟨arr2, h1, h2, _⟩ := deserializeFrames_serializeFrames withUid m.frames rest
      m.numFrames 0 fresh (fun k _ hk => hf k (by omega))
    refine ⟨⟨m.numFrames, arr2⟩, ?_, rfl, fun k hk => h2 k (by omega) (by omega)⟩
    rw [hs]
    have hu : toU32 (m.numFrames : Int) = m.numFrames := by
      unfold toU32
      omega
    simp only [DeoptMetadata.deserialize, List.cons_append, InInteger, hu, h1]

theorem deoptMetadata_roundtrip_witness :
    (2 : Nat) < 2 ^ 31 ∧
    ∃ r, DeoptMetadata.deserialize (fun u => if u = 1 then ⟨1, 0⟩ else ⟨2, 64⟩)
        (fun _ => ⟨⟨0, 0⟩, 0, 0, false⟩)
        (DeoptMetadata.serialize
          ⟨2, fun k => if k = 0 then ⟨⟨1, 0⟩, 4, 2, false⟩ else ⟨⟨2, 64⟩, 70, 3, true⟩⟩ [] ++
          [.integer 7]) = some (r, [.integer 7]) ∧
      r.numFrames = 2 ∧
      ∀ k, k < 2 → r.frames k =
        (if k = 0 then ⟨⟨1, 0⟩, 4, 2, false⟩ else ⟨⟨2, 64⟩, 70, 3, true⟩ : FrameInfo) :=
  ⟨by decide,
    (deoptMetadata_roundtrip (fun u => if u = 1 then ⟨1, 0⟩ else ⟨2, 64⟩)
      (fun _ => ⟨⟨0, 0⟩, 0, 0, false⟩)
      ⟨2, fun k => if k = 0 then ⟨⟨1, 0⟩, 4, 2, false⟩ else ⟨⟨2, 64⟩, 70, 3, true⟩⟩
      [.integer 7] (by decide) (by decide)).2⟩

/-! ## Failure of the lowering -/

theorem lowerInstrs_failed (st : LowerState) (h : st.success = false)
    (bb : List LoweredInstr) : lowerInstrs st bb = st := by
  cases bb with
  | nil => rfl
  | cons i rest => unfold lowerInstrs; simp [h]

theorem lowerInc_int (success : Bool) (v : Int) (h0 : isInt32 v) (h1 : v ≠ -1)
    (h2 : v ≠ 2147483647) : lowerInc success (.int v) = (success, .bound (some (v + 1))) := by
  unfold isInt32 at h0
  have h : isInt32 (v + 1) ∧ toU32 v + toU32 1 < 4294967296 := by
    unfold isInt32 toU32
    omega
  simp only [lowerInc, addNUWNSW, h, and_self, if_true]

/-- C25: for an operand that is not in `Integer` representation the case `Inc`
clears `success` and then still calls `setVal(i, res)` with `res` the null
pointer, which `convert` dereferences: the lowering does not get as far as
returning false. On an `Integer` operand the result is the `add nuw nsw` of the
operand and 1, which is undefined for -1 and for 2147483647. -/
theorem inc_unboxable_null_dereference :
    (∀ (success : Bool) (x : F64), lowerInc success (.dbl x) = (false, .nullDereference)) ∧
    (∀ success : Bool, lowerInc success .sexp = (false, .nullDereference)) ∧
    lowerInc true (.int 41) = (true, .bound (some 42)) ∧
    lowerInc true (.int (-1)) = (true, .bound none) ∧
    lowerInc true (.int 2147483647) = (true, .bound none) := by
  refine ⟨fun _ _ => rfl, fun _ => rfl, ?_, ?_, ?_⟩ <;> decide

/-! ## Promises -/

/-- C27: when the `car` of a promise is never a promise and `forcePromise` never
returns one, `force` gives its argument back when that is not a promise, the
`car` of a promise when that is not `R_UnboundValue`, and the result of
`forcePromise` otherwise; its result is never a promise, `depromise` leaves it
as it is, and `depromise` is idempotent. -/
theorem force_depromise (h : PromiseHeap)
    (hcar : ∀ p, h.sexptype p = PROMSXP → h.sexptype (h.car p) ≠ PROMSXP)
    (hforce : ∀ p, h.sexptype p = PROMSXP → h.sexptype (h.forcePromise p) ≠ PROMSXP)
    (x : SEXP) :
    (h.sexptype x ≠ PROMSXP → force h x = x) ∧
    (h.sexptype x = PROMSXP → h.car x ≠ .R_UnboundValue → force h x = h.car x) ∧
    (h.sexptype x = PROMSXP → h.car x = .R_UnboundValue → force h x = h.forcePromise x) ∧
    h.sexptype (force h x) ≠ PROMSXP ∧
    depromise h (force h x) = force h x ∧
    depromise h (depromise h x) = depromise h x := by
  have f1 : h.sexptype x ≠ PROMSXP → force h x = x := by
    intro hx; unfold force; rw [if_neg hx]
  have f2 : h.sexptype x = PROMSXP → h.car x ≠ .R_UnboundValue → force h x = h.car x := by
    intro hx hc; unfold force; simp only [if_pos hx, if_neg hc]
  have f3 : h.sexptype x = PROMSXP → h.car x = .R_UnboundValue →
      force h x = h.forcePromise x := by
    intro hx hc; unfold force; simp only [if_pos hx, if_pos hc]
  have f4 : h.sexptype (force h x) ≠ PROMSXP := by
    by_cases hx : h.sexptype x = PROMSXP
    · by_cases hc : h.car x = .R_UnboundValue
      · rw [f3 hx hc]; exact hforce x hx
      · rw [f2 hx hc]; exact hcar x hx
    · rw [f1 hx]; exact hx
  have d1 : ∀ y, h.sexptype y ≠ PROMSXP → depromise h y = y := by
    intro y hy; unfold depromise; rw [if_neg hy]
  refine ⟨f1, f2, f3, f4, d1 _ f4, ?_⟩
  by_cases hx : h.sexptype x = PROMSXP
  · have e : depromise h x = h.car x := by unfold depromise; rw [if_pos hx]
    rw [e]
    exact d1 _ (hcar x hx)
  · rw [d1 x hx, d1 x hx]

theorem force_depromise_witness :
    force ⟨fun s => if s = .obj 1 then 5 else 0, fun _ => .obj 2, fun _ => .obj 3⟩ (.obj 1) =
      .obj 2 ∧
    depromise ⟨fun s => if s = .obj 1 then 5 else 0, fun _ => .obj 2, fun _ => .obj 3⟩
      (force ⟨fun s => if s = .obj 1 then 5 else 0, fun _ => .obj 2, fun _ => .obj 3⟩
        (.obj 1)) =
      force ⟨fun s => if s = .obj 1 then 5 else 0, fun _ => .obj 2, fun _ => .obj 3⟩ (.obj 1) :=
  have t := force_depromise
    ⟨fun s => if s = .obj 1 then 5 else 0, fun _ => .obj 2, fun _ => .obj 3⟩
    (fun _ _ => by
      show (if SEXP.obj 2 = SEXP.obj 1 then (5 : Nat) else 0) ≠ PROMSXP
      decide)
    (fun _ _ => by
      show (if SEXP.obj 3 = SEXP.obj 1 then (5 : Nat) else 0) ≠ PROMSXP
      decide)
    (.obj 1)
  ⟨t.2.1 (by decide) (by decide), t.2.2.2.2.1⟩

/-! ## Arithmetic: choice of the path -/

/-- C28, counterexample: an `Add` of two `Integer` operands whose result is
Boxed is computed natively, `1 + 2 = 3`, and the result is boxed: no runtime
call is emitted although the result has Boxed representation. -/
theorem binop_boxed_result_native :
    lowerBinop .Add false .Sexp false false (.int 1) (.int 2) =
      .native false (.boxCall (.int 3)) := by
  decide

/-- C28, amended: `compileBinop` emits the runtime call (with the environment
when the instruction has one) exactly when an operand is Boxed, or when there
is no floating-point callback and an operand is not `Integer`; the
representation of the result plays no part. Otherwise the value is computed
natively, as an `i32` when both operands are `Integer` and as a `double` when one
of them is `Real`, and then converted to the representation of the result
(boxed when that is Boxed). -/
theorem compileBinop_path (hasEnv : Bool) (intInsert : Int → Int → Emitted Int)
    (fpInsert : Option (F64 → F64 → Emitted F64)) (rep : Representation)
    (lhsMaybeNa rhsMaybeNa : Bool) (lhs rhs : Operand) :
    ((∃ e, compileBinop hasEnv intInsert fpInsert rep lhsMaybeNa rhsMaybeNa lhs rhs =
        .runtimeCall e) ↔
      (lhs.rep = .Sexp ∨ rhs.rep = .Sexp ∨
        (fpInsert = none ∧ (lhs.rep ≠ .Integer ∨ rhs.rep ≠ .Integer)))) ∧
    (∀ e, compileBinop hasEnv intInsert fpInsert rep lhsMaybeNa rhsMaybeNa lhs rhs =
        .runtimeCall e → e = hasEnv) ∧
    (∀ a b, lhs.load = some a → rhs.load = some b →
      (fpInsert = none → lhs.rep = .Integer ∧ rhs.rep = .Integer) →
      compileBinop hasEnv intInsert fpInsert rep lhsMaybeNa rhsMaybeNa lhs rhs =
        .native (binopNative intInsert fpInsert lhsMaybeNa rhsMaybeNa a b).warned
          (match (binopNative intInsert fpInsert lhsMaybeNa rhsMaybeNa a b).value with
            | some v => convert v rep
            | none => .value none) ∧
      ∀ v, (binopNative intInsert fpInsert lhsMaybeNa rhsMaybeNa a b).value = some v →
        ((lhs.rep = .Integer ∧ rhs.rep = .Integer) → ∃ k, v = .int k) ∧
        ((lhs.rep = .Real ∨ rhs.rep = .Real) → ∃ x, v = .dbl x)) := by
  refine ⟨?_, ?_, ?_⟩
  · cases lhs <;> cases rhs <;> cases fpInsert <;>
      simp [compileBinop, Operand.load, Operand.rep] <;>
      (split <;> simp)
  · intro e he
    cases lhs <;> cases rhs <;> cases fpInsert <;>
      simp [compileBinop, Operand.load, Operand.rep] at he <;>
      first
        | exact he.symm
        | (split at he <;> simp at he)
  · intro a b ha hb hfp
    constructor
    · cases lhs <;> cases rhs <;> cases fpInsert <;>
        simp [Operand.load] at ha hb <;>
        simp [Operand.rep] at hfp <;>
        (subst ha; subst hb; simp [compileBinop, Operand.load, Operand.rep]) <;>
        (split <;> simp_all)
    · intro v hv
      cases lhs <;> cases rhs <;>
        simp [Operand.load] at ha hb <;>
        (subst ha; subst hb) <;>
        simp only [Operand.rep, reduceCtorEq, and_self, and_false, false_and, or_self, or_false,
          false_or, true_or, or_true, false_implies, true_implies, implies_true, and_true,
          true_and] <;>
        (unfold binopNative at hv; split at hv <;> cases fpInsert <;>
          simp [Emitted.pure, Emitted.map] at hv <;>
          first
            | exact ⟨_, hv.symm⟩
            | (obtain ⟨w, _, hw⟩ := hv; exact ⟨_, hw.symm⟩))

theorem compileBinop_path_witness :
    (Operand.int 1).load = some (.int 1) ∧ (Operand.dbl fzero).load = some (.dbl fzero) ∧
    ∀ v, (binopNative (intInsertOf .Add) (some (fpInsertOf .Add)) false false
        (.int 1) (.dbl fzero)).value = some v →
      (((Operand.int 1).rep = .Integer ∧ (Operand.dbl fzero).rep = .Integer) → ∃ k, v = .int k) ∧
      (((Operand.int 1).rep = .Real ∨ (Operand.dbl fzero).rep = .Real) → ∃ x, v = .dbl x) :=
  ⟨rfl, rfl,
    ((compileBinop_path false (intInsertOf .Add) (some (fpInsertOf .Add)) .Real false false
      (.int 1) (.dbl fzero)).2.2 (.int 1) (.dbl fzero) rfl rfl
      (fun h => absurd h (by simp))).2⟩


/-! ## Copies of Phi inputs -/

theorem phi_inputs_foldl (inputs : List (Nat × Nat)) (id v : Nat) :
    ∀ m : Nat → Option Nat,
      (inputs.foldl (fun m inp => fun i => if i = inp.2 then some id else m i) m) v =
        if ∃ inp ∈ inputs, inp.2 = v then some id else m v := by
  induction inputs with
  | nil => intro m; simp
  | cons x rest ih =>
    intro m
    rw [List.foldl_cons, ih]
    by_cases h1 : ∃ inp ∈ rest, inp.2 = v
    · have h2 : ∃ inp ∈ x :: rest, inp.2 = v := by
        obtain ⟨inp, hi, he⟩ := h1
        exact ⟨inp, List.mem_cons_of_mem _ hi, he⟩
      rw [if_pos h1, if_pos h2]
    · rw [if_neg h1]
      by_cases h3 : v = x.2
      · have h2 : ∃ inp ∈ x :: rest, inp.2 = v := ⟨x, List.mem_cons_self _ _, h3.symm⟩
        rw [if_pos h2, if_pos h3]
      · have h2 : ¬ ∃ inp ∈ x :: rest, inp.2 = v := by
          rintro ⟨inp, hi, he⟩
          rcases List.mem_cons.mp hi with e | e
          · subst e; exact h3 he.symm
          · exact h1 ⟨inp, e, he⟩
        rw [if_neg h2, if_neg h3]

theorem phisMap_foldl (code : List PhiInstr) (pid v : Nat) :
    ∀ m : Nat → Option Nat,
      (∀ q ∈ code, q.registered = true → (∃ inp ∈ q.inputs, inp.2 = v) → q.id = pid) →
      (code.foldl
        (fun phis phi =>
          if !phi.registered then phis
          else phi.inputs.foldl (fun m inp => fun i => if i = inp.2 then some phi.id else m i)
            phis) m) v =
        if ∃ q ∈ code, q.registered = true ∧ ∃ inp ∈ q.inputs, inp.2 = v then some pid
        else m v := by
  induction code with
  | nil => intro m _; simp
  | cons x rest ih =>
    intro m h
    rw [List.foldl_cons, ih _ (fun q hq => h q (List.mem_cons_of_mem _ hq))]
    by_cases h1 : ∃ q ∈ rest, q.registered = true ∧ ∃ inp ∈ q.inputs, inp.2 = v
    · have h2 : ∃ q ∈ x :: rest, q.registered = true ∧ ∃ inp ∈ q.inputs, inp.2 = v := by
        obtain ⟨q, hq, he⟩ := h1
        exact ⟨q, List.mem_cons_of_mem _ hq, he⟩
      rw [if_pos h1, if_pos h2]
    · rw [if_neg h1]
      by_cases hx : x.registered = true ∧ ∃ inp ∈ x.inputs, inp.2 = v
      · have h2 : ∃ q ∈ x :: rest, q.registered = true ∧ ∃ inp ∈ q.inputs, inp.2 = v :=
          ⟨x, List.mem_cons_self _ _, hx⟩
        rw [if_pos h2]
        simp only [hx.1, Bool.not_true, Bool.false_eq_true, if_false]
        rw [phi_inputs_foldl, if_pos hx.2, h x (List.mem_cons_self _ _) hx.1 hx.2]
      · have h2 : ¬ ∃ q ∈ x :: rest, q.registered = true ∧ ∃ inp ∈ q.inputs, inp.2 = v := by
          rintro ⟨q, hq, he⟩
          rcases List.mem_cons.mp hq with e | e
          · subst e; exact hx he
          · exact h1 ⟨q, e, he⟩
        rw [if_neg h2]
        cases hr : x.registered
        · simp
        · simp only [Bool.not_true, Bool.false_eq_true, if_false]
          rw [phi_inputs_foldl, if_neg (fun hh => hx ⟨hr, hh⟩)]

theorem phiCopies_ok (s : CopySite) (phis : Nat → Option Nat) (deadMove : Nat → Nat → Bool)
    (instrs : List Nat)
    (hok : ∀ i ∈ instrs, ∀ p, phis i = some p → deadMove i p = false →
      loadChecks s i p = .ok () ∧ s.count p = true ∧
        s.successors.contains (s.phiBB p) = true) :
    phiCopies s phis deadMove instrs =
      .ok (instrs.filterMap (fun i =>
        match phis i with
        | none => none
        | some phi => if deadMove i phi then none else some (phi, i))) := by
  induction instrs with
  | nil => rfl
  | cons i rest ih =>
    have ih2 := ih (fun j hj => hok j (List.mem_cons_of_mem _ hj))
    cases hp : phis i with
    | none =>
      rw [List.filterMap_cons]
      simp only [phiCopies, hp, ih2]
    | some phi =>
      cases hd : deadMove i phi with
      | true =>
        rw [List.filterMap_cons]
        simp only [phiCopies, hp, hd, ih2, if_true]
      | false =>
        obtain ⟨h1, h2, h3⟩ := hok i (List.mem_cons_self _ _) phi hp hd
        rw [List.filterMap_cons]
        simp only [phiCopies, hp, hd, h1, h2, h3, ih2, Bool.false_eq_true, if_false,
          Bool.not_true]

/-- When the incoming instruction 5 of Phi 10 (of block 2, predecessor block 1)
is defined in block 0, whose only successor is block 1, the loop at the end of
block 0 stops at the assertion `isNext` of `updateVariable`, and the loop at the
end of the predecessor, which holds the instruction 6, emits no update. -/
theorem phi_copies_other_block_asserts :
    phiCopies
      ⟨[1], fun _ => 2, fun _ => true, fun _ => true, fun _ => false, fun _ => false,
        fun _ => false, fun _ => true, fun _ _ => true⟩
      (phisMap [⟨10, true, [(1, 5)]⟩]) (fun _ _ => false) [5] =
      .error (.assertion "isNext") ∧
    phiCopies
      ⟨[2], fun _ => 2, fun _ => true, fun _ => true, fun _ => false, fun _ => false,
        fun _ => false, fun _ => true, fun _ _ => true⟩
      (phisMap [⟨10, true, [(1, 5)]⟩]) (fun _ _ => false) [6] = .ok [] :=
  ⟨rfl, rfl⟩

/-- The copies emitted after the regular instructions of a block, when no
assertion of the loop fails, are `update(phi, load(i, representationOf(phi)))`
for the instructions `i` of that block which `phis` maps to `phi`,
`deadMove(i, phi)` excepted. So for a Phi that is in the liveness analysis and
needs a variable, an input whose incoming instruction is an instruction of the
block at hand and is the input of no other such Phi is copied at the end of
that block, a predecessor of the block of the Phi, unless `deadMove` holds. -/
theorem phi_copies_spec (s : CopySite) (code : List PhiInstr) (deadMove : Nat → Nat → Bool)
    (instrs : List Nat) (phi : PhiInstr) (pred v : Nat)
    (hphi : phi ∈ code) (hreg : phi.registered = true) (hin : (pred, v) ∈ phi.inputs)
    (hdef : v ∈ instrs)
    (huniq : ∀ q ∈ code, q.registered = true → (∃ inp ∈ q.inputs, inp.2 = v) → q.id = phi.id)
    (hdead : deadMove v phi.id = false)
    (hok : ∀ i ∈ instrs, ∀ p, phisMap code i = some p → deadMove i p = false →
      loadChecks s i p = .ok () ∧ s.count p = true ∧
        s.successors.contains (s.phiBB p) = true) :
    ∃ copies, phiCopies s (phisMap code) deadMove instrs = .ok copies ∧
      (phi.id, v) ∈ copies ∧
      ∀ p i, (p, i) ∈ copies →
        i ∈ instrs ∧ phisMap code i = some p ∧ deadMove i p = false ∧
          s.successors.contains (s.phiBB p) = true := by
  have hm : phisMap code v = some phi.id := by
    unfold phisMap
    rw [phisMap_foldl code phi.id v _ huniq, if_pos ⟨phi, hphi, hreg, (pred, v), hin, rfl⟩]
  refine ⟨_, phiCopies_ok s (phisMap code) deadMove instrs hok, ?_, ?_⟩
  · rw [List.mem_filterMap]
    exact ⟨v, hdef, by simp [hm, hdead]⟩
  · intro p i hpi
    rw [List.mem_filterMap] at hpi
    obtain ⟨j, hj, he⟩ := hpi
    cases hq : phisMap code j with
    | none => rw [hq] at he; simp at he
    | some q =>
      rw [hq] at he
      cases hd : deadMove j q with
      | true => simp [hd] at he
      | false =>
        simp only [hd, Bool.false_eq_true, if_false, Option.some.injEq, Prod.mk.injEq] at he
        obtain ⟨e1, e2⟩ := he
        subst e1; subst e2
        exact ⟨hj, hq, hd, (hok j hj q hq hd).2.2⟩

theorem phi_copies_spec_witness :
    ∃ copies, phiCopies
      ⟨[1], fun _ => 1, fun _ => true, fun _ => true, fun _ => false, fun _ => false,
        fun _ => false, fun _ => true, fun _ _ => true⟩
      (phisMap [⟨10, true, [(0, 1), (3, 4)]⟩, ⟨11, true, [(0, 2)]⟩])
      (fun _ _ => false) [1, 2] = .ok copies ∧ (10, 1) ∈ copies := by
  obtain ⟨copies, h1, h2, -⟩ := phi_copies_spec
    ⟨[1], fun _ => 1, fun _ => true, fun _ => true, fun _ => false, fun _ => false,
      fun _ => false, fun _ => true, fun _ _ => true⟩
    [⟨10, true, [(0, 1), (3, 4)]⟩, ⟨11, true, [(0, 2)]⟩] (fun _ _ => false)
    [1, 2] ⟨10, true, [(0, 1), (3, 4)]⟩ 0 1 (by decide) rfl (by decide) (by decide)
    (by decide) rfl (fun _ _ _ _ _ => ⟨rfl, rfl, rfl⟩)
  exact ⟨copies, h1, h2⟩


/-! ## Cells of the frame -/

theorem enterFrame_eq (l : FrameLayout) (top : Int) (hl : numLocals l < 2 ^ 31) :
    enterFrame l top = top + numLocals l := by
  have h5 : 5 ≤ numLocals l := by unfold numLocals MAX_TEMPS; omega
  unfold enterFrame
  simp only [if_pos (show numLocals l > 1 by omega)]
  rw [incStack_toInt _ (by omega)]
  have : incStack 1 top = top + 1 := rfl
  rw [this]
  omega

/-- C29: the frame reserved on entry is the `numLocals` cells from the entry
value `top` of the top pointer up to, and not including, `top + numLocals`; the
code container is its first cell; but `basepointer` is loaded after the first
`incStack(1)`, so every cell addressed through it lies one cell higher than its
position: the variable slots start at `top + 2`, and the scratch slot that
`protectTemp` uses for `numTemps = 0` is the cell `top + numLocals`, the top of
the stack after the set-up, outside the frame. The cell `top + 1` is addressed
by no group. -/
theorem scratch_slot_outside_frame (l : FrameLayout) (top : Int)
    (hl : numLocals l < 2 ^ 31) :
    enterFrame l top = top + numLocals l ∧
    containerCell top = top ∧
    basepointer top = top + 1 ∧
    localCell top (tempPos l 0) = enterFrame l top ∧
    (∀ a, a < l.allocatorSlots → localCell top (variablePos a) = top + 2 + a) ∧
    (∀ k, k < l.savedSexpSlots →
      localCell top (savedSexpPosOf l k) = top + 2 + l.allocatorSlots + k) ∧
    (∀ t, t < MAX_TEMPS → localCell top (tempPos l t) = top + numLocals l - t) := by
  have hb : basepointer top = top + 1 := rfl
  have hn : numLocals l = 1 + l.allocatorSlots + l.savedSexpSlots + 4 := by
    unfold numLocals MAX_TEMPS; omega
  have he := enterFrame_eq l top hl
  refine ⟨he, ?_, hb, ?_, ?_, ?_, ?_⟩
  · have : incStack 1 top = top + 1 := rfl
    unfold containerCell
    rw [this]
    omega
  · rw [he]
    unfold localCell tempPos
    rw [hb]
    omega
  · intro a _
    unfold localCell variablePos
    rw [hb]
    omega
  · intro k _
    unfold localCell savedSexpPosOf
    rw [hb]
    omega
  · intro t ht
    unfold MAX_TEMPS at ht
    unfold localCell tempPos
    rw [hb]
    omega

theorem scratch_slot_outside_frame_witness :
    numLocals ⟨3, 1⟩ < 2 ^ 31 ∧ enterFrame ⟨3, 1⟩ 100 = 109 ∧
    localCell 100 (tempPos ⟨3, 1⟩ 0) = enterFrame ⟨3, 1⟩ 100 :=
  ⟨by decide, by decide, (scratch_slot_outside_frame ⟨3, 1⟩ 100 (by decide)).2.2.2.1⟩

/-! ## Reading a variable -/

/-- C30, counterexample: a Phi of block 0 that is initialized, in the liveness
analysis and live immediately before the current instruction of block 1 is not
read there: the assertion `variable->bb() == currentBB` fails. -/
theorem getVariable_phi_other_block :
    getVariable ⟨true, true, 0, 1, [2], false, true, true, true⟩
      (some ⟨.MutablePrimitive, .addr (.alloca 0), true, none⟩) (fun _ => .int 7) =
      .error (.assertion "variable->bb() == currentBB") := by
  rfl

theorem Variable.get_ok_iff (v : Variable) (mem : Mem) (val : RVal) :
    v.get mem = .ok val ↔
      v.initialized = true ∧
      ((∃ a, v.slot = .addr a ∧ v.kind ≠ .ImmutablePrimitive ∧ mem a = val) ∨
        (v.slot = .value val ∧ v.kind = .ImmutablePrimitive)) := by
  obtain ⟨kind, slot, initialized, stackSlot⟩ := v
  cases initialized <;> cases slot <;> cases kind <;> simp [Variable.get]

theorem getVariable_ok_iff_get (s : UseSite) (v : Variable) (mem : Mem) (val : RVal) :
    getVariable s (some v) mem = .ok val ↔
      s.count = true ∧
      (if s.isPhi then s.bb = s.currentBB
        else if s.atBegin then s.liveAtBBEntry = true else s.liveBefore = true) ∧
      v.get mem = .ok val := by
  obtain ⟨count, isPhi, bb, currentBB, successors, atBegin, liveAtBBEntry, liveBefore, live⟩ := s
  by_cases hb : bb = currentBB <;>
    cases count <;> cases isPhi <;> cases atBegin <;> cases liveAtBBEntry <;>
    cases liveBefore <;> simp [getVariable, hb]

/-- C30, amended: `getVariable` succeeds exactly when the variable is in the
liveness analysis, it is a Phi of the current block or, not being a Phi, is live
immediately before the current instruction (at the entry of the block when the
instruction is the first of the block), and its `Variable` is initialized with
a slot of its kind; the value is then the content of the slot. -/
theorem getVariable_ok_iff (s : UseSite) (v : Variable) (mem : Mem) (val : RVal) :
    getVariable s (some v) mem = .ok val ↔
      s.count = true ∧
      (if s.isPhi then s.bb = s.currentBB
        else if s.atBegin then s.liveAtBBEntry = true else s.liveBefore = true) ∧
      v.initialized = true ∧
      ((∃ a, v.slot = .addr a ∧ v.kind ≠ .ImmutablePrimitive ∧ mem a = val) ∨
        (v.slot = .value val ∧ v.kind = .ImmutablePrimitive)) := by
  rw [getVariable_ok_iff_get, Variable.get_ok_iff]

/-! ## The state machine of a variable -/

/-- C31 (counterexample): `update` on a mutable variable whose `initialized`
flag is false fails no assertion; it stores the value and sets the flag. -/
theorem update_uninitialized_accepted :
    (Variable.Mutable (.alloca 0)).initialized = false ∧
    ∃ mem2, (Variable.Mutable (.alloca 0)).update (.int 1) (fun _ => .int 0) =
        .ok (⟨.MutablePrimitive, .addr (.alloca 0), true, none⟩, mem2) ∧
      mem2 (.alloca 0) = .int 1 :=
  ⟨rfl, _, rfl, rfl⟩

/-- C31 (amended): `set` fails the assertion `!initialized` on an initialized
variable, and on an uninitialized one it succeeds exactly when the variable is
an `ImmutablePrimitive` or has a location, leaving a variable that is
initialized, so that a second `set` fails; `get` fails the assertion
`initialized` on an uninitialized variable, so a successful `get` was of an
initialized one; `update` does not look at the flag: it succeeds exactly when
the kind is one of the two mutable kinds and the variable has a location,
leaves the variable initialized, and fails the assertion `false` for
`ImmutableLocalRVariable` and `ImmutablePrimitive`. -/
theorem Variable.set_get_update_spec (v : Variable) (val : RVal) (mem : Mem) :
    (v.initialized = true → v.set val mem = .error (.assertion "!initialized")) ∧
    (v.initialized = false →
      ((∃ r, v.set val mem = .ok r) ↔ (v.kind = .ImmutablePrimitive ∨ ∃ a, v.slot = .addr a))) ∧
    (∀ r, v.set val mem = .ok r → v.initialized = false ∧ r.1.initialized = true ∧
      ∀ val2 mem2, r.1.set val2 mem2 = .error (.assertion "!initialized")) ∧
    (v.initialized = false → v.get mem = .error (.assertion "initialized")) ∧
    (∀ x, v.get mem = .ok x → v.initialized = true) ∧
    ((∃ r, v.update val mem = .ok r) ↔
      ((v.kind = .MutableLocalRVariable ∨ v.kind = .MutablePrimitive) ∧ ∃ a, v.slot = .addr a)) ∧
    (∀ r, v.update val mem = .ok r → r.1.initialized = true) ∧
    (v.kind = .ImmutableLocalRVariable ∨ v.kind = .ImmutablePrimitive →
      v.update val mem = .error (.assertion "false")) := by
  obtain ⟨k, s, i, st⟩ := v
  refine ⟨?_, ?_, ?_, ?_, ?_, ?_, ?_, ?_⟩
  · intro h
    simp only at h
    subst h
    rfl
  · intro h
    simp only at h
    subst h
    cases k <;> cases s <;> simp [Variable.set]
  · intro r h
    cases i
    · cases k <;> cases s <;> simp [Variable.set] at h <;> subst h <;>
        simp [Variable.set]
    · simp [Variable.set] at h
  · intro h
    simp only at h
    subst h
    rfl
  · intro x h
    cases i
    · simp [Variable.get] at h
    · rfl
  · cases k <;> cases s <;> simp [Variable.update]
  · intro r h
    cases k <;> cases s <;> simp [Variable.update] at h <;> subst h <;> rfl
  · intro h
    rcases h with h | h <;> simp only at h <;> subst h <;> rfl

/-! ## Dead moves -/

/-- C32 (counterexample): for two uninitialized `ImmutablePrimitive` variables,
which have no storage at all (both slots are null), `deadMove` returns true and
marks the second one initialized; a later `get` of it fails the assertion
`slot`. -/
theorem deadMove_null_slots :
    (deadMove (fun k => if k = 1 ∨ k = 2 then some Variable.Immutable else none) (some 1) 2).1
      = true ∧
    Variable.Immutable.slot = SlotRef.null ∧
    (deadMove (fun k => if k = 1 ∨ k = 2 then some Variable.Immutable else none) (some 1) 2).2 2
      = some ⟨.ImmutablePrimitive, .null, true, none⟩ ∧
    ∀ mem, Variable.get ⟨.ImmutablePrimitive, .null, true, none⟩ mem =
      .error (.assertion "slot") :=
  ⟨rfl, rfl, rfl, fun _ => rfl⟩

/-- C32 (amended): `deadMove(a, b)` returns false and leaves the map alone when
`a` or `b` has no variable; whenever it returns false the map is unchanged;
when both have a variable the result is true exactly when the two slots are
equal or both have the same stack position, which, when the slot of `a` is not
null (as it is for every initialized variable), means that the two variables
have the same location or value; and when it returns true the only change of
the map is that the variable of `b` has its `initialized` flag set. -/
theorem deadMove_spec (vars : VarMap) (a : Option Nat) (bi : Nat) :
    ((a = none ∨ (∃ ai, a = some ai ∧ vars ai = none) ∨ vars bi = none) →
      deadMove vars a bi = (false, vars)) ∧
    ((deadMove vars a bi).1 = false → (deadMove vars a bi).2 = vars) ∧
    (∀ ai av bv, a = some ai → vars ai = some av → vars bi = some bv →
      ((deadMove vars a bi).1 = true ↔
        (av.slot = bv.slot ∨ ∃ p, av.stackSlot = some p ∧ bv.stackSlot = some p)) ∧
      (av.slot ≠ .null → (deadMove vars a bi).1 = true →
        (∃ l, av.slot = .addr l ∧ bv.slot = .addr l) ∨
        (∃ x, av.slot = .value x ∧ bv.slot = .value x) ∨
        (∃ p, av.stackSlot = some p ∧ bv.stackSlot = some p)) ∧
      ((deadMove vars a bi).1 = true →
        (deadMove vars a bi).2 bi = some { bv with initialized := true } ∧
        ∀ k, k ≠ bi → (deadMove vars a bi).2 k = vars k)) := by
  have key : ∀ av bv : Variable, av.deadMove bv = true ↔
      (av.slot = bv.slot ∨ ∃ p, av.stackSlot = some p ∧ bv.stackSlot = some p) := by
    intro av bv
    unfold Variable.deadMove
    cases h1 : av.stackSlot with
    | none => simp
    | some p =>
      simp only [Bool.or_eq_true, Bool.and_eq_true, decide_eq_true_eq]
      constructor
      · rintro (h | ⟨_, h⟩)
        · exact Or.inl h
        · exact Or.inr ⟨p, rfl, h.symm⟩
      · rintro (h | ⟨q, hq, hb⟩)
        · exact Or.inl h
        · refine Or.inr ⟨by simp, ?_⟩
          rw [hb, hq]
  refine ⟨?_, ?_, ?_⟩
  · rintro (h | ⟨ai, h, h2⟩ | h)
    · subst h
      rfl
    · subst h
      simp only [deadMove, h2]
    · cases a with
      | none => rfl
      | some ai =>
        cases h2 : vars ai with
        | none => simp only [deadMove, h2]
        | some av => simp only [deadMove, h2, h]
  · intro h
    cases a with
    | none => rfl
    | some ai =>
      cases h2 : vars ai with
      | none => simp only [deadMove, h2]
      | some av =>
        cases h3 : vars bi with
        | none => simp only [deadMove, h2, h3]
        | some bv =>
          simp only [deadMove, h2, h3] at h ⊢
          by_cases hd : av.deadMove bv = true
          · rw [if_pos hd] at h
            exact absurd h (by simp)
          · rw [if_neg hd]
  · intro ai av bv ha hav hbv
    subst ha
    have hres : deadMove vars (some ai) bi =
        if av.deadMove bv then (true, vars.set bi { bv with initialized := true })
        else (false, vars) := by
      simp only [deadMove, hav, hbv]
    have h1 : (deadMove vars (some ai) bi).1 = av.deadMove bv := by
      rw [hres]
      by_cases hd : av.deadMove bv = true
      · rw [if_pos hd, hd]
      · rw [if_neg hd]
        simp only [Bool.not_eq_true] at hd
        rw [hd]
    refine ⟨?_, ?_, ?_⟩
    · rw [h1]
      exact key av bv
    · intro hnn hd
      rw [h1] at hd
      rcases (key av bv).1 hd with h | h
      · cases hs : av.slot with
        | null => exact absurd hs hnn
        | addr l => exact Or.inl ⟨l, rfl, by rw [← h, hs]⟩
        | value x => exact Or.inr (Or.inl ⟨x, rfl, by rw [← h, hs]⟩)
      · exact Or.inr (Or.inr h)
    · intro hd
      rw [h1] at hd
      rw [hres, if_pos hd]
      refine ⟨?_, ?_⟩
      · simp only [VarMap.set, if_true]
      · intro k hk
        simp only [VarMap.set, if_neg hk]

/-! ## The kinds of the variables -/

theorem foldl_passStep (sel : Nat → Bool) (ovw : Bool) (mk : Nat → Variable) (l : List Nat)
    (m0 : VarMap) (k : Nat) :
    (l.foldl (passStep sel ovw mk) m0) k =
      if k ∈ l ∧ sel k = true ∧ (ovw = true ∨ m0 k = none) then some (mk k) else m0 k := by
  induction l generalizing m0 with
  | nil => simp
  | cons i t ih =>
    rw [List.foldl_cons, ih]
    by_cases hik : k = i
    · subst hik
      by_cases hs : sel k = true
      · cases ovw
        · cases hm : m0 k with
          | none => simp [passStep, hs, hm, VarMap.set]
          | some x => simp [passStep, hs, hm, VarMap.set]
        · simp [passStep, hs, VarMap.set]
      · simp [passStep, hs]
    · have hstep : passStep sel ovw mk m0 i k = m0 k := by
        unfold passStep
        split
        · simp only [VarMap.set, if_neg hik]
        · rfl
      rw [hstep]
      simp [hik]

theorem phiVariables_eq (c : CodeInfo) (m : VarMap) :
    phiVariables c m =
      c.instrs.foldl (passStep (fun i => c.count i && needsAVariable c i && c.isPhi i) true
        (fun i => createVariable c i true)) m := by
  unfold phiVariables
  congr 1
  funext m i
  cases h1 : c.count i <;> cases h2 : needsAVariable c i <;> cases h3 : c.isPhi i <;>
    simp [passStep, h1, h2, h3]

theorem contextVariables_eq (c : CodeInfo) (p : Nat × Nat) (m : VarMap) :
    contextVariables c p m =
      c.instrs.foldl (passStep (fun j => needsAVariable c j && (c.live p.1 j || c.live p.2 j))
        false (fun i => createVariable c i true)) m := by
  unfold contextVariables
  congr 1
  funext m j
  cases h1 : needsAVariable c j <;> cases h2 : (m j).isNone <;> cases h3 : c.live p.1 j <;>
    cases h4 : c.live p.2 j <;> simp [passStep, h1, h2, h3, h4]

theorem restVariables_eq (c : CodeInfo) (m : VarMap) :
    restVariables c m =
      c.instrs.foldl (passStep (fun i => needsAVariable c i && c.count i) false
        (fun i => createVariable c i false)) m := by
  unfold restVariables
  congr 1

theorem contextsVariables_apply (c : CodeInfo) (ps : List (Nat × Nat)) (m : VarMap) (k : Nat) :
    (ps.foldl (fun m p => contextVariables c p m) m) k =
      if k ∈ c.instrs ∧ needsAVariable c k = true ∧
          ps.any (fun p => c.live p.1 k || c.live p.2 k) = true ∧ m k = none
      then some (createVariable c k true) else m k := by
  induction ps generalizing m with
  | nil => simp
  | cons p t ih =>
    rw [List.foldl_cons, ih, contextVariables_eq, foldl_passStep]
    by_cases hk : k ∈ c.instrs
    · cases hn : needsAVariable c k
      · simp [hn]
      · cases hm : m k with
        | some x => simp [hn, hm]
        | none =>
          rw [List.any_cons]
          cases h1 : c.live p.1 k <;> cases h2 : c.live p.2 k <;>
            cases h3 : t.any (fun p => c.live p.1 k || c.live p.2 k) <;>
            simp [hk, hn, hm]
    · simp [hk]

theorem tryCompileVariables_apply (c : CodeInfo) (k : Nat) :
    tryCompileVariables c k =
      if k ∈ c.instrs ∧ needsAVariable c k = true then
        if c.count k = true ∧ c.isPhi k = true then some (createVariable c k true)
        else if crossesContext c k = true then some (createVariable c k true)
        else if c.count k = true then some (createVariable c k false)
        else none
      else none := by
  unfold tryCompileVariables
  rw [restVariables_eq, foldl_passStep]
  unfold contextsVariables
  rw [contextsVariables_apply, phiVariables_eq, foldl_passStep]
  unfold crossesContext
  by_cases hk : k ∈ c.instrs
  · cases hn : needsAVariable c k
    · simp [hn]
    · cases hc : c.count k <;> cases hp : c.isPhi k <;>
        cases hx : c.contexts.any (fun p => c.live p.1 k || c.live p.2 k) <;>
        simp [hk, hn, hc, hp, hx]
  · simp [hk]


theorem crossesContext_iff (c : CodeInfo) (i : Nat) :
    crossesContext c i = true ↔
      ∃ p ∈ c.contexts, c.live p.1 i = true ∨ c.live p.2 i = true := by
  unfold crossesContext
  rw [List.any_eq_true]
  constructor
  · rintro ⟨p, hp, h⟩
    exact ⟨p, hp, by simpa using h⟩
  · rintro ⟨p, hp, h⟩
    exact ⟨p, hp, by simpa using h⟩

/-- C33: after the three loops of `tryCompile`, for an instruction `i` of the
code: a live Phi that needs a variable has the mutable variable of its
representation; a value that needs a variable and is live at the `PushContext`
or at the `PopContext` of one of the contexts has the mutable variable; any
other live value that needs a variable has the immutable one; a value that is
not live or needs no variable has none. The mutable variable is a
`MutableLocalRVariable` for `Sexp` and a `MutablePrimitive` otherwise, the
immutable one an `ImmutableLocalRVariable` or an `ImmutablePrimitive`, and
`update` succeeds on the mutable one. Liveness at an instruction is taken to
imply `liveness.count`. -/
theorem tryCompile_variable_kinds (c : CodeInfo)
    (hlive : ∀ p ∈ c.contexts, ∀ j, c.live p.1 j = true ∨ c.live p.2 j = true →
      c.count j = true)
    (i : Nat) (hi : i ∈ c.instrs) :
    (c.count i = true → needsAVariable c i = true → c.isPhi i = true →
      tryCompileVariables c i = some (createVariable c i true)) ∧
    (needsAVariable c i = true →
      (∃ p ∈ c.contexts, c.live p.1 i = true ∨ c.live p.2 i = true) →
      tryCompileVariables c i = some (createVariable c i true)) ∧
    (c.count i = true → needsAVariable c i = true → c.isPhi i = false →
      (∀ p ∈ c.contexts, c.live p.1 i = false ∧ c.live p.2 i = false) →
      tryCompileVariables c i = some (createVariable c i false)) ∧
    (c.count i = false ∨ needsAVariable c i = false → tryCompileVariables c i = none) ∧
    (createVariable c i true).kind =
      (if c.rep i = .Sexp then .MutableLocalRVariable else .MutablePrimitive) ∧
    (createVariable c i false).kind =
      (if c.rep i = .Sexp then .ImmutableLocalRVariable else .ImmutablePrimitive) ∧
    (∀ val mem, ∃ r, (createVariable c i true).update val mem = .ok r) := by
  have hx := crossesContext_iff c i
  refine ⟨?_, ?_, ?_, ?_, ?_, ?_, ?_⟩
  · intro h1 h2 h3
    rw [tryCompileVariables_apply, if_pos ⟨hi, h2⟩, if_pos ⟨h1, h3⟩]
  · intro h2 h
    rw [tryCompileVariables_apply, if_pos ⟨hi, h2⟩]
    by_cases h1 : c.count i = true ∧ c.isPhi i = true
    · rw [if_pos h1]
    · rw [if_neg h1, if_pos (hx.2 h)]
  · intro h1 h2 h3 h
    have hnx : ¬ crossesContext c i = true := by
      rw [hx]
      rintro ⟨p, hp, hl⟩
      have := h p hp
      rcases hl with hl | hl
      · rw [this.1] at hl
        exact absurd hl (by simp)
      · rw [this.2] at hl
        exact absurd hl (by simp)
    rw [tryCompileVariables_apply, if_pos ⟨hi, h2⟩, if_neg (by simp [h3]), if_neg hnx,
      if_pos h1]
  · intro h
    rw [tryCompileVariables_apply]
    rcases h with h | h
    · by_cases h2 : needsAVariable c i = true
      · have hnx : ¬ crossesContext c i = true := by
          rw [hx]
          rintro ⟨p, hp, hl⟩
          have := hlive p hp i hl
          rw [h] at this
          exact absurd this (by simp)
        rw [if_pos ⟨hi, h2⟩, if_neg (by simp [h]), if_neg hnx, if_neg (by simp [h])]
      · rw [if_neg (fun hh => h2 hh.2)]
    · rw [if_neg (by simp [h])]
  · unfold createVariable
    by_cases hr : c.rep i = .Sexp
    · rw [if_pos hr, if_pos hr, if_pos rfl]
      rfl
    · rw [if_neg hr, if_neg hr, if_pos rfl]
      rfl
  · unfold createVariable
    by_cases hr : c.rep i = .Sexp
    · rw [if_pos hr, if_pos hr, if_neg (by simp)]
      rfl
    · rw [if_neg hr, if_neg hr, if_neg (by simp)]
      rfl
  · intro val mem
    unfold createVariable
    by_cases hr : c.rep i = .Sexp
    · rw [if_pos hr, if_pos rfl]
      exact ⟨_, rfl⟩
    · rw [if_neg hr, if_pos rfl]
      exact ⟨_, rfl⟩

theorem tryCompile_variable_kinds_witness :
    tryCompileVariables
      ⟨[1, 2, 3], fun i => decide (i = 1), fun i => decide (i ≤ 3), fun _ => true,
        fun _ => false, fun _ => false,
        fun i => if i = 3 then Representation.Sexp else Representation.Integer,
        fun _ => 0, [(10, 11)], fun w j => decide (w = 10 ∧ j = 2)⟩ 2 =
      some (Variable.Mutable (.alloca 2)) ∧
    tryCompileVariables
      ⟨[1, 2, 3], fun i => decide (i = 1), fun i => decide (i ≤ 3), fun _ => true,
        fun _ => false, fun _ => false,
        fun i => if i = 3 then Representation.Sexp else Representation.Integer,
        fun _ => 0, [(10, 11)], fun w j => decide (w = 10 ∧ j = 2)⟩ 3 =
      some (Variable.RVariable 1) :=
  ⟨(tryCompile_variable_kinds
      ⟨[1, 2, 3], fun i => decide (i = 1), fun i => decide (i ≤ 3), fun _ => true,
        fun _ => false, fun _ => false,
        fun i => if i = 3 then Representation.Sexp else Representation.Integer,
        fun _ => 0, [(10, 11)], fun w j => decide (w = 10 ∧ j = 2)⟩
      (by simp) 2 (by decide)).2.1 rfl ⟨(10, 11), by decide, Or.inl rfl⟩,
   (tryCompile_variable_kinds
      ⟨[1, 2, 3], fun i => decide (i = 1), fun i => decide (i ≤ 3), fun _ => true,
        fun _ => false, fun _ => false,
        fun i => if i = 3 then Representation.Sexp else Representation.Integer,
        fun _ => 0, [(10, 11)], fun w j => decide (w = 10 ∧ j = 2)⟩
      (by simp) 3 (by decide)).2.2.1 rfl rfl rfl (by simp)⟩

/-! ## The offsets of the binding cache -/

/-- C34: the pairs that get an offset are exactly the pairs (environment, name)
of the `LdVar`, `StVar` and `LdDots` instructions on a non-stub `MkEnv`; each
of them has an offset below the size of the cache array, two pairs with the
same offset are equal, every index below the size is the offset of a pair, and
the lookup of every such instruction finds its key
(`bindingsCache.count(env)` holds and `at(env).at(name)` is an offset below the
size). -/
theorem bindingsCache_offsets_bijection (code : List CacheInstr) :
    (∀ e n, (e, n) ∈ bindings code ↔ ∃ i ∈ code, ∃ l, cacheAccess i = some (e, n, l)) ∧
    (∀ e n, (e, n) ∈ bindings code →
      ∃ s, offsetOf code e n = some s ∧ s < bindingsCacheSize code) ∧
    (∀ e n s, offsetOf code e n = some s →
      (e, n) ∈ bindings code ∧ s < bindingsCacheSize code) ∧
    (∀ e1 n1 e2 n2 s, offsetOf code e1 n1 = some s → offsetOf code e2 n2 = some s →
      e1 = e2 ∧ n1 = n2) ∧
    (∀ s, s < bindingsCacheSize code → ∃ e n, offsetOf code e n = some s) ∧
    (∀ i ∈ code, ∀ e n l, cacheAccess i = some (e, n, l) →
      hasCache code e = true ∧
      ∃ s, offsetOf code e n = some s ∧ s < bindingsCacheSize code) := by
  have hmem : ∀ e n, (e, n) ∈ bindings code →
      ∃ s, offsetOf code e n = some s ∧ s < bindingsCacheSize code := by
    intro e n h
    refine ⟨slotIndex (e, n) (bindings code), ?_, slotIndex_lt_length _ _ h⟩
    unfold offsetOf
    rw [if_pos h]
  refine ⟨?_, hmem, ?_, ?_, ?_, ?_⟩
  · intro e n
    constructor
    · intro h
      unfold bindings at h
      rw [List.mem_dedup, List.mem_filterMap] at h
      obtain ⟨i, hi, h2⟩ := h
      cases h3 : cacheAccess i with
      | none => rw [h3] at h2; simp at h2
      | some a =>
        rw [h3] at h2
        simp only [Option.map_some', Option.some.injEq, Prod.mk.injEq] at h2
        refine ⟨i, hi, a.2.2, ?_⟩
        rw [h3, ← h2.1, ← h2.2]
    · rintro ⟨i, hi, l, h⟩
      exact mem_bindings_of_access code i hi e n l h
  · intro e n s h
    unfold offsetOf at h
    by_cases hm : (e, n) ∈ bindings code
    · rw [if_pos hm] at h
      refine ⟨hm, ?_⟩
      have := slotIndex_lt_length _ _ hm
      simp only [Option.some.injEq] at h
      rw [← h]
      exact this
    · rw [if_neg hm] at h
      simp at h
  · intro e1 n1 e2 n2 s h1 h2
    exact offsetOf_inj code e1 n1 e2 n2 s h1 h2
  · intro s hs
    have hnd : (bindings code).Nodup := by
      unfold bindings
      exact List.nodup_dedup _
    have hg := slotIndex_getElem (bindings code) hnd s hs
    refine ⟨((bindings code).get ⟨s, hs⟩).1, ((bindings code).get ⟨s, hs⟩).2, ?_⟩
    unfold offsetOf
    rw [if_pos (List.get_mem _ _ _)]
    exact congrArg some hg
  · intro i hi e n l h
    have hm := mem_bindings_of_access code i hi e n l h
    refine ⟨?_, hmem e n hm⟩
    unfold hasCache
    rw [List.any_eq_true]
    exact ⟨(e, n), hm, by simp⟩

/-! ## Division of two integers -/

/-- C35 (code defect): a `Div` whose operands are the `Integer` values 7 and 2,
lowered for a result in `Real` representation, takes the integer callback
`sdiv` and yields 3.0, the truncated quotient, while the quotient 7 / 2 is
3.5; the floating-point callback on the same operands would divide exactly. -/
theorem div_int_truncates_at_7_2 :
    lowerDiv false .Real true true (.int 7) (.int 2)
      = .native false (.value (some (.dbl (F64.fin false 3)))) ∧
    (F64.fin false 3).toRat = 3 ∧
    (3 : ℚ) ≠ ((7 : Int) : ℚ) / ((2 : Int) : ℚ) ∧
    lowerDiv false .Integer true true (.int 7) (.int 2)
      = .native false (.value (some (.int 3))) := by
  have hb : binopNative divInt (some divFp) true true (.int 7) (.int 2) =
      ⟨false, some (.int 3)⟩ := by decide
  have ho : F64.ofInt 3 = F64.fin false 3 := by
    rw [F64.ofInt_eq 3 (by decide)]
    simp
  have hna : ¬ (3 : Int) = NA_INTEGER := by decide
  have hcv : convert (.int 3) .Real = .value (some (.dbl (F64.fin false 3))) := by
    show ConvertResult.value
      (some (.dbl (if (3 : Int) = NA_INTEGER then NA_REAL else F64.ofInt 3))) = _
    rw [if_neg hna, ho]
  have hci : convert (.int 3) .Integer = .value (some (.int 3)) := rfl
  refine ⟨?_, ?_, ?_, ?_⟩
  · simp [lowerDiv, compileBinop, Operand.load, Operand.rep, hb, hcv]
  · simp [F64.toRat]
  · norm_num
  · simp [lowerDiv, compileBinop, Operand.load, Operand.rep, hb, hci]

/-! ## The inlined `min` and `max` -/

theorem lowerMinMax_int (isMin : Bool) (a b : Int) :
    lowerMinMax isMin .Integer (.int a) (.int b) =
      .value (some (.int (if isMin then min a b else max a b))) := by
  cases isMin
  · simp only [lowerMinMax, select, icmpSLT]
    by_cases h : a < b
    · simp [h, max_eq_right (le_of_lt h)]
    · simp [h, max_eq_left (not_lt.mp h)]
  · simp only [lowerMinMax, select, icmpSLT]
    by_cases h : b < a
    · simp [h, min_eq_right (le_of_lt h)]
    · simp [h, min_eq_left (not_lt.mp h)]

/-- C36 (code defect): the inlined `max` of the `Integer` operands `NA_INTEGER`
and 5 is 5, in either order, and not `NA_INTEGER`: the select compares the
operands as signed numbers without a check for NA, unlike the integer path of
`compileBinop`; only `min` yields NA, as `NA_INTEGER` is the least `i32`. -/
theorem max_int_drops_na :
    lowerMinMax false .Integer (.int NA_INTEGER) (.int 5) = .value (some (.int 5)) ∧
    lowerMinMax false .Integer (.int 5) (.int NA_INTEGER) = .value (some (.int 5)) ∧
    lowerMinMax false .Sexp (.int NA_INTEGER) (.int 5) = .boxInt 5 ∧
    (5 : Int) ≠ NA_INTEGER ∧
    lowerMinMax true .Integer (.int NA_INTEGER) (.int 5) = .value (some (.int NA_INTEGER)) ∧
    lowerBinop .Add false .Integer true true (.int NA_INTEGER) (.int 5)
      = .native false (.value (some (.int NA_INTEGER))) := by
  decide

/-! ## The inlined `as.integer` -/

/-- C37 (code defect): for the argument -1.5 in `Real` representation the
branch of `as.integer` with a `Real` result yields -2.0 (it takes the floor),
while the branch with an `Integer` result yields -1 (`fptosi` truncates), which
is -1.0 as a double: the two branches disagree on negative non-integers. -/
theorem asInteger_paths_disagree :
    lowerAsInteger .Real (.dbl (F64.fin true (3 / 2)))
      = .value (some (.dbl (F64.fin true 2))) ∧
    lowerAsInteger .Integer (.dbl (F64.fin true (3 / 2)))
      = .value (some (.int (-1))) ∧
    F64.ofInt (-1) = F64.fin true 1 ∧
    F64.fin true 1 ≠ F64.fin true 2 := by
  have hne : F64.fcmpUNE (F64.fin true (3 / 2)) (F64.fin true (3 / 2)) = false := by
    simp [F64.fcmpUNE, F64.unordered, F64.isNaN, F64.eq]
  have hceil : ⌈(3 / 2 : ℚ)⌉ = 2 := by
    rw [Int.ceil_eq_iff]
    norm_num
  have hfloor : ⌊(3 / 2 : ℚ)⌋ = ((1 : ℕ) : Int) := by
    rw [Int.floor_eq_iff]
    norm_num
  refine ⟨?_, ?_, ?_, ?_⟩
  · simp only [lowerAsInteger, asIntegerRealToReal, select, hne, Bool.false_eq_true,
      if_false, F64.floor, if_true, hceil]
    norm_num
  · have h := fptosi_fin true (3 / 2) (by norm_num) 1 hfloor (by decide)
    simp only [lowerAsInteger, asIntegerRealToInt, hne, Bool.false_eq_true, if_false, h]
    simp
  · rw [F64.ofInt_eq (-1) (by decide)]
    simp
  · intro h
    simp only [F64.fin.injEq, true_and] at h
    norm_num at h

/-! ## Compiling a closure to PIR -/

/-- C38 (counterexample): when the translation succeeds and the verification of
the new closure fails, in a build with assertions, `compileClosure` stops at
`assert(false)` inside the callback of `createIfMissing`: neither `fail` nor
`success` is invoked. -/
theorem compileClosure_verify_failure_asserts :
    compileClosure ⟨[.R_MissingArg], [5], true, true, false, false⟩
      = .error (.assertion "false") :=
  rfl

/-- C38 (amended): `compileClosure` invokes `fail`, without touching the module,
when a default argument is not `R_MissingArg` or an argument name is the dots
symbol. Otherwise it calls `createIfMissing`; it then invokes `fail` when the
callback ran and the translation failed, or the verification failed in a build
without assertions; it stops at `assert(false)`, invoking neither callback,
when the verification failed in a build with assertions; and it invokes
`success` with `module->get(srcFunction)` in every other case. Whenever it
returns, exactly one of the two callbacks has been invoked, exactly once. -/
theorem compileClosure_callbacks (r : ClosureCompile) :
    (((∃ d ∈ r.default_args, d ≠ SEXP.R_MissingArg) ∨ R_DotsSymbol ∈ r.arg_names) →
      compileClosure r = .ok [.fail]) ∧
    (¬ ((∃ d ∈ r.default_args, d ≠ SEXP.R_MissingArg) ∨ R_DotsSymbol ∈ r.arg_names) →
      compileClosure r =
        if r.missing = true ∧ r.tryCompile = true ∧ r.verify = false ∧ r.ndebug = false then
          .error (.assertion "false")
        else if r.missing = true ∧ (r.tryCompile = false ∨ r.verify = false) then
          .ok [.createIfMissing, .fail]
        else .ok [.createIfMissing, .get, .success]) ∧
    (∀ t, compileClosure r = .ok t →
      t.count .success + t.count .fail = 1 ∧
      (CompileEvent.success ∈ t ↔ CompileEvent.get ∈ t)) := by
  have hd : r.default_args.any (fun d => decide (d ≠ SEXP.R_MissingArg)) = true ↔
      ∃ d ∈ r.default_args, d ≠ SEXP.R_MissingArg := by
    rw [List.any_eq_true]
    constructor
    · rintro ⟨d, hd, h⟩
      exact ⟨d, hd, by simpa using h⟩
    · rintro ⟨d, hd, h⟩
      exact ⟨d, hd, by simpa using h⟩
  have hn : r.arg_names.any (fun d => decide (d = R_DotsSymbol)) = true ↔
      R_DotsSymbol ∈ r.arg_names := by
    rw [List.any_eq_true]
    constructor
    · rintro ⟨d, hd, h⟩
      have : d = R_DotsSymbol := by simpa using h
      rw [← this]
      exact hd
    · intro h
      exact ⟨R_DotsSymbol, h, by simp⟩
  have hgood : ¬ ((∃ d ∈ r.default_args, d ≠ SEXP.R_MissingArg) ∨ R_DotsSymbol ∈ r.arg_names) →
      compileClosure r =
        if r.missing = true ∧ r.tryCompile = true ∧ r.verify = false ∧ r.ndebug = false then
          .error (.assertion "false")
        else if r.missing = true ∧ (r.tryCompile = false ∨ r.verify = false) then
          .ok [.createIfMissing, .fail]
        else .ok [.createIfMissing, .get, .success] := by
    intro h
    rw [not_or] at h
    have h1 : ¬ r.default_args.any (fun d => decide (d ≠ SEXP.R_MissingArg)) = true :=
      fun hh => h.1 (hd.1 hh)
    have h2 : ¬ r.arg_names.any (fun d => decide (d = R_DotsSymbol)) = true :=
      fun hh => h.2 (hn.1 hh)
    unfold compileClosure
    rw [if_neg h1, if_neg h2]
    unfold createIfMissing createCallback
    cases r.missing <;> cases r.tryCompile <;> cases r.verify <;> cases r.ndebug <;> rfl
  refine ⟨?_, hgood, ?_⟩
  · intro h
    unfold compileClosure
    by_cases h1 : r.default_args.any (fun d => decide (d ≠ SEXP.R_MissingArg)) = true
    · rw [if_pos h1]
    · rw [if_neg h1]
      rcases h with h | h
      · exact absurd (hd.2 h) h1
      · rw [if_pos (hn.2 h)]
  · intro t ht
    by_cases hb : (∃ d ∈ r.default_args, d ≠ SEXP.R_MissingArg) ∨ R_DotsSymbol ∈ r.arg_names
    · have : compileClosure r = .ok [.fail] := by
        unfold compileClosure
        by_cases h1 : r.default_args.any (fun d => decide (d ≠ SEXP.R_MissingArg)) = true
        · rw [if_pos h1]
        · rw [if_neg h1]
          rcases hb with h | h
          · exact absurd (hd.2 h) h1
          · rw [if_pos (hn.2 h)]
      rw [this] at ht
      injection ht with ht
      subst ht
      decide
    · rw [hgood hb] at ht
      split_ifs at ht
      all_goals
        injection ht with ht
        subst ht
        decide

/-! ## Names of the versions in the event stream -/

/-- C39 (code defect): after the registrations of the UIDs 1 and 2 under the
name `f` and of the UID 3 under the name `f~1`, the UIDs 2 and 3 both have the
display name `f~1`: the suffix given to the second `f` collides with a
requested name that has no suffix of its own. And a UID registered under the
name `<unknown>` gets from `getNameOf` the answer of an unregistered UID. -/
theorem setNameOf_collision :
    (EventStream.register [(1, "f"), (2, "f"), (3, "f~1")]).versionNames 2 = some "f~1" ∧
    (EventStream.register [(1, "f"), (2, "f"), (3, "f~1")]).versionNames 3 = some "f~1" ∧
    (EventStream.register [(1, "f"), (2, "f"), (3, "f~1")]).getNameOf 2 =
      (EventStream.register [(1, "f"), (2, "f"), (3, "f~1")]).getNameOf 3 ∧
    (EventStream.register [(1, "<unknown>")]).versionNames 1 ≠ none ∧
    (EventStream.register [(1, "<unknown>")]).getNameOf 1 = "<unknown>" := by
  decide

theorem setNameOf_registered (s : EventStream) (uid : Nat) (name : String)
    (h : s.versionNames uid ≠ none) : s.setNameOf uid name = s := by
  unfold EventStream.setNameOf
  cases hv : s.versionNames uid with
  | none => exact absurd hv h
  | some n => rfl

theorem getNameOf_unregistered (s : EventStream) (uid : Nat) (h : s.versionNames uid = none) :
    s.getNameOf uid = "<unknown>" := by
  unfold EventStream.getNameOf
  rw [h]

/-! ## The visibility analysis -/

theorem isVisibilityChanging_reports_iff (vis : LastVisibilityUpdate) (i : Nat) :
    ((isVisibilityChanging vis i).1 = true ↔ vis.last ≠ some i) ∧
    ((isVisibilityChanging vis i).1 = true ↔ (isVisibilityChanging vis i).2 ≠ vis) ∧
    (isVisibilityChanging (isVisibilityChanging vis i).2 i).1 = false := by
  unfold isVisibilityChanging
  by_cases h : vis.last = some i
  · simp [h]
  · simp only [ne_eq, h, not_false_eq_true, if_true, true_iff, not_true_eq_false, if_false]
    refine ⟨trivial, ?_, trivial⟩
    intro heq
    apply h
    rw [← heq]

/-- C40 (code defect): for an instruction of another tag that exits, with `last`
set to the instruction 1 that is already in `observable`, `apply` leaves the
state as it is and still reports an update; applied to the state
`(1, {})` it adds 1 to `observable` and reports an update, and applied a second
time to the result it reports an update again. The branch of the
visibility-changing instructions reports nothing when it changes nothing. -/
theorem visibility_exit_reports_without_change :
    VisibilityAnalysis.apply ⟨some 1, [1]⟩ 7 (.other true) = (true, ⟨some 1, [1]⟩) ∧
    VisibilityAnalysis.apply ⟨some 1, []⟩ 7 (.other true) = (true, ⟨some 1, [1]⟩) ∧
    VisibilityAnalysis.apply (VisibilityAnalysis.apply ⟨some 1, []⟩ 7 (.other true)).2 7
      (.other true) = (true, ⟨some 1, [1]⟩) ∧
    VisibilityAnalysis.apply ⟨some 7, [1]⟩ 7 .Visible = (false, ⟨some 7, [1]⟩) := by
  decide

end Rir
